import Mathlib

/-! HVM guest builder (tools/libxc/xc_hvm_build.c): a shallow embedding

Conventions of the embedding.

* Memory reached through a C pointer (`char *elfbase`, a mapped guest page) is a
  function `Nat → Nat` from byte offset to byte; a read takes the value modulo 256.
  Multi-byte fields are little-endian (x86).
* Machine integers are `Nat` with an explicit reduction where the C type can wrap:
  `uint32_t` arithmetic on ELF fields is taken modulo `2^32`, `unsigned long long`
  modulo `2^64`, and `unsigned long` modulo `2^ULONG_BITS` (LP64, the `__x86_64__`
  configuration of the source).
* `Elf32_Ehdr`, `Elf32_Phdr`, `Elf32_Shdr` come from `xc_elf.h`; their field offsets
  are those of the ELF32 format.  Pointer arithmetic on `elfbase` is exact offset
  arithmetic.
* The hypervisor and the host are a parameter `Env` that fixes the outcome of every
  call; the operations issued and the guest memory are threaded through as a `World`.
* Constants and structure layouts that the source takes from headers outside
  tools/libxc/xc_hvm_build.c are introduced with a comment that says so.
-/

namespace XcHvmBuild

/-! ## Machine words and byte memory -/

/-- Width of `unsigned long` (LP64). -/
def ULONG_BITS : Nat := 64

/-- Value of `~0UL`. -/
def ULONG_MAX : Nat := 2 ^ ULONG_BITS - 1

/-- Byte-addressed memory behind a pointer. -/
abbrev Mem := Nat → Nat

/-- Read of one `uint8_t` at offset `a`. -/
def rd8 (m : Mem) (a : Nat) : Nat := m a % 256

/-- Read of a little-endian `uint16_t` at offset `a`. -/
def rd16 (m : Mem) (a : Nat) : Nat := rd8 m a + 256 * rd8 m (a + 1)

/-- Read of a little-endian `uint32_t` at offset `a`. -/
def rd32 (m : Mem) (a : Nat) : Nat :=
  rd8 m a + 256 * rd8 m (a + 1) + 65536 * rd8 m (a + 2) + 16777216 * rd8 m (a + 3)

/-- Memory whose first bytes are the given list and which is zero elsewhere. -/
def mem_of_list (bytes : List Nat) : Mem := fun i => bytes.getD i 0

/-- Little-endian bytes of a 16-bit value. -/
def le16 (v : Nat) : List Nat := [v % 256, v / 256 % 256]

/-- Little-endian bytes of a 32-bit value. -/
def le32 (v : Nat) : List Nat :=
  [v % 256, v / 256 % 256, v / 65536 % 256, v / 16777216 % 256]

/-! ## ELF32 structures (xc_elf.h) -/

/-- Modelled from the spec: `PAGE_SHIFT` and `PAGE_SIZE` are declared in
xc_private.h, which is not among the sources; pages are 4096 bytes. -/
def PAGE_SHIFT : Nat := 12
def PAGE_SIZE : Nat := 4096

/-- The value of `EINVAL` in errno.h. -/
def EINVAL : Int := 22

/-- Modelled from the spec: `PT_LOAD`, `PF_X`, `PF_W` and `SHN_UNDEF` are declared in
xc_elf.h, which is not among the sources; the values are those of the ELF format. -/
def PT_LOAD : Nat := 1
def PF_X : Nat := 1
def PF_W : Nat := 2
def SHN_UNDEF : Nat := 0

/-- The macro `HVM_LOADER_ENTR_ADDR` of the source. -/
def HVM_LOADER_ENTR_ADDR : Nat := 0x00100000

/-- Modelled from the spec: `Elf32_Ehdr` is declared in xc_elf.h, which is not among
the sources; its fields are read at their ELF32 offsets.  This one is the
`e_ident[i]` byte of the header at the start of the image. -/
def e_ident (image : Mem) (i : Nat) : Nat := rd8 image i
def e_entry (image : Mem) : Nat := rd32 image 24
def e_phoff (image : Mem) : Nat := rd32 image 28
def e_shoff (image : Mem) : Nat := rd32 image 32
def e_phentsize (image : Mem) : Nat := rd16 image 42
def e_phnum (image : Mem) : Nat := rd16 image 44
def e_shentsize (image : Mem) : Nat := rd16 image 46
def e_shnum (image : Mem) : Nat := rd16 image 48
def e_shstrndx (image : Mem) : Nat := rd16 image 50

/-- Size of `Elf32_Ehdr`, `Elf32_Phdr` and `Elf32_Shdr`. -/
def SIZEOF_EHDR : Nat := 52
def SIZEOF_PHDR : Nat := 32
def SIZEOF_SHDR : Nat := 40

/-- Modelled from the spec: `Elf32_Phdr` is declared in xc_elf.h, which is not among
the sources.  These are the fields of the header found at byte offset `phdr` of the
image, at their ELF32 offsets. -/
def p_type (image : Mem) (phdr : Nat) : Nat := rd32 image phdr
def p_offset (image : Mem) (phdr : Nat) : Nat := rd32 image (phdr + 4)
def p_paddr (image : Mem) (phdr : Nat) : Nat := rd32 image (phdr + 12)
def p_filesz (image : Mem) (phdr : Nat) : Nat := rd32 image (phdr + 16)
def p_memsz (image : Mem) (phdr : Nat) : Nat := rd32 image (phdr + 20)
def p_flags (image : Mem) (phdr : Nat) : Nat := rd32 image (phdr + 24)

/-- Modelled from the spec: `Elf32_Shdr` is declared in xc_elf.h, which is not among
the sources.  This is the field `sh_offset` of the header found at byte offset `shdr`
of the image. -/
def sh_offset (image : Mem) (shdr : Nat) : Nat := rd32 image (shdr + 16)

/-- The macro `IS_ELF`: the four magic bytes `0x7f 'E' 'L' 'F'`. -/
def IS_ELF (image : Mem) : Bool :=
  e_ident image 0 == 0x7f && e_ident image 1 == 0x45 &&
  e_ident image 2 == 0x4c && e_ident image 3 == 0x46

/-- The displacement that an `int` product `p` adds to a `char *` on a machine with
64-bit addresses, as a number modulo `2^64`: the product itself while it fits an
`int`; from `2^31` on the `int` overflows, which C leaves undefined, and the model
follows the compiled code, where the product wraps to the negative number
`p mod 2^32 - 2^32` and moves the pointer backwards. -/
def int_offset (p : Nat) : Nat :=
  if p % 2 ^ 32 < 2 ^ 31 then p % 2 ^ 32 else p % 2 ^ 32 + (2 ^ 64 - 2 ^ 32)

/-- Byte offset from `elfbase` at which program header `h` is read:
`elfbase + e_phoff + h * e_phentsize`, with `h` an `int` and `e_phentsize` promoted
to `int`.  Offsets are taken modulo `2^64`, so an offset just below `2^64` stands
for a byte in front of the image; this is where the header is read once the product
reaches `2^31`. -/
def phdr_at (image : Mem) (h : Nat) : Nat :=
  (e_phoff image + int_offset (h * e_phentsize image)) % 2 ^ 64

/-- The function `is_loadable_phdr`: `PT_LOAD` with the W or the X flag. -/
def is_loadable_phdr (image : Mem) (phdr : Nat) : Bool :=
  p_type image phdr == PT_LOAD && (p_flags image phdr &&& (PF_W ||| PF_X)) != 0

/-- Modelled from the spec: `struct domain_setup_info` is declared in xg_private.h,
which is not among the sources; these are the fields the source uses. -/
structure domain_setup_info where
  v_start : Nat
  v_end : Nat
  v_kernstart : Nat
  v_kernend : Nat
  v_kernentry : Nat
deriving DecidableEq, Repr

/-- The value left by `memset(&dsi, 0, sizeof dsi)`. -/
def domain_setup_info.zero : domain_setup_info := ⟨0, 0, 0, 0, 0⟩

/-- The program-header loop of `parseelfimage`: `n` headers remain, `h` is the next
index, `(kernstart, kernend)` the running span.  `p_paddr + p_memsz` is a
`uint32_t` sum. -/
def kern_span (image : Mem) : Nat → Nat → Nat × Nat → Nat × Nat
  | 0, _, span => span
  | n + 1, h, (kernstart, kernend) =>
    let phdr := phdr_at image h
    if !is_loadable_phdr image phdr then
      kern_span image n (h + 1) (kernstart, kernend)
    else
      let kernstart1 :=
        if p_paddr image phdr < kernstart then p_paddr image phdr else kernstart
      let kernend1 :=
        if (p_paddr image phdr + p_memsz image phdr) % 2 ^ 32 > kernend then
          (p_paddr image phdr + p_memsz image phdr) % 2 ^ 32
        else kernend
      kern_span image n (h + 1) (kernstart1, kernend1)

/-- The function `parseelfimage`: the status returned and the setup info left in
`*dsi`.  The two table checks add `uint32_t` values, so the sums are modulo `2^32`. -/
def parseelfimage (image : Mem) (elfsize : Nat) (dsi : domain_setup_info) :
    Int × domain_setup_info :=
  if !IS_ELF image then (-EINVAL, dsi)
  else if (e_phoff image + e_phnum image * e_phentsize image) % 2 ^ 32 > elfsize then
    (-EINVAL, dsi)
  else if (e_shoff image + e_shnum image * e_shentsize image) % 2 ^ 32 > elfsize then
    (-EINVAL, dsi)
  else if e_shstrndx image = SHN_UNDEF then (-EINVAL, dsi)
  else
    let shdr := (e_shoff image + int_offset (e_shstrndx image * e_shentsize image)) % 2 ^ 64
    let _shstrtab := sh_offset image shdr
    let span := kern_span image (e_phnum image) 0 (ULONG_MAX, 0)
    if span.1 > span.2 ∨ e_entry image < span.1 ∨ e_entry image > span.2 then
      (-EINVAL, dsi)
    else
      (0, { dsi with v_start := 0, v_kernstart := span.1, v_kernend := span.2,
                     v_kernentry := HVM_LOADER_ENTR_ADDR, v_end := span.2 })

/-! ## Sample images -/

/-- An ELF32 header with the given entry point and table geometry. -/
def sample_ehdr (entry phoff shoff phentsize phnum shentsize shnum shstrndx : Nat) :
    List Nat :=
  [0x7f, 0x45, 0x4c, 0x46, 1, 1, 1, 0, 0, 0, 0, 0, 0, 0, 0, 0] ++ le16 2 ++ le16 3 ++
  le32 1 ++ le32 entry ++ le32 phoff ++ le32 shoff ++ le32 0 ++ le16 52 ++
  le16 phentsize ++ le16 phnum ++ le16 shentsize ++ le16 shnum ++ le16 shstrndx

/-- An `Elf32_Phdr` with the given fields (`p_vaddr = p_paddr`, `p_align = 0x1000`). -/
def sample_phdr (type offset paddr filesz memsz flags : Nat) : List Nat :=
  le32 type ++ le32 offset ++ le32 paddr ++ le32 paddr ++ le32 filesz ++ le32 memsz ++
  le32 flags ++ le32 0x1000

/-- A 172-byte image: header, one loadable segment of 8 bytes at `0x100000` that
occupies `0x1000` bytes in memory, two empty section headers, entry `0x100010`. -/
def sample_image : Mem :=
  mem_of_list (sample_ehdr 0x100010 52 84 32 1 40 2 1 ++
    sample_phdr 1 164 0x100000 8 0x1000 5 ++ List.replicate 80 0 ++
    [1, 2, 3, 4, 5, 6, 7, 8])

/-- The sample image with its entry point moved below the loadable segment. -/
def sample_image_bad_entry : Mem :=
  mem_of_list (sample_ehdr 0xFFFF0 52 84 32 1 40 2 1 ++
    sample_phdr 1 164 0x100000 8 0x1000 5 ++ List.replicate 80 0 ++
    [1, 2, 3, 4, 5, 6, 7, 8])

/-- An image whose section-header table ends at `2^32`, past the end of the image,
while every header the parser reads lies inside the first `wrap_elfsize` bytes. -/
def wrap_image : Mem :=
  mem_of_list (sample_ehdr 0x100010 52 0xFFFF0000 32 1 0x8000 2 1 ++
    sample_phdr 1 84 0x100000 8 0x1000 5 ++ [1, 2, 3, 4, 5, 6, 7, 8])

/-- Length of `wrap_image`: the second section header ends here. -/
def wrap_elfsize : Nat := 0xFFFF8028

/-! ## Stores into byte memory -/

/-- Store of one byte. -/
def wr8 (m : Mem) (a v : Nat) : Mem := fun x => if x = a then v % 256 else m x

/-- Store of a little-endian `uint32_t`. -/
def wr32 (m : Mem) (a v : Nat) : Mem :=
  wr8 (wr8 (wr8 (wr8 m a v) (a + 1) (v / 256)) (a + 2) (v / 65536)) (a + 3) (v / 16777216)

/-- Store of a little-endian `uint64_t`. -/
def wr64 (m : Mem) (a v : Nat) : Mem := wr32 (wr32 m a v) (a + 4) (v / 2 ^ 32)

/-- Store of a list of bytes at consecutive offsets. -/
def wr_bytes (m : Mem) (a : Nat) : List Nat → Mem
  | [] => m
  | b :: bs => wr_bytes (wr8 m a b) (a + 1) bs

/-- The call `memset(m + a, c, n)`. -/
def memset (m : Mem) (a c n : Nat) : Mem :=
  fun x => if a ≤ x ∧ x < a + n then c % 256 else m x

/-- The call `memcpy(dst + d, src + s, n)`. -/
def memcpy (dst : Mem) (d : Nat) (src : Mem) (s n : Nat) : Mem :=
  fun x => if d ≤ x ∧ x < d + n then rd8 src (s + (x - d)) else dst x

/-- Exact sum of the `n` bytes at offset `t`. -/
def byte_sum (m : Mem) (t : Nat) : Nat → Nat
  | 0 => 0
  | n + 1 => byte_sum m t n + rd8 m (t + n)

/-! ## Firmware memory map (build_e820map) -/

/-- Modelled from the spec: the entry types, the below-4GiB RAM ceiling, the MMIO
reservation that reaches from the ceiling to 4 GiB, and the place of the map in
guest memory are declared in xen/hvm/e820.h, which is not among the sources. -/
def E820_RAM : Nat := 1
def E820_RESERVED : Nat := 2
def E820_ACPI : Nat := 3
def HVM_BELOW_4G_RAM_END : Nat := 0xF0000000
def HVM_BELOW_4G_MMIO_LENGTH : Nat := 2 ^ 32 - HVM_BELOW_4G_RAM_END
def E820_MAP_PAGE : Nat := 0x00090000
def E820_MAP_NR_OFFSET : Nat := 0x000001E8
def E820_MAP_OFFSET : Nat := 0x000002D0

/-- Modelled from the spec: `struct e820entry` is declared in xen/hvm/e820.h, which
is not among the sources: `uint64_t addr`, `uint64_t size`, `uint32_t type`. -/
structure e820entry where
  addr : Nat
  size : Nat
  type : Nat
deriving DecidableEq, Repr

/-- What `build_e820map` sees of the page it is given: the `e820entry` array at
`E820_MAP_OFFSET` and the running count `nr_map`, whose final value is the byte
stored at `E820_MAP_NR_OFFSET`. -/
structure e820_view where
  e820entry : Nat → e820entry
  nr_map : Nat

/-- The stores `e820entry[nr_map].addr`, `.size`, `.type` followed by `nr_map++`
(`nr_map` is an `unsigned char`). -/
def e820_put (v : e820_view) (addr size type : Nat) : e820_view :=
  { e820entry := fun i => if i = v.nr_map then ⟨addr, size, type⟩ else v.e820entry i,
    nr_map := (v.nr_map + 1) % 256 }

/-- The function `build_e820map`, on the entry array found in the page.  `mem_size`
is an `unsigned long long`, so the size of the low RAM entry is computed modulo
`2^64`. -/
def build_e820map (e820entry0 : Nat → e820entry) (mem_size : Nat) : e820_view :=
  let extra_mem_size :=
    if mem_size > HVM_BELOW_4G_RAM_END then mem_size - HVM_BELOW_4G_RAM_END else 0
  let mem_size :=
    if mem_size > HVM_BELOW_4G_RAM_END then HVM_BELOW_4G_RAM_END else mem_size
  let v : e820_view := ⟨e820entry0, 0⟩
  let v := e820_put v 0x0 0x9F000 E820_RAM
  let v := e820_put v 0x9F000 0x1000 E820_RESERVED
  let v := e820_put v 0xEA000 0x01000 E820_ACPI
  let v := e820_put v 0xF0000 0x10000 E820_RESERVED
  let v := e820_put v 0x100000
    ((mem_size + 2 ^ 64 - 0x100000 - PAGE_SIZE * 3) % 2 ^ 64) E820_RAM
  let v := if extra_mem_size ≠ 0 then e820_put v (2 ^ 32) extra_mem_size E820_RAM else v
  v

/-- The entries written by `build_e820map`, in index order. -/
def e820_entries (v : e820_view) : List e820entry :=
  (List.range v.nr_map).map v.e820entry

/-- Sum of the sizes of the entries of type `E820_RAM`. -/
def e820_ram_total (l : List e820entry) : Nat :=
  ((l.filter (fun e => e.type = E820_RAM)).map (fun e => e.size)).sum

/-- The entry array of a page cleared by `memset(e820_page, 0, PAGE_SIZE)`. -/
def e820_zero : Nat → e820entry := fun _ => ⟨0, 0, 0⟩

/-! ## Boot-info table (set_hvm_info, set_hvm_info_checksum) -/

/-- Modelled from the spec: `struct hvm_info_table` is declared in
xen/hvm/hvm_info_table.h, which is not among the sources.  Its layout is a
parameter: the size of the structure and the offsets of `char signature[8]`,
`uint32_t length`, `uint8_t checksum`, `uint8_t acpi_enabled` and
`uint32_t nr_vcpus`. -/
structure hvm_info_layout where
  sizeof : Nat
  signature : Nat
  length : Nat
  checksum : Nat
  acpi_enabled : Nat
  nr_vcpus : Nat

/-- A layout a C compiler can produce: the structure fits 32-bit `length`, every
field lies inside it, and no other field the builder stores to shares a byte with
`length`. -/
def hvm_info_layout.wf (L : hvm_info_layout) : Prop :=
  L.sizeof < 2 ^ 32 ∧
  L.signature + 8 ≤ L.sizeof ∧ L.length + 4 ≤ L.sizeof ∧ L.checksum + 1 ≤ L.sizeof ∧
  L.acpi_enabled + 1 ≤ L.sizeof ∧ L.nr_vcpus + 4 ≤ L.sizeof ∧
  (L.signature + 8 ≤ L.length ∨ L.length + 4 ≤ L.signature) ∧
  (L.checksum < L.length ∨ L.length + 4 ≤ L.checksum) ∧
  (L.acpi_enabled < L.length ∨ L.length + 4 ≤ L.acpi_enabled) ∧
  (L.nr_vcpus + 4 ≤ L.length ∨ L.length + 4 ≤ L.nr_vcpus)

/-- The layout on x86: fields in declaration order, `nr_vcpus` aligned to 4. -/
def hvm_info_x86 : hvm_info_layout := ⟨20, 0, 8, 12, 13, 16⟩

/-- Modelled from the spec: `HVM_INFO_PFN` and `HVM_INFO_OFFSET` are declared in
xen/hvm/hvm_info_table.h, which is not among the sources; the source places the
table at guest address `0x9F800`. -/
def HVM_INFO_PFN : Nat := 0x09F
def HVM_INFO_OFFSET : Nat := 0x800

/-- The loop `for (i = 0; i < t->length; i++) sum += *ptr++;` with `n` iterations
left; `sum` is a `uint8_t`. -/
def sum_loop (m : Mem) : Nat → Nat → Nat → Nat
  | 0, _, sum => sum
  | n + 1, ptr, sum => sum_loop m n (ptr + 1) ((sum + rd8 m ptr) % 256)

/-- The function `set_hvm_info_checksum` on the table at offset `t` of `m`. -/
def set_hvm_info_checksum (L : hvm_info_layout) (m : Mem) (t : Nat) : Mem :=
  let m := wr8 m (t + L.checksum) 0
  let sum := sum_loop m (rd32 m (t + L.length)) t 0
  wr8 m (t + L.checksum) ((256 - sum) % 256)

/-- The stores of `set_hvm_info` into the mapped page `va_map`: `memset`, the
signature `"HVM INFO"`, `length`, `acpi_enabled`, `nr_vcpus`, then the checksum. -/
def set_hvm_info_table (L : hvm_info_layout) (va_map : Mem) (vcpus acpi : Nat) : Mem :=
  let va_hvm := HVM_INFO_OFFSET
  let m := memset va_map va_hvm 0 L.sizeof
  let m := wr_bytes m (va_hvm + L.signature) [0x48, 0x56, 0x4D, 0x20, 0x49, 0x4E, 0x46, 0x4F]
  let m := wr32 m (va_hvm + L.length) L.sizeof
  let m := wr8 m (va_hvm + L.acpi_enabled) acpi
  let m := wr32 m (va_hvm + L.nr_vcpus) vcpus
  set_hvm_info_checksum L m va_hvm

/-! ## Hypervisor and host interface -/

/-- Modelled from the spec: the parameter indices `HVM_PARAM_*` are declared in
xen/hvm/params.h, which is not among the sources; they are kept as names. -/
inductive hvm_param
  | PAE_ENABLED
  | APIC_ENABLED
  | STORE_PFN
  | STORE_EVTCHN
  | BUFIOREQ_PFN
  | IOREQ_PFN
deriving DecidableEq, Repr

/-- Modelled from the spec: `struct trap_info` is declared in the public Xen headers,
which are not among the sources; these are the fields the source stores to. -/
structure trap_info where
  vector : Nat
  cs : Nat
deriving DecidableEq, Repr

/-- Modelled from the spec: `vcpu_guest_context_t` is declared in the public Xen
headers, which are not among the sources; these are the fields the source names
(`eip` is `user_regs.eip`; `trap_ctxt` has 256 entries and `debugreg` 8; the
callback fields are those of the `__x86_64__` branch).  `fpu_ctxt`, which the source
only zero-fills, is left out. -/
structure vcpu_guest_context where
  flags : Nat
  eip : Nat
  trap_ctxt : List trap_info
  ldt_ents : Nat
  gdt_ents : Nat
  debugreg : List Nat
  event_callback_eip : Nat
  failsafe_callback_eip : Nat
  syscall_callback_eip : Nat
deriving DecidableEq, Repr

/-- One privileged operation issued for the domain, with the arguments that the
hypervisor sees.  `extent_start` and `gpfn_list` are the array slices passed by
pointer and count; `getdomaininfo` and `setvcpucontext` are the two `xc_domctl`
commands, the second with the vcpu number and the context behind the guest handle. -/
inductive Hcall
  | populate_physmap (nr_extents : Nat) (extent_start : List Nat)
  | decrease_reservation (nr_extents : Nat) (extent_start : List Nat)
  | translate_gpfn_list (nr_gpfns : Nat) (gpfn_list : List Nat)
  | map_foreign_range (mfn : Nat)
  | clear_domain_page (mfn : Nat)
  | set_param (index : hvm_param) (value : Nat)
  | getdomaininfo (domain : Nat)
  | setvcpucontext (domain vcpu : Nat) (ctxt : vcpu_guest_context)
deriving DecidableEq, Repr

/-- Behaviour of the hypervisor and of the host during one build.  The outcome of
the `k`-th call of each kind is given separately (`k` counts earlier calls of that
kind); a parameter is set once per build, so the outcome of setting it is indexed by
the parameter. -/
structure Env where
  /-- Whether `malloc` of the page array succeeds. -/
  malloc_ok : Bool
  /-- Status of the `k`-th `xc_domain_memory_populate_physmap`. -/
  populate_physmap : Nat → Int
  /-- Status of the `k`-th `xc_domain_memory_decrease_reservation`. -/
  decrease_reservation : Nat → Int
  /-- Status of the `k`-th `xc_domain_translate_gpfn_list`. -/
  translate_gpfn_list : Nat → Int
  /-- The machine frame the hypervisor reports for a guest frame. -/
  gpfn_to_mfn : Nat → Nat
  /-- Whether the `k`-th `xc_map_foreign_range` returns a mapping. -/
  map_foreign_range : Nat → Bool
  /-- Status of the `k`-th `xc_clear_domain_page`. -/
  clear_domain_page : Nat → Int
  /-- Whether `lock_pages` succeeds inside `xc_set_hvm_param` for this parameter. -/
  lock_pages : hvm_param → Bool
  /-- Status of the `HVMOP_set_param` hypercall for this parameter. -/
  hvm_op : hvm_param → Int
  /-- Whether `lock_pages` on the CPU context succeeds in `xc_hvm_build_internal`. -/
  lock_ctxt : Bool
  /-- Status of the `XEN_DOMCTL_getdomaininfo` call. -/
  getdomaininfo : Int
  /-- The domain identifier found in `domctl.domain` after that call. -/
  info_domain : Nat
  /-- The frame found in `domctl.u.getdomaininfo.shared_info_frame` after that call. -/
  info_shared_info_frame : Nat
  /-- Status of the `XEN_DOMCTL_setvcpucontext` call. -/
  setvcpucontext : Int

/-- State outside the builder: the operations issued so far, oldest first, and the
contents of guest memory by machine frame. -/
structure World where
  trace : List Hcall
  mem : Nat → Mem

def Hcall.is_populate : Hcall → Bool
  | .populate_physmap _ _ => true
  | _ => false

def Hcall.is_decrease : Hcall → Bool
  | .decrease_reservation _ _ => true
  | _ => false

def Hcall.is_translate : Hcall → Bool
  | .translate_gpfn_list _ _ => true
  | _ => false

def Hcall.is_map : Hcall → Bool
  | .map_foreign_range _ => true
  | _ => false

def Hcall.is_clear : Hcall → Bool
  | .clear_domain_page _ => true
  | _ => false

def Hcall.is_set_param : Hcall → Bool
  | .set_param _ _ => true
  | _ => false

def Hcall.is_getdomaininfo : Hcall → Bool
  | .getdomaininfo _ => true
  | _ => false

def Hcall.is_setvcpucontext : Hcall → Bool
  | .setvcpucontext _ _ _ => true
  | _ => false

/-- Number of operations of one kind issued so far. -/
def World.count (w : World) (kind : Hcall → Bool) : Nat := (w.trace.filter kind).length

/-- Record one more operation. -/
def World.issue (w : World) (c : Hcall) : World := { w with trace := w.trace ++ [c] }

/-- Replace the contents of one machine frame. -/
def World.store (w : World) (mfn : Nat) (page : Mem) : World :=
  { w with mem := fun f => if f = mfn then page else w.mem f }

/-- The call `xc_map_foreign_range(xch, dom, PAGE_SIZE, prot, mfn)`, a service of the
hypervisor interface: the operation is issued and the flag tells whether a mapping
came back. -/
def xc_map_foreign_range (env : Env) (w : World) (mfn : Nat) : World × Bool :=
  (w.issue (.map_foreign_range mfn), env.map_foreign_range (w.count Hcall.is_map))

/-- Modelled from the spec: `xc_clear_domain_page` is a libxc helper whose body is not
among the sources; it zero-fills the frame and returns a non-zero status on failure. -/
def xc_clear_domain_page (env : Env) (w : World) (mfn : Nat) : World × Int :=
  let rc := env.clear_domain_page (w.count Hcall.is_clear)
  let w := w.issue (.clear_domain_page mfn)
  if rc = 0 then (w.store mfn (memset (w.mem mfn) 0 0 PAGE_SIZE), rc) else (w, rc)

/-- The function `xc_set_hvm_param`: nothing is issued when `lock_pages` fails, and
the status of the hypercall is only reported, never returned. -/
def xc_set_hvm_param (env : Env) (w : World) (param : hvm_param) (value : Nat) : World :=
  if !env.lock_pages param then w
  else w.issue (.set_param param value)

/-- The function `set_hvm_info`: maps frame `pfn_list[HVM_INFO_PFN]`, fills the
table at `HVM_INFO_OFFSET` and returns 0, or returns -1 when the mapping fails. -/
def set_hvm_info (env : Env) (L : hvm_info_layout) (w : World) (pfn_list : Nat → Nat)
    (vcpus acpi : Nat) : Int × World :=
  let mfn := pfn_list HVM_INFO_PFN
  let (w, mapped) := xc_map_foreign_range env w mfn
  if !mapped then (-1, w)
  else (0, w.store mfn (set_hvm_info_table L (w.mem mfn) vcpus acpi))

/-! ## Image loader (loadelfimage) -/

/-- The value of `chunksz`: the bytes left, capped at
`PAGE_SIZE - (pa & (PAGE_SIZE-1))`. -/
def chunk_size (left pa : Nat) : Nat :=
  if left > PAGE_SIZE - (pa &&& (PAGE_SIZE - 1)) then PAGE_SIZE - (pa &&& (PAGE_SIZE - 1))
  else left

/-- The guest physical address `(phdr->p_paddr + done) - dsi->v_start` as an
`unsigned long`. -/
def load_pa (image : Mem) (phdr v_start done : Nat) : Nat :=
  ((p_paddr image phdr + done) % 2 ^ ULONG_BITS + 2 ^ ULONG_BITS - v_start % 2 ^ ULONG_BITS)
    % 2 ^ ULONG_BITS

/-- The copy loop `for (done = 0; done < phdr->p_filesz; done += chunksz)` from the
current `done`, with at most `fuel` iterations.  The flag is `false` when a mapping
failed (the function then returns -1); the number is the final `done`. -/
def load_copy (env : Env) (image : Mem) (parray : Nat → Nat) (v_start phdr : Nat) :
    Nat → Nat → World → Bool × Nat × World
  | 0, done, w => (true, done, w)
  | fuel + 1, done, w =>
    if done < p_filesz image phdr then
      let pa := load_pa image phdr v_start done
      let mfn := parray (pa >>> PAGE_SHIFT)
      let (w, mapped) := xc_map_foreign_range env w mfn
      if !mapped then (false, done, w)
      else
        let chunksz := chunk_size (p_filesz image phdr - done) pa
        let va := memcpy (w.mem mfn) (pa &&& (PAGE_SIZE - 1)) image
          (p_offset image phdr + done) chunksz
        load_copy env image parray v_start phdr fuel (done + chunksz) (w.store mfn va)
    else (true, done, w)

/-- The zero-fill loop `for ( ; done < phdr->p_memsz; done += chunksz)`. -/
def load_zero (env : Env) (image : Mem) (parray : Nat → Nat) (v_start phdr : Nat) :
    Nat → Nat → World → Bool × Nat × World
  | 0, done, w => (true, done, w)
  | fuel + 1, done, w =>
    if done < p_memsz image phdr then
      let pa := load_pa image phdr v_start done
      let mfn := parray (pa >>> PAGE_SHIFT)
      let (w, mapped) := xc_map_foreign_range env w mfn
      if !mapped then (false, done, w)
      else
        let chunksz := chunk_size (p_memsz image phdr - done) pa
        let va := memset (w.mem mfn) (pa &&& (PAGE_SIZE - 1)) 0 chunksz
        load_zero env image parray v_start phdr fuel (done + chunksz) (w.store mfn va)
    else (true, done, w)

/-- The program-header loop of `loadelfimage`: `n` headers remain, `h` is the next
index.  Every iteration of the inner loops advances `done` by at least one byte, so
`p_filesz` and `p_memsz` iterations are enough for them. -/
def load_segments (env : Env) (image : Mem) (parray : Nat → Nat) (v_start : Nat) :
    Nat → Nat → World → Int × World
  | 0, _, w => (0, w)
  | n + 1, h, w =>
    let phdr := phdr_at image h
    if !is_loadable_phdr image phdr then load_segments env image parray v_start n (h + 1) w
    else
      match load_copy env image parray v_start phdr (p_filesz image phdr) 0 w with
      | (false, _, w) => (-1, w)
      | (true, done, w) =>
        match load_zero env image parray v_start phdr (p_memsz image phdr) done w with
        | (false, _, w) => (-1, w)
        | (true, _, w) => load_segments env image parray v_start n (h + 1) w

/-- The function `loadelfimage`. -/
def loadelfimage (env : Env) (image : Mem) (w : World) (parray : Nat → Nat)
    (dsi : domain_setup_info) : Int × World :=
  load_segments env image parray dsi.v_start (e_phnum image) 0 w

/-- Modelled from the spec: the layout of `struct e820entry` (xen/hvm/e820.h, not
among the sources) is a parameter: its size and field offsets. -/
structure e820_layout where
  sizeof : Nat
  addr : Nat
  size : Nat
  type : Nat

/-- Modelled from the spec: `shared_info_t` and `MAX_VIRT_CPUS` are declared in the
public Xen headers, which are not among the sources.  The layout is a parameter: the
number of virtual CPU slots, the `vcpu_info` array and its element size, the offset
of `evtchn_upcall_mask` in an element, and the `evtchn_mask` array. -/
structure shared_info_layout where
  MAX_VIRT_CPUS : Nat
  vcpu_info : Nat
  sizeof_vcpu_info : Nat
  evtchn_upcall_mask : Nat
  evtchn_mask : Nat
  sizeof_evtchn_mask : Nat

/-- Modelled from the spec: the structure layouts and the constants
`FLAT_KERNEL_CS` and `VGCF_HVM_GUEST` are fixed by the public Xen headers, which are
not among the sources; they are parameters. -/
structure Abi where
  hvm_info : hvm_info_layout
  e820 : e820_layout
  shared_info : shared_info_layout
  FLAT_KERNEL_CS : Nat
  VGCF_HVM_GUEST : Nat

/-- The layouts and constants on x86_64. -/
def abi_x86_64 : Abi :=
  { hvm_info := hvm_info_x86,
    e820 := ⟨20, 0, 8, 16⟩,
    shared_info := ⟨32, 0, 64, 1, 2560, 512⟩,
    FLAT_KERNEL_CS := 0xe033,
    VGCF_HVM_GUEST := 2 }

/-- The bytes of the first `n` entries of the array and of the count, stored into the
page at `E820_MAP_OFFSET` and `E820_MAP_NR_OFFSET`. -/
def store_e820 (E : e820_layout) (v : e820_view) : Nat → Mem → Mem
  | 0, page => wr8 page E820_MAP_NR_OFFSET v.nr_map
  | n + 1, page =>
    let at_n := E820_MAP_OFFSET + n * E.sizeof
    let page := wr64 page (at_n + E.addr) (v.e820entry n).addr
    let page := wr64 page (at_n + E.size) (v.e820entry n).size
    let page := wr32 page (at_n + E.type) (v.e820entry n).type
    store_e820 E v n page

/-- The loop `shared_info->vcpu_info[i].evtchn_upcall_mask = 1` over the first `n`
slots. -/
def mask_upcalls (S : shared_info_layout) : Nat → Mem → Mem
  | 0, page => page
  | n + 1, page =>
    wr8 (mask_upcalls S n page) (S.vcpu_info + n * S.sizeof_vcpu_info + S.evtchn_upcall_mask) 1

/-- The stores into the mapped shared-info page. -/
def init_shared_info (S : shared_info_layout) (page : Mem) : Mem :=
  let page := memset page 0 0 PAGE_SIZE
  let page := mask_upcalls S S.MAX_VIRT_CPUS page
  memset page S.evtchn_mask 0xff S.sizeof_evtchn_mask

/-- The loop `for (i = 0; i < nr_pages; i++) page_array[i] = i;` over the first `n`
indices. -/
def fill_identity : Nat → List Nat → List Nat
  | 0, page_array => page_array
  | n + 1, page_array => (fill_identity n page_array).set n n

/-- The loop `for (i = lo; i < nr_pages; i++) page_array[i] += delta;` with `n`
iterations left from index `i`; entries are `unsigned long`. -/
def shift_from (delta : Nat) : Nat → Nat → List Nat → List Nat
  | 0, _, page_array => page_array
  | n + 1, i, page_array =>
    shift_from delta n (i + 1)
      (page_array.set i ((page_array.getD i 0 + delta) % 2 ^ ULONG_BITS))

/-- The page array after the two initialisation loops of `setup_guest`; the memory
returned by `malloc` is taken as zero. -/
def init_page_array (nr_pages : Nat) : List Nat :=
  let page_array := fill_identity nr_pages (List.replicate nr_pages 0)
  shift_from (HVM_BELOW_4G_MMIO_LENGTH >>> PAGE_SHIFT)
    (nr_pages - (HVM_BELOW_4G_RAM_END >>> PAGE_SHIFT)) (HVM_BELOW_4G_RAM_END >>> PAGE_SHIFT)
    page_array

/-- The value of `nr_pages`: `(unsigned long)memsize << (20 - PAGE_SHIFT)`. -/
def nr_pages_of (memsize : Nat) : Nat :=
  ((memsize % 2 ^ ULONG_BITS) <<< (20 - PAGE_SHIFT)) % 2 ^ ULONG_BITS

/-- The value of `v_end`: `(unsigned long long)memsize << 20`. -/
def v_end_of (memsize : Nat) : Nat := ((memsize % 2 ^ 64) <<< 20) % 2 ^ 64

/-- The slice `&page_array[start]` of `nr` entries handed to the hypervisor. -/
def extents (page_array : List Nat) (start nr : Nat) : List Nat :=
  (page_array.drop start).take nr

/-- What `setup_guest` leaves behind: its status, the world, the value stored through
`store_mfn` (if any) and the CPU context. -/
structure setup_result where
  rc : Int
  world : World
  store_mfn : Option Nat
  ctxt : vcpu_guest_context

/-- The allocation steps of `setup_guest`: the two populate calls, the release of
the VGA hole and the translation.  The result is `none` on `goto error_out`,
otherwise the translated page array. -/
def allocate_guest (env : Env) (w : World) (nr_pages : Nat) (page_array : List Nat) :
    World × Option (List Nat) :=
  let nr_low := if nr_pages > 0xa0 then 0xa0 else nr_pages
  let rc := env.populate_physmap (w.count Hcall.is_populate)
  let w := w.issue (.populate_physmap nr_low (extents page_array 0x00 nr_low))
  let (w, rc) :=
    if rc = 0 ∧ nr_pages > 0xc0 then
      (w.issue (.populate_physmap (nr_pages - 0xc0) (extents page_array 0xc0 (nr_pages - 0xc0))),
        env.populate_physmap (w.count Hcall.is_populate))
    else (w, rc)
  if rc ≠ 0 then (w, none)
  else
    let nr_hole := if nr_pages < 0xc0 then nr_pages - 0xa0 else 0x20
    let (w, failed) :=
      if nr_pages > 0xa0 then
        (w.issue (.decrease_reservation nr_hole (extents page_array 0xa0 nr_hole)),
          decide (env.decrease_reservation (w.count Hcall.is_decrease) ≠ 0))
      else (w, false)
    if failed then (w, none)
    else
      let rc := env.translate_gpfn_list (w.count Hcall.is_translate)
      let w := w.issue (.translate_gpfn_list nr_pages page_array)
      if rc ≠ 0 then (w, none)
      else (w, some (page_array.map env.gpfn_to_mfn))

/-- The value of `shared_page_nr`, an `unsigned long`. -/
def shared_page_nr_of (v_end : Nat) : Nat :=
  if v_end > HVM_BELOW_4G_RAM_END then
    ((HVM_BELOW_4G_RAM_END >>> PAGE_SHIFT) + 2 ^ ULONG_BITS - 1) % 2 ^ ULONG_BITS
  else ((v_end >>> PAGE_SHIFT) % 2 ^ ULONG_BITS + 2 ^ ULONG_BITS - 1) % 2 ^ ULONG_BITS

/-- The value `n - k` for `unsigned long n`. -/
def ulong_sub (n k : Nat) : Nat := (n + 2 ^ ULONG_BITS - k) % 2 ^ ULONG_BITS

/-- The steps of `setup_guest` after the translation: load the image, publish the
boot-info table and the memory map, initialise the shared pages, set the parameters. -/
def publish_guest (env : Env) (abi : Abi) (w : World) (page_array : List Nat)
    (image : Mem) (dsi : domain_setup_info) (v_end : Nat) (ctxt : vcpu_guest_context)
    (shared_info_frame vcpus pae acpi apic store_evtchn : Nat) : setup_result :=
  let parray : Nat → Nat := fun i => page_array.getD i 0
  let w := (loadelfimage env image w parray dsi).2
  let (rc, w) := set_hvm_info env abi.hvm_info w parray vcpus acpi
  if rc ≠ 0 then ⟨-1, w, none, ctxt⟩
  else
    let w := xc_set_hvm_param env w .PAE_ENABLED pae
    let w := xc_set_hvm_param env w .APIC_ENABLED apic
    let e820_mfn := parray (E820_MAP_PAGE >>> PAGE_SHIFT)
    let (w, mapped) := xc_map_foreign_range env w e820_mfn
    if !mapped then ⟨-1, w, none, ctxt⟩
    else
      let e820_page := memset (w.mem e820_mfn) 0 0 PAGE_SIZE
      let map := build_e820map e820_zero v_end
      let w := w.store e820_mfn (store_e820 abi.e820 map map.nr_map e820_page)
      let (w, mapped) := xc_map_foreign_range env w shared_info_frame
      if !mapped then ⟨-1, w, none, ctxt⟩
      else
        let w := w.store shared_info_frame
          (init_shared_info abi.shared_info (w.mem shared_info_frame))
        let shared_page_nr := shared_page_nr_of v_end
        let (w, rc) := xc_clear_domain_page env w (parray shared_page_nr)
        if rc ≠ 0 then ⟨-1, w, none, ctxt⟩
        else
          let (w, rc) := xc_clear_domain_page env w (parray (ulong_sub shared_page_nr 1))
          if rc ≠ 0 then ⟨-1, w, none, ctxt⟩
          else
            let (w, rc) := xc_clear_domain_page env w (parray (ulong_sub shared_page_nr 2))
            if rc ≠ 0 then ⟨-1, w, none, ctxt⟩
            else
              let store_mfn := parray (ulong_sub shared_page_nr 1)
              let w := xc_set_hvm_param env w .STORE_PFN (ulong_sub shared_page_nr 1)
              let w := xc_set_hvm_param env w .STORE_EVTCHN store_evtchn
              let w := xc_set_hvm_param env w .BUFIOREQ_PFN (ulong_sub shared_page_nr 2)
              let w := xc_set_hvm_param env w .IOREQ_PFN shared_page_nr
              ⟨0, w, some store_mfn, { ctxt with eip := dsi.v_kernentry }⟩

/-- The function `setup_guest`.  `memsize` is the requested size in MiB. -/
def setup_guest (env : Env) (abi : Abi) (w : World) (memsize : Nat) (image : Mem)
    (image_size : Nat) (ctxt : vcpu_guest_context)
    (shared_info_frame vcpus pae acpi apic store_evtchn : Nat) : setup_result :=
  let nr_pages := nr_pages_of memsize
  let (rc, dsi) := parseelfimage image image_size domain_setup_info.zero
  if rc ≠ 0 then ⟨-1, w, none, ctxt⟩
  else if dsi.v_kernstart &&& (PAGE_SIZE - 1) ≠ 0 then ⟨-1, w, none, ctxt⟩
  else
    let v_end := v_end_of memsize
    if (v_end + 2 ^ 64 - dsi.v_start) % 2 ^ 64 > (nr_pages <<< PAGE_SHIFT) % 2 ^ 64 then
      ⟨-1, w, none, ctxt⟩
    else if !env.malloc_ok then ⟨-1, w, none, ctxt⟩
    else
      let page_array := init_page_array nr_pages
      match allocate_guest env w nr_pages page_array with
      | (w, none) => ⟨-1, w, none, ctxt⟩
      | (w, some page_array) =>
        publish_guest env abi w page_array image dsi v_end ctxt
          shared_info_frame vcpus pae acpi apic store_evtchn

/-! ## Sample environments -/

/-- A hypervisor and host where every operation succeeds and frames are translated
to themselves. -/
def env_ok : Env :=
  { malloc_ok := true, populate_physmap := fun _ => 0, decrease_reservation := fun _ => 0,
    translate_gpfn_list := fun _ => 0, gpfn_to_mfn := fun g => g,
    map_foreign_range := fun _ => true, clear_domain_page := fun _ => 0,
    lock_pages := fun _ => true, hvm_op := fun _ => 0,
    lock_ctxt := true, getdomaininfo := 0, info_domain := 1, info_shared_info_frame := 7,
    setvcpucontext := 0 }

/-- As `env_ok`, except that the first mapping (the one `loadelfimage` asks for
first) fails. -/
def env_first_map_fails : Env := { env_ok with map_foreign_range := fun k => decide (k ≠ 0) }

/-- No operation issued yet, guest memory all zero. -/
def world0 : World := ⟨[], fun _ _ => 0⟩

/-- A context with every field zero, as left by `memset(ctxt, 0, sizeof(*ctxt))`. -/
def ctxt0 : vcpu_guest_context :=
  ⟨0, 0, List.replicate 256 ⟨0, 0⟩, 0, 0, List.replicate 8 0, 0, 0, 0⟩

/-! ## Specification vocabulary for the loader -/

/-- Whether program header `h` is loadable. -/
def seg_loadable (image : Mem) (h : Nat) : Prop :=
  is_loadable_phdr image (phdr_at image h) = true

instance (image : Mem) (h : Nat) : Decidable (seg_loadable image h) := by
  unfold seg_loadable; infer_instance

/-- Fields of program header `h`. -/
def seg_paddr (image : Mem) (h : Nat) : Nat := p_paddr image (phdr_at image h)
def seg_memsz (image : Mem) (h : Nat) : Nat := p_memsz image (phdr_at image h)

/-- The operations of `w` are the first operations of `w1`. -/
def World.extends (w w1 : World) : Prop := w.trace <+: w1.trace

/-- As `env_ok`, except that every populate call fails. -/
def env_populate_fails : Env := { env_ok with populate_physmap := fun _ => -1 }

/-! ## Orchestrator (xc_hvm_build_internal, xc_hvm_build, xc_hvm_build_mem) -/

/-- The loop `for (i = 0; i < 256; i++)` that stores `vector = i` and
`cs = FLAT_KERNEL_CS` into `trap_ctxt[i]`, over the first `n` entries. -/
def set_traps (cs : Nat) : Nat → List trap_info → List trap_info
  | 0, trap_ctxt => trap_ctxt
  | n + 1, trap_ctxt => (set_traps cs n trap_ctxt).set n ⟨n, cs⟩

/-- The stores of `xc_hvm_build_internal` into the context after `setup_guest`: the
trap table, `ldt_ents`, `gdt_ents`, the debug registers and the callback addresses. -/
def finish_ctxt (abi : Abi) (ctxt : vcpu_guest_context) : vcpu_guest_context :=
  let ctxt := { ctxt with trap_ctxt := set_traps abi.FLAT_KERNEL_CS 256 ctxt.trap_ctxt }
  let ctxt := { ctxt with ldt_ents := 0 }
  let ctxt := { ctxt with gdt_ents := 0 }
  let ctxt := { ctxt with debugreg := ctxt.debugreg.map (fun _ => 0) }
  let ctxt := { ctxt with event_callback_eip := 0 }
  let ctxt := { ctxt with failsafe_callback_eip := 0 }
  { ctxt with syscall_callback_eip := 0 }

/-- The context after `memset(ctxt, 0, sizeof(*ctxt))` and
`ctxt->flags = VGCF_HVM_GUEST`. -/
def initial_ctxt (abi : Abi) : vcpu_guest_context :=
  { ctxt0 with flags := abi.VGCF_HVM_GUEST }

/-- What a build leaves behind: its status, the world and the value stored through
`store_mfn` (if any). -/
structure build_result where
  rc : Int
  world : World
  store_mfn : Option Nat

/-- The function `xc_hvm_build_internal`.  `image` is `none` for a null pointer;
`domid` is a `uint32_t` and `domctl.domain` a 16-bit `domid_t`. -/
def xc_hvm_build_internal (env : Env) (abi : Abi) (w : World) (domid memsize : Nat)
    (image : Option Mem) (image_size vcpus pae acpi apic store_evtchn : Nat) :
    build_result :=
  match image with
  | none => ⟨-1, w, none⟩
  | some image =>
    if image_size = 0 then ⟨-1, w, none⟩
    else if !env.lock_ctxt then ⟨1, w, none⟩
    else
      let w := w.issue (.getdomaininfo (domid % 2 ^ 16))
      if env.getdomaininfo < 0 ∨ env.info_domain % 2 ^ 16 ≠ domid then ⟨-1, w, none⟩
      else
        let r := setup_guest env abi w memsize image image_size (initial_ctxt abi)
          env.info_shared_info_frame vcpus pae acpi apic store_evtchn
        if r.rc < 0 then ⟨-1, r.world, r.store_mfn⟩
        else
          let ctxt := finish_ctxt abi r.ctxt
          let w := r.world.issue (.setvcpucontext (domid % 2 ^ 16) 0 ctxt)
          ⟨env.setvcpucontext, w, r.store_mfn⟩

/-- The function `xc_hvm_build`.  Modelled from the spec: `xc_read_image` is a libxc
helper whose body is not among the sources; `read` is `none` when the name is null or
no image comes back, otherwise the image and its size. -/
def xc_hvm_build (env : Env) (abi : Abi) (w : World) (domid memsize : Nat)
    (read : Option (Mem × Nat)) (vcpus pae acpi apic store_evtchn : Nat) : build_result :=
  match read with
  | none => ⟨-1, w, none⟩
  | some (image, image_size) =>
    xc_hvm_build_internal env abi w domid memsize (some image) image_size
      vcpus pae acpi apic store_evtchn

/-- The function `xc_hvm_build_mem`.  Modelled from the spec: `xc_inflate_buffer` is
a libxc helper whose body is not among the sources; `inflate` is `none` when it
returns null, otherwise the inflated image and its length. -/
def xc_hvm_build_mem (env : Env) (abi : Abi) (w : World) (domid memsize : Nat)
    (image_buffer : Option Mem) (image_size : Nat) (inflate : Option (Mem × Nat))
    (vcpus pae acpi apic store_evtchn : Nat) : build_result :=
  match image_buffer with
  | none => ⟨-1, w, none⟩
  | some _ =>
    if image_size = 0 then ⟨-1, w, none⟩
    else
      match inflate with
      | none => ⟨-1, w, none⟩
      | some (img, img_len) =>
        xc_hvm_build_internal env abi w domid memsize (some img) img_len
          vcpus pae acpi apic store_evtchn

/-- The context `xc_hvm_build_internal` installs: entry at the loader address, trap
entry `i` with vector `i` and the flat kernel code selector, everything else zero. -/
def launch_ctxt (abi : Abi) : vcpu_guest_context :=
  { flags := abi.VGCF_HVM_GUEST,
    eip := HVM_LOADER_ENTR_ADDR,
    trap_ctxt := (List.range 256).map (fun i => ⟨i, abi.FLAT_KERNEL_CS⟩),
    ldt_ents := 0,
    gdt_ents := 0,
    debugreg := List.replicate 8 0,
    event_callback_eip := 0,
    failsafe_callback_eip := 0,
    syscall_callback_eip := 0 }

/-- As `env_ok`, except that locking the CPU context fails. -/
def env_lock_ctxt_fails : Env := { env_ok with lock_ctxt := false }

/-- As `env_ok`, except that guest frame `g` is backed by machine frame `g + 1000`. -/
def env_shifted : Env := { env_ok with gpfn_to_mfn := fun g => g + 1000 }

/-- An image with two loadable segments: `[0x100000, 0x101000)` and one of `0x2000`
bytes at `0xFFFFF000`, whose end `0x100001000` does not fit 32 bits. -/
def span_wrap_image : Mem :=
  mem_of_list (sample_ehdr 0x100010 52 116 32 2 40 2 1 ++
    sample_phdr 1 196 0x100000 8 0x1000 5 ++
    sample_phdr 1 196 0xFFFFF000 0 0x2000 5 ++ List.replicate 80 0 ++
    [1, 2, 3, 4, 5, 6, 7, 8])

/-- An image like the sample image whose only program header is `PT_LOAD` but
read-only and not executable. -/
def readonly_image : Mem :=
  mem_of_list (sample_ehdr 0x100010 52 84 32 1 40 2 1 ++
    sample_phdr 1 164 0x100000 8 0x1000 4 ++ List.replicate 80 0 ++
    [1, 2, 3, 4, 5, 6, 7, 8])

/-- The operations added from `w` to `w1`, all of which satisfy `P`. -/
def World.adds (P : Hcall → Bool) (w w1 : World) : Prop :=
  ∃ rest, w1.trace = w.trace ++ rest ∧ ∀ c ∈ rest, P c = true

/-- The values published for parameter `p` by the operations of a trace. -/
def published (p : hvm_param) : List Hcall → List Nat
  | [] => []
  | .set_param q v :: t => if q = p then v :: published p t else published p t
  | _ :: t => published p t

/-- The conditions under which `xc_hvm_build_internal` reaches the installation of
the context: an image is given and is not empty, the context could be locked, the
domain-info call succeeded and returned the expected domain, and `setup_guest`
returned 0. -/
def build_reaches_launch (env : Env) (abi : Abi) (w : World) (domid memsize : Nat)
    (image : Option Mem) (image_size vcpus pae acpi apic store_evtchn : Nat) : Prop :=
  ∃ img, image = some img ∧ image_size ≠ 0 ∧ env.lock_ctxt = true ∧
    ¬ env.getdomaininfo < 0 ∧ env.info_domain % 2 ^ 16 = domid ∧
    (setup_guest env abi (w.issue (.getdomaininfo (domid % 2 ^ 16))) memsize img image_size
      (initial_ctxt abi) env.info_shared_info_frame vcpus pae acpi apic store_evtchn).rc = 0

/-! ## Parameter outcomes -/

/-- The environment in which every `lock_pages` and every `HVMOP_set_param` call of
`xc_set_hvm_param` succeeds, and which is otherwise as `env`. -/
def Env.params_succeed (env : Env) : Env :=
  { env with lock_pages := fun _ => true, hvm_op := fun _ => 0 }

/-- The environment in which no parameter can be set, and which is otherwise as
`env`. -/
def Env.params_fail (env : Env) : Env :=
  { env with lock_pages := fun _ => false, hvm_op := fun _ => -1 }

/-- The world with the `set_param` operations left out of the record. -/
def World.without_params (w : World) : World :=
  { w with trace := w.trace.filter (fun c => !c.is_set_param) }

/-! ## Flat device tree (device_tree.c) -/

/-- The constant `DEVICE_TREE_MAX_DEPTH`. -/
def DEVICE_TREE_MAX_DEPTH : Int := 16

/-- Modelled from the spec: `struct fdt_property` is declared by libfdt, which is not
among the sources.  `len` is the value of the field `len` as the host reads it, and
`data i` is byte `i` of the flexible array `data` (reads past the property see
whatever follows it). -/
structure fdt_property where
  len : Nat
  data : Nat → Nat

/-- Modelled from the spec: the flat device tree as seen through the libfdt calls the
source makes, none of which is among the sources.  `next_node node depth` is
`fdt_next_node(fdt, node, &depth)`: the offset of the next node (negative when there
is none) and the new value of `depth`.  `get_name node` is the string returned by
`fdt_get_name(fdt, node, NULL)`, and `get_property node name` the result of
`fdt_get_property(fdt, node, name, NULL)`, `none` for `NULL`. -/
structure Fdt where
  next_node : Int → Int → Int × Int
  get_name : Int → List Nat
  get_property : Int → String → Option fdt_property

/-- Modelled from the spec: `fdt32_to_cpu(*(uint32_t*)p)`, the four bytes at `p` read
as a big-endian number, on a host of either byte order (the conversion is declared
by libfdt, not among the sources). -/
def fdt32_at (data : Nat → Nat) : Nat :=
  (data 0 % 256) * 2 ^ 24 + (data 1 % 256) * 2 ^ 16 + (data 2 % 256) * 2 ^ 8 + data 3 % 256

/-- The function `device_tree_get_u32`. -/
def device_tree_get_u32 (fdt : Fdt) (node : Int) (prop_name : String) (dflt : Nat) : Nat :=
  match fdt.get_property node prop_name with
  | none => dflt
  | some prop => if prop.len < 4 then dflt else fdt32_at prop.data

/-- The callback type `device_tree_node_func`: node, name, depth, address cells, size
cells, and the state behind `data`, which the callback may change; the `fdt` argument
is the tree being walked. -/
abbrev device_tree_node_func (σ : Type) :=
  Fdt → Int → List Nat → Int → Nat → Nat → σ → Int × σ

/-- The loop of `device_tree_for_each_node`, from the current `node` and `depth`, with
at most `fuel` iterations (`none` when they do not suffice).  `address_cells` and
`size_cells` are the two local arrays, indexed as the source indexes them: the
entries outside `0 .. 15` stand for the memory next to the arrays. -/
def for_each_node_loop {σ : Type} (fdt : Fdt) (func : device_tree_node_func σ) :
    Nat → Int → Int → (Int → Nat) → (Int → Nat) → σ → Option (Int × σ)
  | 0, _, _, _, _, _ => none
  | fuel + 1, node, depth, address_cells, size_cells, data =>
    if node ≥ 0 ∧ depth ≥ 0 then
      let name := fdt.get_name node
      if depth ≥ DEVICE_TREE_MAX_DEPTH then
        for_each_node_loop fdt func fuel (fdt.next_node node depth).1
          (fdt.next_node node depth).2 address_cells size_cells data
      else
        let address_cells := Function.update address_cells depth
          (device_tree_get_u32 fdt node "#address-cells"
            (if depth > 0 then address_cells (depth - 1) else 0))
        let size_cells := Function.update size_cells depth
          (device_tree_get_u32 fdt node "#size-cells"
            (if depth > 0 then size_cells (depth - 1) else 0))
        let (ret, data) := func fdt node name depth
          (address_cells (depth - 1)) (size_cells (depth - 1)) data
        if ret ≠ 0 then some (ret, data)
        else
          for_each_node_loop fdt func fuel (fdt.next_node node depth).1
            (fdt.next_node node depth).2 address_cells size_cells data
    else some (0, data)

/-- The function `device_tree_for_each_node`.  The local arrays start with arbitrary
contents. -/
def device_tree_for_each_node {σ : Type} (fdt : Fdt) (func : device_tree_node_func σ)
    (data : σ) (address_cells size_cells : Int → Nat) (fuel : Nat) : Option (Int × σ) :=
  for_each_node_loop fdt func fuel 0 0 address_cells size_cells data

/-- The nodes of the flat-tree traversal from `node` at `depth`, each with its depth,
in the order in which `fdt_next_node` yields them, until the offset or the depth is
negative (`none` when `fuel` steps do not reach the end). -/
def fdt_walk (fdt : Fdt) : Nat → Int → Int → Option (List (Int × Int))
  | 0, _, _ => none
  | fuel + 1, node, depth =>
    if node ≥ 0 ∧ depth ≥ 0 then
      (fdt_walk fdt fuel (fdt.next_node node depth).1 (fdt.next_node node depth).2).map
        (fun rest => (node, depth) :: rest)
    else some []

/-- One call of the callback: its arguments and the value it returned. -/
structure dt_call where
  node : Int
  name : List Nat
  depth : Int
  address_cells : Nat
  size_cells : Nat
  ret : Int
deriving DecidableEq, Repr

/-- The callback `func`, keeping a record of the calls made to it. -/
def recording {σ : Type} (func : device_tree_node_func σ) :
    device_tree_node_func (σ × List dt_call) :=
  fun fdt node name depth address_cells size_cells data =>
    ((func fdt node name depth address_cells size_cells data.1).1,
     (func fdt node name depth address_cells size_cells data.1).2,
     data.2 ++ [⟨node, name, depth, address_cells, size_cells,
       (func fdt node name depth address_cells size_cells data.1).1⟩])

/-- A tree that is one chain of 18 nodes: the node at offset `n` has depth `n`, for
`n` from 0 to 17; no node has a property. -/
def chain_fdt : Fdt :=
  { next_node := fun node depth => if node < 17 then (node + 1, depth + 1) else (-1, -1),
    get_name := fun _ => [],
    get_property := fun _ _ => none }

/-- A callback that counts its calls and returns 0. -/
def count_calls : device_tree_node_func Nat := fun _ _ _ _ _ _ n => (0, n + 1)

/-- A callback that counts its calls and returns 7 at depth 3, otherwise 0. -/
def stop_at_three : device_tree_node_func Nat :=
  fun _ _ _ depth _ _ n => (if depth = 3 then 7 else 0, n + 1)

/-! ## Node names (device_tree_node_matches) -/

/-- Modelled from the spec: a C string is given by the list of its bytes, the
terminating NUL standing right after the list (or at the first 0 byte in it).
`strlen` is the C library function, declared in xen/string.h, which is not among the
sources. -/
def strlen : List Nat → Nat
  | [] => 0
  | c :: t => if c = 0 then 0 else strlen t + 1

/-- The byte `s[i]` of a C string: byte `i` of the list, NUL right after it. -/
def char_at (s : List Nat) (i : Nat) : Nat := s.getD i 0

/-- Modelled from the spec: the C library function `strncmp` (xen/string.h, not among
the sources): compares at most `n` bytes, stops after a NUL, and returns the
difference of the first two bytes that differ, or 0. -/
def strncmp : List Nat → List Nat → Nat → Int
  | _, _, 0 => 0
  | s1, s2, n + 1 =>
    if s1.headD 0 ≠ s2.headD 0 then (s1.headD 0 : Int) - (s2.headD 0 : Int)
    else if s1.headD 0 = 0 then 0
    else strncmp s1.tail s2.tail n

/-- The function `device_tree_node_matches`; `0x40` is `'@'`. -/
def device_tree_node_matches (fdt : Fdt) (node : Int) (match_str : List Nat) : Bool :=
  let name := fdt.get_name node
  let match_len := strlen match_str
  strncmp name match_str match_len == 0 &&
    (char_at name match_len == 0x40 || char_at name match_len == 0)

/-- A tree with the single node `memory@0` and no properties. -/
def memory_fdt : Fdt :=
  { next_node := fun _ _ => (-1, -1),
    get_name := fun _ => [0x6d, 0x65, 0x6d, 0x6f, 0x72, 0x79, 0x40, 0x30],
    get_property := fun _ _ => none }

/-! ## Cell counts seen by the callback -/

/-- The value that `device_tree_for_each_node` stores in `address_cells[depth]` when
it makes the call `c`: the node's `#address-cells`, with, as default, what the call
was passed if it is below the root and 0 at the root. -/
def recorded_address_cells (fdt : Fdt) (c : dt_call) : Nat :=
  device_tree_get_u32 fdt c.node "#address-cells"
    (if c.depth > 0 then c.address_cells else 0)

/-- The value stored in `size_cells[depth]` when the call `c` is made. -/
def recorded_size_cells (fdt : Fdt) (c : dt_call) : Nat :=
  device_tree_get_u32 fdt c.node "#size-cells" (if c.depth > 0 then c.size_cells else 0)

/-- The latest of the calls `calls` that was made at depth `d`. -/
def last_at_depth (calls : List dt_call) (d : Int) : Option dt_call :=
  calls.reverse.find? (fun c => decide (c.depth = d))

/-- The cell counts passed to every call below the root are those recorded by the
latest earlier call one level up. -/
def cells_from_parent (fdt : Fdt) (calls : List dt_call) : Prop :=
  ∀ (i : Nat) (c p : dt_call), calls[i]? = some c → 1 ≤ c.depth →
    last_at_depth (calls.take i) (c.depth - 1) = some p →
    c.address_cells = recorded_address_cells fdt p ∧
    c.size_cells = recorded_size_cells fdt p

/-- The two local arrays hold, at every depth at which a call was made, what the
latest call at that depth recorded. -/
def cells_recorded (fdt : Fdt) (address_cells size_cells : Int → Nat)
    (calls : List dt_call) : Prop :=
  ∀ (e : Int) (p : dt_call), last_at_depth calls e = some p →
    address_cells e = recorded_address_cells fdt p ∧
    size_cells e = recorded_size_cells fdt p

/-- Every call below the root has an earlier call one level up. -/
def parents_called (calls : List dt_call) : Prop :=
  ∀ (i : Nat) (c : dt_call), calls[i]? = some c → 1 ≤ c.depth →
    ∃ p, last_at_depth (calls.take i) (c.depth - 1) = some p

/-- A property holding the 32-bit number `v`, four bytes long as the host reads
its length. -/
def u32_property (v : Nat) : fdt_property :=
  { len := 4,
    data := fun i => ([v / 2 ^ 24 % 256, v / 2 ^ 16 % 256, v / 2 ^ 8 % 256, v % 256]).getD i 0 }

/-- A chain of four nodes at depths 0 to 3: the root has `#address-cells = 2` and
`#size-cells = 1`, its child `#address-cells = 1`, the two nodes below have neither
property. -/
def cells_fdt : Fdt :=
  { next_node := fun node depth => if node < 3 then (node + 1, depth + 1) else (-1, -1),
    get_name := fun _ => [],
    get_property := fun node name =>
      if node = 0 ∧ name = "#address-cells" then some (u32_property 2)
      else if node = 0 ∧ name = "#size-cells" then some (u32_property 1)
      else if node = 1 ∧ name = "#address-cells" then some (u32_property 1)
      else none }

/-- The calls made on `cells_fdt`, with both local arrays holding 9 everywhere at
the start. -/
def cells_calls : List dt_call :=
  match device_tree_for_each_node cells_fdt (recording count_calls) (0, [])
      (fun _ => 9) (fun _ => 9) 10 with
  | some r => r.2.2
  | none => []

/-! ## Register cells (device_tree_get_reg, device_tree_set_reg) -/

/-- Modelled from the spec: `*p = cpu_to_fdt32(v)` for a `u32 *p` at byte address
`a`: the four bytes of `v`, most significant first, on a host of either byte order
(the conversion is declared by libfdt, not among the sources). -/
def wr_fdt32 (m : Mem) (a v : Nat) : Mem :=
  wr8 (wr8 (wr8 (wr8 m a (v / 2 ^ 24)) (a + 1) (v / 2 ^ 16)) (a + 2) (v / 2 ^ 8)) (a + 3) v

/-- The value `fdt32_to_cpu(*p)` for a `u32 *p` at byte address `a`. -/
def rd_fdt32 (m : Mem) (a : Nat) : Nat := fdt32_at (fun i => m (a + i))

/-- The loop `while ( c-- )` of `set_val`, entered with `c` and the 64-bit `val`;
`cell` is the byte address in `*cell`. -/
def set_val_loop (cell : Nat) : Nat → Nat → Mem → Mem
  | 0, _, m => m
  | c + 1, val, m => set_val_loop cell c (val / 2 ^ 32) (wr_fdt32 m (cell + 4 * c) (val % 2 ^ 32))

/-- The function `set_val`: the memory written and the new value of `*cell`. -/
def set_val (m : Mem) (cell cells val : Nat) : Mem × Nat :=
  (set_val_loop cell cells (val % 2 ^ 64) m, cell + 4 * cells)

/-- The function `device_tree_set_reg`. -/
def device_tree_set_reg (m : Mem) (cell address_cells size_cells start size : Nat) :
    Mem × Nat :=
  let (m, cell) := set_val m cell address_cells start
  set_val m cell size_cells size

/-- The loop `while ( cells-- )` of `get_val`: the new `*cell` and `*val`. -/
def get_val_loop (m : Mem) : Nat → Nat → Nat → Nat × Nat
  | 0, cell, val => (cell, val)
  | cells + 1, cell, val =>
    get_val_loop m cells (cell + 4) (((val <<< 32) % 2 ^ 64) ||| rd_fdt32 m cell)

/-- The function `get_val`: the new `*cell` and `*val`, or `none` when it calls
`early_panic`, which does not return. -/
def get_val (m : Mem) (cell cells : Nat) : Option (Nat × Nat) :=
  if cells > 2 then none else some (get_val_loop m cells cell 0)

/-- The function `device_tree_get_reg`: the new `*cell`, `*start` and `*size`. -/
def device_tree_get_reg (m : Mem) (cell address_cells size_cells : Nat) :
    Option (Nat × Nat × Nat) :=
  match get_val m cell address_cells with
  | none => none
  | some (cell, start) =>
    match get_val m cell size_cells with
    | none => none
    | some (cell, size) => some (cell, start, size)

/-! ## Further sample images -/

/-- A header-only image: 52 bytes, one program header declared at offset 52 with
`e_phentsize = 0`, no section headers, `e_shstrndx = 1`. -/
def header_only_image : Mem :=
  mem_of_list (sample_ehdr 0x100010 52 52 0 1 0 0 1)

/-- The 52 bytes of `header_only_image` followed by a loadable program header for
`[0x100000, 0x101000)`. -/
def overhang_image : Mem :=
  mem_of_list (sample_ehdr 0x100010 52 52 0 1 0 0 1 ++
    sample_phdr 1 0 0x100000 0 0x1000 5)

/-- C2: an image accepted by `parseelfimage` has `v_kernstart <= v_kernend` and its
declared entry point inside `[v_kernstart, v_kernend]`; an image that passes the
magic, table and string-table checks but whose computed span violates one of these
is rejected with `-EINVAL`, leaving the setup info untouched. -/
theorem parseelfimage_span_contains_entry (image : Mem) (elfsize : Nat)
    (dsi : domain_setup_info) :
    (∀ dsi1, parseelfimage image elfsize dsi = (0, dsi1) →
      dsi1.v_kernstart ≤ dsi1.v_kernend ∧ dsi1.v_kernstart ≤ e_entry image ∧
      e_entry image ≤ dsi1.v_kernend) ∧
    (IS_ELF image = true →
      (e_phoff image + e_phnum image * e_phentsize image) % 2 ^ 32 ≤ elfsize →
      (e_shoff image + e_shnum image * e_shentsize image) % 2 ^ 32 ≤ elfsize →
      e_shstrndx image ≠ SHN_UNDEF →
      ¬ ((kern_span image (e_phnum image) 0 (ULONG_MAX, 0)).1 ≤
            (kern_span image (e_phnum image) 0 (ULONG_MAX, 0)).2 ∧
          (kern_span image (e_phnum image) 0 (ULONG_MAX, 0)).1 ≤ e_entry image ∧
          e_entry image ≤ (kern_span image (e_phnum image) 0 (ULONG_MAX, 0)).2) →
      parseelfimage image elfsize dsi = (-EINVAL, dsi)) := by
  constructor
  · intro dsi1 h
    unfold parseelfimage at h
    simp only [EINVAL] at h
    split_ifs at h with h1 h2 h3 h4 h5
    all_goals simp only [Prod.mk.injEq] at h
    all_goals first
      | (exfalso; omega)
      | skip
    obtain ⟨-, rfl⟩ := h
    simp only
    omega
  · intro h1 h2 h3 h4 h5
    unfold parseelfimage
    simp only [h1, h4]
    have h2' : ¬ ((e_phoff image + e_phnum image * e_phentsize image) % 2 ^ 32 > elfsize) := by omega
    have h3' : ¬ ((e_shoff image + e_shnum image * e_shentsize image) % 2 ^ 32 > elfsize) := by omega
    simp only [h2', h3']
    simp
    intro h6 h7
    omega

/-- C10 (failing input): `wrap_image` with length `wrap_elfsize` is accepted although
its section-header table, `e_shoff + e_shnum * e_shentsize = 2^32` as an exact sum,
extends past the end of the image; the 32-bit sum wraps to 0.  All headers read by
the parser lie inside the image. -/
theorem parseelfimage_accepts_wrapped_table :
    parseelfimage wrap_image wrap_elfsize domain_setup_info.zero =
      (0, ⟨0, 0x101000, 0x100000, 0x101000, 0x100000⟩) ∧
    e_shoff wrap_image + e_shnum wrap_image * e_shentsize wrap_image > wrap_elfsize ∧
    SIZEOF_EHDR ≤ wrap_elfsize ∧
    phdr_at wrap_image 0 + SIZEOF_PHDR ≤ wrap_elfsize ∧
    e_shoff wrap_image + e_shstrndx wrap_image * e_shentsize wrap_image + SIZEOF_SHDR ≤ wrap_elfsize := by
  decide
/-- Witness for C2: the sample image is accepted with its entry inside the span, and
the same image with the entry moved below the segment is rejected. -/
theorem parseelfimage_span_contains_entry_witness :
    (parseelfimage sample_image 172 domain_setup_info.zero =
        (0, ⟨0, 0x101000, 0x100000, 0x101000, 0x100000⟩) ∧
      (0x100000 : Nat) ≤ 0x101000 ∧ (0x100000 : Nat) ≤ e_entry sample_image ∧
      e_entry sample_image ≤ 0x101000) ∧
    parseelfimage sample_image_bad_entry 172 domain_setup_info.zero =
      (-EINVAL, domain_setup_info.zero) :=
  ⟨⟨by decide,
    (parseelfimage_span_contains_entry sample_image 172 domain_setup_info.zero).1
      ⟨0, 0x101000, 0x100000, 0x101000, 0x100000⟩ (by decide)⟩,
   (parseelfimage_span_contains_entry sample_image_bad_entry 172 domain_setup_info.zero).2
      (by decide) (by decide) (by decide) (by decide) (by decide)⟩

/-! ## Boot-info table -/

theorem byte_sum_succ_left (m : Mem) (t n : Nat) :
    byte_sum m t (n + 1) = rd8 m t + byte_sum m (t + 1) n := by
  induction n with
  | zero => simp [byte_sum]
  | succ k ih =>
    rw [byte_sum, ih, byte_sum]
    have : t + 1 + k = t + (k + 1) := by omega
    rw [this]; omega

theorem sum_loop_eq_byte_sum (m : Mem) (n ptr sum : Nat) (h : sum < 256) :
    sum_loop m n ptr sum = (sum + byte_sum m ptr n) % 256 := by
  induction n generalizing ptr sum with
  | zero => simp [sum_loop, byte_sum, Nat.mod_eq_of_lt h]
  | succ k ih =>
    rw [sum_loop, byte_sum_succ_left, ih _ _ (Nat.mod_lt _ (by decide))]
    omega

theorem byte_sum_wr8_outside (m : Mem) (t n a v : Nat) (h : t + n ≤ a) :
    byte_sum (wr8 m a v) t n = byte_sum m t n := by
  induction n with
  | zero => rfl
  | succ k ih =>
    have hne : t + k ≠ a := by omega
    simp only [byte_sum, ih (by omega)]
    simp [rd8, wr8, hne]

theorem byte_sum_wr8_inside (m : Mem) (t n a v : Nat) (h1 : t ≤ a) (h2 : a < t + n) :
    byte_sum (wr8 m a v) t n + rd8 m a = byte_sum m t n + v % 256 := by
  induction n with
  | zero => omega
  | succ k ih =>
    simp only [byte_sum]
    by_cases hk : a = t + k
    · subst hk
      rw [byte_sum_wr8_outside m t k (t + k) v le_rfl]
      simp [rd8, wr8]
      omega
    · have := ih (by omega)
      have hne : t + k ≠ a := fun h => hk h.symm
      have : rd8 (wr8 m a v) (t + k) = rd8 m (t + k) := by simp [rd8, wr8, hne]
      omega

theorem checksum_balances (L : hvm_info_layout) (m : Mem) (t n : Nat)
    (hlen : rd32 (wr8 m (t + L.checksum) 0) (t + L.length) = n) (hck : L.checksum < n) :
    byte_sum (set_hvm_info_checksum L m t) t n % 256 = 0 := by
  unfold set_hvm_info_checksum
  simp only [hlen]
  have h1 := byte_sum_wr8_inside (wr8 m (t + L.checksum) 0) t n (t + L.checksum)
    ((256 - sum_loop (wr8 m (t + L.checksum) 0) n t 0) % 256) (by omega) (by omega)
  have h2 : rd8 (wr8 m (t + L.checksum) 0) (t + L.checksum) = 0 := by simp [rd8, wr8]
  rw [sum_loop_eq_byte_sum _ _ _ _ (by decide)] at h1 ⊢
  omega

theorem rd32_wr8_of_disjoint (m : Mem) (a b v : Nat) (h : b < a ∨ a + 4 ≤ b) :
    rd32 (wr8 m b v) a = rd32 m a := by
  have h0 : a ≠ b := by omega
  have h1 : a + 1 ≠ b := by omega
  have h2 : a + 2 ≠ b := by omega
  have h3 : a + 3 ≠ b := by omega
  simp [rd32, rd8, wr8, h0, h1, h2, h3]

theorem rd32_wr32_of_disjoint (m : Mem) (a b v : Nat) (h : b + 4 ≤ a ∨ a + 4 ≤ b) :
    rd32 (wr32 m b v) a = rd32 m a := by
  unfold wr32
  rw [rd32_wr8_of_disjoint _ _ _ _ (by omega), rd32_wr8_of_disjoint _ _ _ _ (by omega),
    rd32_wr8_of_disjoint _ _ _ _ (by omega), rd32_wr8_of_disjoint _ _ _ _ (by omega)]

theorem rd32_wr32_same (m : Mem) (a v : Nat) : rd32 (wr32 m a v) a = v % 2 ^ 32 := by
  simp [rd32, rd8, wr32, wr8]
  omega

theorem set_hvm_info_table_sum (L : hvm_info_layout) (hL : L.wf) (va_map : Mem)
    (vcpus acpi : Nat) :
    rd32 (set_hvm_info_table L va_map vcpus acpi) (HVM_INFO_OFFSET + L.length) = L.sizeof ∧
    byte_sum (set_hvm_info_table L va_map vcpus acpi) HVM_INFO_OFFSET L.sizeof % 256 = 0 := by
  obtain ⟨h1, h2, h3, h4, h5, h6, h7, h8, h9, h10⟩ := hL
  have key : ∀ m : Mem, rd32 m (HVM_INFO_OFFSET + L.length) = L.sizeof →
      rd32 (set_hvm_info_checksum L m HVM_INFO_OFFSET) (HVM_INFO_OFFSET + L.length) = L.sizeof ∧
      byte_sum (set_hvm_info_checksum L m HVM_INFO_OFFSET) HVM_INFO_OFFSET L.sizeof % 256 = 0 := by
    intro m hm
    have hlen : rd32 (wr8 m (HVM_INFO_OFFSET + L.checksum) 0) (HVM_INFO_OFFSET + L.length)
        = L.sizeof := by
      rw [rd32_wr8_of_disjoint _ _ _ _ (by omega), hm]
    refine ⟨?_, checksum_balances L m _ _ hlen (by omega)⟩
    unfold set_hvm_info_checksum
    simp only
    rw [rd32_wr8_of_disjoint _ _ _ _ (by omega), hlen]
  apply key
  rw [rd32_wr32_of_disjoint _ _ _ _ (by omega), rd32_wr8_of_disjoint _ _ _ _ (by omega),
    rd32_wr32_same, Nat.mod_eq_of_lt h1]

/-- C1: when `set_hvm_info` succeeds, the table it leaves at `HVM_INFO_OFFSET` of
frame `pfn_list[HVM_INFO_PFN]` has `length` equal to the size of the structure and
the sum of its `length` bytes, checksum byte included, is 0 modulo 256, for every
vcpu count, ACPI flag, previous page content and structure layout. -/
theorem set_hvm_info_byte_sum_zero (env : Env) (L : hvm_info_layout) (w : World)
    (pfn_list : Nat → Nat) (vcpus acpi : Nat) (hL : L.wf)
    (h : (set_hvm_info env L w pfn_list vcpus acpi).1 = 0) :
    rd32 ((set_hvm_info env L w pfn_list vcpus acpi).2.mem (pfn_list HVM_INFO_PFN))
      (HVM_INFO_OFFSET + L.length) = L.sizeof ∧
    byte_sum ((set_hvm_info env L w pfn_list vcpus acpi).2.mem (pfn_list HVM_INFO_PFN))
      HVM_INFO_OFFSET
      (rd32 ((set_hvm_info env L w pfn_list vcpus acpi).2.mem (pfn_list HVM_INFO_PFN))
        (HVM_INFO_OFFSET + L.length)) % 256 = 0 := by
  unfold set_hvm_info xc_map_foreign_range at h ⊢
  simp only at h ⊢
  by_cases hm : env.map_foreign_range (w.count Hcall.is_map) = true
  · simp only [hm, Bool.not_true, Bool.false_eq_true, if_false, World.store, if_true]
    have := set_hvm_info_table_sum L hL
      ((w.issue (.map_foreign_range (pfn_list HVM_INFO_PFN))).mem (pfn_list HVM_INFO_PFN))
      vcpus acpi
    rw [this.1]
    exact ⟨rfl, this.2⟩
  · simp [hm] at h

/-- Witness for C1: four vcpus, ACPI on, the x86 layout, every mapping succeeding. -/
theorem set_hvm_info_byte_sum_zero_witness :
    hvm_info_x86.wf ∧ (set_hvm_info env_ok hvm_info_x86 world0 id 4 1).1 = 0 ∧
    byte_sum ((set_hvm_info env_ok hvm_info_x86 world0 id 4 1).2.mem (id HVM_INFO_PFN))
      HVM_INFO_OFFSET
      (rd32 ((set_hvm_info env_ok hvm_info_x86 world0 id 4 1).2.mem (id HVM_INFO_PFN))
        (HVM_INFO_OFFSET + hvm_info_x86.length)) % 256 = 0 :=
  ⟨by unfold hvm_info_layout.wf hvm_info_x86; decide, by decide,
   (set_hvm_info_byte_sum_zero env_ok hvm_info_x86 world0 id 4 1
      (by unfold hvm_info_layout.wf hvm_info_x86; decide) (by decide)).2⟩

/-! ## Firmware memory map -/

theorem e820_entries_eq (a0 : Nat → e820entry) (mem_size : Nat) :
    e820_entries (build_e820map a0 mem_size) =
      [⟨0x0, 0x9F000, E820_RAM⟩, ⟨0x9F000, 0x1000, E820_RESERVED⟩,
       ⟨0xEA000, 0x1000, E820_ACPI⟩, ⟨0xF0000, 0x10000, E820_RESERVED⟩,
       ⟨0x100000, (min mem_size 0xF0000000 + 2 ^ 64 - 0x100000 - 3 * 4096) % 2 ^ 64,
         E820_RAM⟩] ++
      (if mem_size > 0xF0000000 then [⟨0x100000000, mem_size - 0xF0000000, E820_RAM⟩]
       else []) := by
  by_cases h : mem_size > 0xF0000000
  · have hne : mem_size - 0xF0000000 ≠ 0 := by omega
    have hmin : min mem_size 0xF0000000 = 0xF0000000 := by omega
    simp [build_e820map, e820_put, e820_entries, HVM_BELOW_4G_RAM_END, h, hne, hmin,
      List.range_succ, PAGE_SIZE]
  · have hmin : min mem_size 0xF0000000 = mem_size := by omega
    simp [build_e820map, e820_put, e820_entries, HVM_BELOW_4G_RAM_END, h, hmin,
      List.range_succ, PAGE_SIZE]

/-- C7: for every memory size, the entries written by `build_e820map`, in index
order, have strictly increasing start addresses, and no address lies in the ranges
`[addr, addr+size)` of two distinct entries. -/
theorem build_e820map_sorted_disjoint (a0 : Nat → e820entry) (mem_size : Nat) :
    List.Pairwise (fun e f => e.addr < f.addr) (e820_entries (build_e820map a0 mem_size)) ∧
    List.Pairwise (fun e f => ∀ x, ¬ (e.addr ≤ x ∧ x < e.addr + e.size ∧
        f.addr ≤ x ∧ x < f.addr + f.size)) (e820_entries (build_e820map a0 mem_size)) := by
  rw [e820_entries_eq]
  by_cases h : mem_size > 0xF0000000
  · have hmin : min mem_size 0xF0000000 = 0xF0000000 := by omega
    simp only [h, hmin, if_true]
    constructor
    · simp
    · simp
      refine ⟨⟨?_, ?_, ?_, ?_, ?_⟩, ⟨?_, ?_, ?_, ?_⟩, ⟨?_, ?_, ?_⟩, ⟨?_, ?_⟩, ?_⟩ <;> intro x <;> omega
  · simp only [h, if_false]
    constructor
    · simp
    · simp
      refine ⟨⟨?_, ?_, ?_, ?_⟩, ⟨?_, ?_, ?_⟩, ⟨?_, ?_⟩, ?_⟩ <;> intro x <;> omega

theorem e820_ram_total_cons (e : e820entry) (l : List e820entry) :
    e820_ram_total (e :: l) =
      (if e.type = E820_RAM then e.size else 0) + e820_ram_total l := by
  unfold e820_ram_total
  by_cases h : e.type = E820_RAM <;> simp [List.filter, h]

theorem e820_ram_total_nil : e820_ram_total [] = 0 := rfl

/-- C8 (amended): for every memory size of at least `0x103000` bytes, the sizes of the
`E820_RAM` entries add up to `mem_size - 0x61000 - 3 * 4096`, whether or not
`mem_size` exceeds `0xF0000000`. -/
theorem build_e820map_ram_total (a0 : Nat → e820entry) (mem_size : Nat)
    (h : 0x103000 ≤ mem_size) :
    e820_ram_total (e820_entries (build_e820map a0 mem_size)) =
      mem_size - 0x61000 - 3 * 4096 := by
  rw [e820_entries_eq]
  by_cases hc : mem_size > 0xF0000000
  · have hmin : min mem_size 0xF0000000 = 0xF0000000 := by omega
    simp only [hc, hmin, if_true, List.cons_append, List.nil_append, e820_ram_total_cons,
      e820_ram_total_nil, E820_RAM, E820_RESERVED, E820_ACPI]
    simp only [if_true, if_false, OfNat.ofNat_ne_one, reduceIte]
    omega
  · have hmin : min mem_size 0xF0000000 = mem_size := by omega
    simp only [hc, hmin, if_false, List.cons_append, List.nil_append, List.append_nil,
      e820_ram_total_cons, e820_ram_total_nil, E820_RAM, E820_RESERVED, E820_ACPI]
    simp only [if_true, if_false, OfNat.ofNat_ne_one, reduceIte]
    omega

/-- Witness for C8 (amended): a 64 MiB guest. -/
theorem build_e820map_ram_total_witness :
    (0x103000 : Nat) ≤ 0x4000000 ∧
    e820_ram_total (e820_entries (build_e820map e820_zero 0x4000000)) =
      0x4000000 - 0x61000 - 3 * 4096 :=
  ⟨by decide, build_e820map_ram_total e820_zero 0x4000000 (by decide)⟩

/-- C8 (counterexample): for a 1 MiB guest the low RAM entry has size
`2^64 - 0x3000`, so the RAM sizes add up to `2^64 + 0x9C000`, not to
`0x100000 - 0x61000 - 3 * 4096 = 0x9C000`. -/
theorem build_e820map_ram_total_1MiB :
    e820_ram_total (e820_entries (build_e820map e820_zero 0x100000)) ≠
      0x100000 - 0x61000 - 3 * 4096 := by
  decide

theorem fill_identity_length (n : Nat) (l : List Nat) : (fill_identity n l).length = l.length := by
  induction n with
  | zero => rfl
  | succ k ih => simp [fill_identity, ih]

theorem fill_identity_getElem? (n : Nat) (l : List Nat) (i : Nat) :
    (fill_identity n l)[i]? = if i < n ∧ i < l.length then some i else l[i]? := by
  induction n with
  | zero => simp [fill_identity]
  | succ k ih =>
    simp only [fill_identity, List.getElem?_set, fill_identity_length, ih]
    by_cases h1 : k = i
    · subst h1
      by_cases h2 : k < l.length
      · simp [h2]
      · simp [h2]; omega
    · simp only [h1, if_false]
      by_cases h2 : i < k ∧ i < l.length
      · have : i < k + 1 ∧ i < l.length := ⟨by omega, h2.2⟩
        simp [h2, this]
      · have : ¬ (i < k + 1 ∧ i < l.length) := by
          intro h; apply h2; exact ⟨by omega, h.2⟩
        simp [h2, this]

theorem shift_from_length (delta n i0 : Nat) (l : List Nat) :
    (shift_from delta n i0 l).length = l.length := by
  induction n generalizing i0 l with
  | zero => rfl
  | succ k ih => simp [shift_from, ih]

theorem shift_from_getElem? (delta n i0 : Nat) (l : List Nat) (j : Nat) (hj : j < l.length) :
    (shift_from delta n i0 l)[j]? =
      if i0 ≤ j ∧ j < i0 + n then some ((l.getD j 0 + delta) % 2 ^ ULONG_BITS)
      else l[j]? := by
  induction n generalizing i0 l with
  | zero =>
    have : ¬ (i0 ≤ j ∧ j < i0 + 0) := by omega
    simp only [shift_from, this, if_false]
  | succ k ih =>
    rw [shift_from, ih _ _ (by simpa using hj)]
    by_cases h1 : i0 = j
    · subst h1
      have a : ¬ (i0 + 1 ≤ i0 ∧ i0 < i0 + 1 + k) := by omega
      have b : i0 ≤ i0 ∧ i0 < i0 + (k + 1) := by omega
      simp [a, b, List.getElem?_set, hj]
    · by_cases h2 : i0 + 1 ≤ j ∧ j < i0 + 1 + k
      · have b : i0 ≤ j ∧ j < i0 + (k + 1) := by omega
        simp only [h2, b, and_self, if_true]
        simp [List.getD_eq_getElem?_getD, List.getElem?_set, h1]
      · have b : ¬ (i0 ≤ j ∧ j < i0 + (k + 1)) := by omega
        simp only [h2, b, if_false]
        simp [List.getElem?_set, h1]

theorem init_page_array_length (n : Nat) : (init_page_array n).length = n := by
  simp [init_page_array, shift_from_length, fill_identity_length]

theorem init_page_array_getElem? (n i : Nat) (hn : n < 2 ^ 63) (hi : i < n) :
    (init_page_array n)[i]? = some (if i < 0xF0000 then i else i + 0x10000) := by
  unfold init_page_array
  simp only
  rw [shift_from_getElem? _ _ _ _ _ (by simpa [fill_identity_length] using hi)]
  have hget : (fill_identity n (List.replicate n 0))[i]? = some i := by
    rw [fill_identity_getElem?]; simp [hi]
  have e1 : HVM_BELOW_4G_RAM_END >>> PAGE_SHIFT = 0xF0000 := by
    simp [HVM_BELOW_4G_RAM_END, PAGE_SHIFT, Nat.shiftRight_eq_div_pow]
  have e2 : HVM_BELOW_4G_MMIO_LENGTH >>> PAGE_SHIFT = 0x10000 := by
    simp [HVM_BELOW_4G_MMIO_LENGTH, HVM_BELOW_4G_RAM_END, PAGE_SHIFT, Nat.shiftRight_eq_div_pow]
  rw [e1, e2]
  by_cases h : i < 0xF0000
  · have : ¬ (0xF0000 ≤ i ∧ i < 0xF0000 + (n - 0xF0000)) := by omega
    simp only [this, if_false, h, if_true, hget]
  · have : 0xF0000 ≤ i ∧ i < 0xF0000 + (n - 0xF0000) := by omega
    simp only [this, and_self, if_true, h, if_false]
    rw [List.getD_eq_getElem?_getD, hget]
    simp only [Option.getD_some, ULONG_BITS]
    rw [Nat.mod_eq_of_lt (by omega)]

theorem nr_pages_of_eq (memsize : Nat) (h : memsize < 2 ^ 31) :
    nr_pages_of memsize = memsize * 256 := by
  unfold nr_pages_of
  simp only [ULONG_BITS, PAGE_SHIFT, Nat.shiftLeft_eq]
  omega

theorem allocate_guest_first (env : Env) (w : World) (n : Nat) (pa : List Nat) :
    ∃ rest, (allocate_guest env w n pa).1.trace =
      w.trace ++ Hcall.populate_physmap (min n 0xa0) (extents pa 0 (min n 0xa0)) :: rest := by
  have hmin : (if n > 0xa0 then 0xa0 else n) = min n 0xa0 := by
    split <;> omega
  unfold allocate_guest
  simp only [hmin]
  split_ifs <;> simp [World.issue]

/-! ## Image loader -/

theorem page_mask (pa : Nat) : pa &&& (PAGE_SIZE - 1) = pa % 4096 := by
  have := Nat.and_pow_two_sub_one_eq_mod pa 12
  simpa [PAGE_SIZE] using this

theorem chunk_size_eq (left pa : Nat) : chunk_size left pa = min left (4096 - pa % 4096) := by
  unfold chunk_size
  rw [page_mask]
  simp only [PAGE_SIZE]
  split <;> omega

theorem extends_refl (w : World) : w.extends w := List.prefix_rfl

theorem extends_issue {w0 w : World} (c : Hcall) (h : w0.extends w) :
    w0.extends (w.issue c) :=
  List.IsPrefix.trans h (List.prefix_append _ _)

theorem extends_store {w0 w : World} (mfn : Nat) (page : Mem) (h : w0.extends w) :
    w0.extends (w.store mfn page) := h

theorem extends_set_param {w0 w : World} (env : Env) (p : hvm_param) (v : Nat)
    (h : w0.extends w) : w0.extends (xc_set_hvm_param env w p v) := by
  unfold xc_set_hvm_param
  split
  · exact h
  · exact extends_issue _ h

theorem extends_load_copy (env : Env) (image : Mem) (parray : Nat → Nat) (v_start phdr : Nat)
    (fuel : Nat) : ∀ (done : Nat) (w0 w : World), w0.extends w →
      w0.extends (load_copy env image parray v_start phdr fuel done w).2.2 := by
  induction fuel with
  | zero => intro done w0 w h; exact h
  | succ f ih =>
    intro done w0 w h
    rw [load_copy]
    simp only [xc_map_foreign_range]
    split_ifs
    · exact extends_issue _ h
    · exact ih _ _ _ (extends_store _ _ (extends_issue _ h))
    · exact h

theorem extends_load_zero (env : Env) (image : Mem) (parray : Nat → Nat) (v_start phdr : Nat)
    (fuel : Nat) : ∀ (done : Nat) (w0 w : World), w0.extends w →
      w0.extends (load_zero env image parray v_start phdr fuel done w).2.2 := by
  induction fuel with
  | zero => intro done w0 w h; exact h
  | succ f ih =>
    intro done w0 w h
    rw [load_zero]
    simp only [xc_map_foreign_range]
    split_ifs
    · exact extends_issue _ h
    · exact ih _ _ _ (extends_store _ _ (extends_issue _ h))
    · exact h

theorem extends_load_segments (env : Env) (image : Mem) (parray : Nat → Nat) (v_start : Nat)
    (n : Nat) : ∀ (h : Nat) (w0 w : World), w0.extends w →
      w0.extends (load_segments env image parray v_start n h w).2 := by
  induction n with
  | zero => intro h w0 w hw; exact hw
  | succ n ih =>
    intro h w0 w hw
    rw [load_segments]
    have hc := extends_load_copy env image parray v_start (phdr_at image h)
      (p_filesz image (phdr_at image h)) 0 w0 w hw
    split
    · exact ih _ _ _ hw
    · split
      · next b d w1 heq =>
        rw [heq] at hc
        exact hc
      · next b d w1 heq =>
        rw [heq] at hc
        have hz := extends_load_zero env image parray v_start (phdr_at image h)
          (p_memsz image (phdr_at image h)) d w0 w1 hc
        split
        · next b2 d2 w2 heq2 =>
          rw [heq2] at hz
          exact hz
        · next b2 d2 w2 heq2 =>
          rw [heq2] at hz
          exact ih _ _ _ hz

theorem extends_loadelfimage (env : Env) (image : Mem) (w0 w : World) (parray : Nat → Nat)
    (dsi : domain_setup_info) (h : w0.extends w) :
    w0.extends (loadelfimage env image w parray dsi).2 :=
  extends_load_segments env image parray dsi.v_start _ 0 w0 w h

theorem extends_set_hvm_info (env : Env) (L : hvm_info_layout) (w0 w : World)
    (pfn_list : Nat → Nat) (vcpus acpi : Nat) (h : w0.extends w) :
    w0.extends (set_hvm_info env L w pfn_list vcpus acpi).2 := by
  unfold set_hvm_info xc_map_foreign_range
  simp only
  split
  · exact extends_issue _ h
  · exact extends_store _ _ (extends_issue _ h)

theorem extends_clear (env : Env) (w0 w : World) (mfn : Nat) (h : w0.extends w) :
    w0.extends (xc_clear_domain_page env w mfn).1 := by
  unfold xc_clear_domain_page
  simp only
  split
  · exact extends_store _ _ (extends_issue _ h)
  · exact extends_issue _ h

theorem extends_publish_guest (env : Env) (abi : Abi) (w0 w : World) (page_array : List Nat)
    (image : Mem) (dsi : domain_setup_info) (v_end : Nat) (ctxt : vcpu_guest_context)
    (shared_info_frame vcpus pae acpi apic store_evtchn : Nat) (h : w0.extends w) :
    w0.extends (publish_guest env abi w page_array image dsi v_end ctxt
      shared_info_frame vcpus pae acpi apic store_evtchn).world := by
  unfold publish_guest
  simp only
  have h1 := extends_set_hvm_info env abi.hvm_info w0 _ (fun i => page_array.getD i 0) vcpus acpi
    (extends_loadelfimage env image w0 w (fun i => page_array.getD i 0) dsi h)
  generalize set_hvm_info env abi.hvm_info
    (loadelfimage env image w (fun i => page_array.getD i 0) dsi).2
    (fun i => page_array.getD i 0) vcpus acpi = r1 at h1 ⊢
  obtain ⟨rc1, w1⟩ := r1
  simp only at h1 ⊢
  split
  · exact h1
  · have h2 := extends_set_param env .APIC_ENABLED apic
      (extends_set_param env .PAE_ENABLED pae h1)
    generalize xc_set_hvm_param env (xc_set_hvm_param env w1 .PAE_ENABLED pae)
      .APIC_ENABLED apic = w2 at h2 ⊢
    simp only [xc_map_foreign_range]
    split
    · exact extends_issue _ h2
    · split
      · exact extends_issue _ (extends_store _ _ (extends_issue _ h2))
      · have h3 : w0.extends (((w2.issue (.map_foreign_range
            (page_array.getD (E820_MAP_PAGE >>> PAGE_SHIFT) 0))).store
            (page_array.getD (E820_MAP_PAGE >>> PAGE_SHIFT) 0)
            (store_e820 abi.e820 (build_e820map e820_zero v_end)
              (build_e820map e820_zero v_end).nr_map
              (memset ((w2.issue (.map_foreign_range
                (page_array.getD (E820_MAP_PAGE >>> PAGE_SHIFT) 0))).mem
                (page_array.getD (E820_MAP_PAGE >>> PAGE_SHIFT) 0)) 0 0 PAGE_SIZE))).issue
            (.map_foreign_range shared_info_frame)) :=
          extends_issue _ (extends_store _ _ (extends_issue _ h2))
        generalize ((w2.issue (.map_foreign_range
            (page_array.getD (E820_MAP_PAGE >>> PAGE_SHIFT) 0))).store
            (page_array.getD (E820_MAP_PAGE >>> PAGE_SHIFT) 0)
            (store_e820 abi.e820 (build_e820map e820_zero v_end)
              (build_e820map e820_zero v_end).nr_map
              (memset ((w2.issue (.map_foreign_range
                (page_array.getD (E820_MAP_PAGE >>> PAGE_SHIFT) 0))).mem
                (page_array.getD (E820_MAP_PAGE >>> PAGE_SHIFT) 0)) 0 0 PAGE_SIZE))).issue
            (.map_foreign_range shared_info_frame) = w3 at h3 ⊢
        have h4 := extends_clear env w0 _ (page_array.getD (shared_page_nr_of v_end) 0)
          (extends_store shared_info_frame
            (init_shared_info abi.shared_info (w3.mem shared_info_frame)) h3)
        generalize xc_clear_domain_page env (w3.store shared_info_frame
          (init_shared_info abi.shared_info (w3.mem shared_info_frame)))
          (page_array.getD (shared_page_nr_of v_end) 0) = r4 at h4 ⊢
        obtain ⟨w4, rc4⟩ := r4
        simp only at h4 ⊢
        split
        · exact h4
        · have h5 := extends_clear env w0 _
            (page_array.getD (ulong_sub (shared_page_nr_of v_end) 1) 0) h4
          generalize xc_clear_domain_page env w4
            (page_array.getD (ulong_sub (shared_page_nr_of v_end) 1) 0) = r5 at h5 ⊢
          obtain ⟨w5, rc5⟩ := r5
          simp only at h5 ⊢
          split
          · exact h5
          · have h6 := extends_clear env w0 _
              (page_array.getD (ulong_sub (shared_page_nr_of v_end) 2) 0) h5
            generalize xc_clear_domain_page env w5
              (page_array.getD (ulong_sub (shared_page_nr_of v_end) 2) 0) = r6 at h6 ⊢
            obtain ⟨w6, rc6⟩ := r6
            simp only at h6 ⊢
            split
            · exact h6
            · exact extends_set_param _ _ _ (extends_set_param _ _ _
                (extends_set_param _ _ _ (extends_set_param _ _ _ h6)))

theorem v_end_of_eq (memsize : Nat) (h : memsize < 2 ^ 31) :
    v_end_of memsize = memsize * 2 ^ 20 := by
  unfold v_end_of
  simp only [Nat.shiftLeft_eq]
  omega

theorem parseelfimage_v_start (image : Mem) (elfsize : Nat) (dsi0 dsi : domain_setup_info)
    (h : parseelfimage image elfsize dsi0 = (0, dsi)) : dsi.v_start = 0 := by
  unfold parseelfimage at h
  simp only [EINVAL] at h
  split_ifs at h
  all_goals simp only [Prod.mk.injEq] at h
  all_goals first
    | (exfalso; omega)
    | skip
  obtain ⟨-, rfl⟩ := h
  rfl

/-- For a size in the range of `int` the space check of `setup_guest` compares a
number with itself and is never taken: an accepted, page-aligned image reaches the
allocation whatever its span. -/
theorem setup_guest_reaches_allocation (env : Env) (abi : Abi) (w : World) (memsize : Nat)
    (image : Mem) (image_size : Nat) (ctxt : vcpu_guest_context)
    (shared_info_frame vcpus pae acpi apic store_evtchn : Nat) (dsi : domain_setup_info)
    (hm : memsize < 2 ^ 31)
    (hp : parseelfimage image image_size domain_setup_info.zero = (0, dsi))
    (ha : dsi.v_kernstart &&& (PAGE_SIZE - 1) = 0) (hmalloc : env.malloc_ok = true) :
    (allocate_guest env w (nr_pages_of memsize) (init_page_array (nr_pages_of memsize))).1.extends
      (setup_guest env abi w memsize image image_size ctxt
        shared_info_frame vcpus pae acpi apic store_evtchn).world := by
  have hv := parseelfimage_v_start image image_size _ dsi hp
  have hcheck : ¬ ((v_end_of memsize + 2 ^ 64 - dsi.v_start) % 2 ^ 64 >
      (nr_pages_of memsize <<< PAGE_SHIFT) % 2 ^ 64) := by
    rw [hv, v_end_of_eq memsize hm, nr_pages_of_eq memsize hm]
    simp only [PAGE_SHIFT, Nat.shiftLeft_eq]
    omega
  unfold setup_guest
  simp only [hp, ha, hcheck, hmalloc]
  simp only [ne_eq, not_true_eq_false, if_false, Bool.not_true, Bool.false_eq_true]
  split
  · next w1 heq => rw [heq]; exact extends_refl _
  · next w1 pa heq =>
    rw [heq]
    exact extends_publish_guest _ _ _ _ _ _ _ _ _ _ _ _ _ _ _ (extends_refl _)


/-- C6: for every requested size `memsize` (an `int` number of MiB), the page array
built by `setup_guest` has `nr_pages = memsize * 256` entries and entry `i` holds `i`
below `0xF0000` and `i + 0x10000` from there on; whenever the image is accepted and
page-aligned and `malloc` succeeds, the first operation `setup_guest` issues is the
populate call on the start of this array. -/
theorem setup_guest_page_array (memsize : Nat) (h : memsize < 2 ^ 31) :
    nr_pages_of memsize = memsize * 256 ∧
    (init_page_array (nr_pages_of memsize)).length = memsize * 256 ∧
    (∀ i, i < memsize * 256 →
      (init_page_array (nr_pages_of memsize))[i]? =
        some (if i < 0xF0000 then i else i + 0x10000)) ∧
    (∀ (env : Env) (abi : Abi) (w : World) (image : Mem) (image_size : Nat)
        (ctxt : vcpu_guest_context)
        (shared_info_frame vcpus pae acpi apic store_evtchn : Nat) (dsi : domain_setup_info),
      parseelfimage image image_size domain_setup_info.zero = (0, dsi) →
      dsi.v_kernstart &&& (PAGE_SIZE - 1) = 0 → env.malloc_ok = true →
      ∃ rest,
        (setup_guest env abi w memsize image image_size ctxt
          shared_info_frame vcpus pae acpi apic store_evtchn).world.trace =
        w.trace ++ Hcall.populate_physmap (min (nr_pages_of memsize) 0xa0)
          (extents (init_page_array (nr_pages_of memsize)) 0
            (min (nr_pages_of memsize) 0xa0)) :: rest) := by
  have hn := nr_pages_of_eq memsize h
  refine ⟨hn, ?_, ?_, ?_⟩
  · rw [init_page_array_length, hn]
  · intro i hi
    rw [hn]
    exact init_page_array_getElem? _ i (by omega) hi
  · intro env abi w image image_size ctxt sif vcpus pae acpi apic evt dsi hp ha hmalloc
    obtain ⟨rest1, h1⟩ := allocate_guest_first env w (nr_pages_of memsize)
      (init_page_array (nr_pages_of memsize))
    obtain ⟨rest2, h2⟩ := setup_guest_reaches_allocation env abi w memsize image image_size
      ctxt sif vcpus pae acpi apic evt dsi h hp ha hmalloc
    refine ⟨rest1 ++ rest2, ?_⟩
    rw [← h2, h1]
    simp

/-- Witness for C6: a 4 GiB guest, whose frame `0xF0000` is moved to `0x100000`, and
the build of a 1 MiB guest from the sample image. -/
theorem setup_guest_page_array_witness :
    ((4096 : Nat) < 2 ^ 31 ∧ nr_pages_of 4096 = 4096 * 256 ∧
      (init_page_array (nr_pages_of 4096))[0xF0000]? =
        some (if 0xF0000 < 0xF0000 then 0xF0000 else 0xF0000 + 0x10000)) ∧
    ∃ rest,
      (setup_guest env_ok abi_x86_64 world0 1 sample_image 172 ctxt0
        7 1 1 1 1 3).world.trace =
      world0.trace ++ Hcall.populate_physmap (min (nr_pages_of 1) 0xa0)
        (extents (init_page_array (nr_pages_of 1)) 0 (min (nr_pages_of 1) 0xa0)) :: rest :=
  ⟨⟨by decide, (setup_guest_page_array 4096 (by decide)).1,
    (setup_guest_page_array 4096 (by decide)).2.2.1 0xF0000 (by decide)⟩,
   (setup_guest_page_array 1 (by decide)).2.2.2 env_ok abi_x86_64 world0 sample_image 172
      ctxt0 7 1 1 1 1 3 ⟨0, 0x101000, 0x100000, 0x101000, 0x100000⟩
      (by decide) (by decide) rfl⟩

set_option maxRecDepth 100000 in
/-- C3 (failing input): a 1 MiB guest and the sample image, whose span ends at
`0x101000`, beyond 1 MiB.  `setup_guest` does not reject the build: its first step
after validation is a populate call; when every operation succeeds it returns 0, and
when the populate call fails that call is the one operation it has issued. -/
theorem setup_guest_ignores_image_span :
    (parseelfimage sample_image 172 domain_setup_info.zero).1 = 0 ∧
    (parseelfimage sample_image 172 domain_setup_info.zero).2.v_kernend > 1 * 2 ^ 20 ∧
    (setup_guest env_ok abi_x86_64 world0 1 sample_image 172 ctxt0 7 1 1 1 1 3).rc = 0 ∧
    (setup_guest env_ok abi_x86_64 world0 1 sample_image 172 ctxt0
      7 1 1 1 1 3).world.trace.head? = some (.populate_physmap 0xa0 (List.range 0xa0)) ∧
    (setup_guest env_populate_fails abi_x86_64 world0 1 sample_image 172 ctxt0
      7 1 1 1 1 3).world.trace = [.populate_physmap 0xa0 (List.range 0xa0)] := by
  refine ⟨by decide, by decide, by decide, by decide, by decide⟩

set_option maxRecDepth 100000 in
/-- C4 (failing input): a 2 MiB guest, the sample image, and a hypervisor whose first
mapping fails.  `loadelfimage`, run on the state left by the allocation, returns -1,
yet `setup_guest` returns 0 and has gone on to set the last parameter. -/
theorem setup_guest_ignores_load_failure :
    (loadelfimage env_first_map_fails sample_image
      (allocate_guest env_first_map_fails world0 (nr_pages_of 2)
        (init_page_array (nr_pages_of 2))).1
      (fun i => ((allocate_guest env_first_map_fails world0 (nr_pages_of 2)
        (init_page_array (nr_pages_of 2))).2.getD []).getD i 0)
      (parseelfimage sample_image 172 domain_setup_info.zero).2).1 = -1 ∧
    (setup_guest env_first_map_fails abi_x86_64 world0 2 sample_image 172 ctxt0 7 1 1 1 1 3).rc
      = 0 ∧
    Hcall.set_param .IOREQ_PFN 511 ∈
      (setup_guest env_first_map_fails abi_x86_64 world0 2 sample_image 172 ctxt0
        7 1 1 1 1 3).world.trace := by
  refine ⟨by decide, by decide, by decide⟩

/-! ## Span of the loadable segments -/

theorem kern_span_spec (image : Mem) (n : Nat) :
    ∀ (h ks ke : Nat),
      (kern_span image n h (ks, ke)).1 ≤ ks ∧
      (∀ g, h ≤ g → g < h + n → seg_loadable image g →
        (kern_span image n h (ks, ke)).1 ≤ seg_paddr image g) ∧
      ((kern_span image n h (ks, ke)).1 = ks ∨
        ∃ g, h ≤ g ∧ g < h + n ∧ seg_loadable image g ∧
          seg_paddr image g = (kern_span image n h (ks, ke)).1) ∧
      ke ≤ (kern_span image n h (ks, ke)).2 ∧
      (∀ g, h ≤ g → g < h + n → seg_loadable image g →
        (seg_paddr image g + seg_memsz image g) % 2 ^ 32 ≤ (kern_span image n h (ks, ke)).2) ∧
      ((kern_span image n h (ks, ke)).2 = ke ∨
        ∃ g, h ≤ g ∧ g < h + n ∧ seg_loadable image g ∧
          (seg_paddr image g + seg_memsz image g) % 2 ^ 32 =
            (kern_span image n h (ks, ke)).2) := by
  induction n with
  | zero =>
    intro h ks ke
    exact ⟨le_rfl, fun g a b => by omega, Or.inl rfl, le_rfl, fun g a b => by omega, Or.inl rfl⟩
  | succ n ih =>
    intro h ks ke
    by_cases hl : seg_loadable image h
    · have hl' : is_loadable_phdr image (phdr_at image h) = true := hl
      have hstep : kern_span image (n + 1) h (ks, ke) =
          kern_span image n (h + 1)
            (if seg_paddr image h < ks then seg_paddr image h else ks,
             if (seg_paddr image h + seg_memsz image h) % 2 ^ 32 > ke then
               (seg_paddr image h + seg_memsz image h) % 2 ^ 32 else ke) := by
        rw [kern_span]
        simp only [hl', Bool.not_true, Bool.false_eq_true, if_false, seg_paddr, seg_memsz]
      rw [hstep]
      have k1 : (if seg_paddr image h < ks then seg_paddr image h else ks) ≤ ks ∧
          (if seg_paddr image h < ks then seg_paddr image h else ks) ≤ seg_paddr image h ∧
          ((if seg_paddr image h < ks then seg_paddr image h else ks) = ks ∨
           (if seg_paddr image h < ks then seg_paddr image h else ks) = seg_paddr image h) := by
        split <;> omega
      have k2 : ke ≤ (if (seg_paddr image h + seg_memsz image h) % 2 ^ 32 > ke then
            (seg_paddr image h + seg_memsz image h) % 2 ^ 32 else ke) ∧
          (seg_paddr image h + seg_memsz image h) % 2 ^ 32 ≤
            (if (seg_paddr image h + seg_memsz image h) % 2 ^ 32 > ke then
              (seg_paddr image h + seg_memsz image h) % 2 ^ 32 else ke) ∧
          ((if (seg_paddr image h + seg_memsz image h) % 2 ^ 32 > ke then
              (seg_paddr image h + seg_memsz image h) % 2 ^ 32 else ke) = ke ∨
           (if (seg_paddr image h + seg_memsz image h) % 2 ^ 32 > ke then
              (seg_paddr image h + seg_memsz image h) % 2 ^ 32 else ke) =
             (seg_paddr image h + seg_memsz image h) % 2 ^ 32) := by
        split <;> omega
      generalize (if seg_paddr image h < ks then seg_paddr image h else ks) = ks1 at k1 ⊢
      generalize (if (seg_paddr image h + seg_memsz image h) % 2 ^ 32 > ke then
        (seg_paddr image h + seg_memsz image h) % 2 ^ 32 else ke) = ke1 at k2 ⊢
      obtain ⟨a1, a2, a3, a4, a5, a6⟩ := ih (h + 1) ks1 ke1
      refine ⟨by omega, ?_, ?_, by omega, ?_, ?_⟩
      · intro g g1 g2 gl
        by_cases hg : g = h
        · subst hg
          omega
        · exact a2 g (by omega) (by omega) gl
      · rcases a3 with e | ⟨g, g1, g2, gl, ge⟩
        · rcases k1.2.2 with c | c
          · exact Or.inl (e.trans c)
          · exact Or.inr ⟨h, le_rfl, by omega, hl, (e.trans c).symm⟩
        · exact Or.inr ⟨g, by omega, by omega, gl, ge⟩
      · intro g g1 g2 gl
        by_cases hg : g = h
        · subst hg
          omega
        · exact a5 g (by omega) (by omega) gl
      · rcases a6 with e | ⟨g, g1, g2, gl, ge⟩
        · rcases k2.2.2 with c | c
          · exact Or.inl (e.trans c)
          · exact Or.inr ⟨h, le_rfl, by omega, hl, (e.trans c).symm⟩
        · exact Or.inr ⟨g, by omega, by omega, gl, ge⟩
    · have hl' : is_loadable_phdr image (phdr_at image h) = false := by
        simpa [seg_loadable] using hl
      have hstep : kern_span image (n + 1) h (ks, ke) = kern_span image n (h + 1) (ks, ke) := by
        rw [kern_span]
        simp only [hl', Bool.not_false, if_true]
      rw [hstep]
      obtain ⟨a1, a2, a3, a4, a5, a6⟩ := ih (h + 1) ks ke
      refine ⟨a1, ?_, ?_, a4, ?_, ?_⟩
      · intro g g1 g2 gl
        by_cases hg : g = h
        · subst hg; exact absurd gl hl
        · exact a2 g (by omega) (by omega) gl
      · rcases a3 with e | ⟨g, g1, g2, gl, ge⟩
        · exact Or.inl e
        · exact Or.inr ⟨g, by omega, by omega, gl, ge⟩
      · intro g g1 g2 gl
        by_cases hg : g = h
        · subst hg; exact absurd gl hl
        · exact a5 g (by omega) (by omega) gl
      · rcases a6 with e | ⟨g, g1, g2, gl, ge⟩
        · exact Or.inl e
        · exact Or.inr ⟨g, by omega, by omega, gl, ge⟩

theorem parseelfimage_accept (image : Mem) (elfsize : Nat) (dsi0 dsi : domain_setup_info)
    (h : parseelfimage image elfsize dsi0 = (0, dsi)) :
    dsi.v_start = 0 ∧ dsi.v_kernentry = HVM_LOADER_ENTR_ADDR ∧
    dsi.v_kernstart = (kern_span image (e_phnum image) 0 (ULONG_MAX, 0)).1 ∧
    dsi.v_kernend = (kern_span image (e_phnum image) 0 (ULONG_MAX, 0)).2 ∧
    dsi.v_kernstart ≤ dsi.v_kernend := by
  unfold parseelfimage at h
  simp only [EINVAL] at h
  split_ifs at h with h1 h2 h3 h4 h5
  all_goals simp only [Prod.mk.injEq] at h
  all_goals first
    | (exfalso; omega)
    | skip
  obtain ⟨-, rfl⟩ := h
  refine ⟨rfl, rfl, rfl, rfl, ?_⟩
  simp only
  omega

/-- The span of an accepted image in terms of the headers the loop reads: `v_kernstart`
is the least `p_paddr` and `v_kernend` the greatest 32-bit sum `p_paddr + p_memsz`
over the headers that are `PT_LOAD` with the W or X flag (both values are attained by
such a header and bound all of them); when no loadable segment ends beyond `2^32`,
`v_kernend` is the greatest sum `p_paddr + p_memsz`. -/
theorem parseelfimage_span_min_max (image : Mem) (elfsize : Nat) (dsi0 dsi : domain_setup_info)
    (h : parseelfimage image elfsize dsi0 = (0, dsi)) :
    (∃ g, g < e_phnum image ∧ seg_loadable image g ∧ seg_paddr image g = dsi.v_kernstart) ∧
    (∀ g, g < e_phnum image → seg_loadable image g → dsi.v_kernstart ≤ seg_paddr image g) ∧
    (∃ g, g < e_phnum image ∧ seg_loadable image g ∧
      (seg_paddr image g + seg_memsz image g) % 2 ^ 32 = dsi.v_kernend) ∧
    (∀ g, g < e_phnum image → seg_loadable image g →
      (seg_paddr image g + seg_memsz image g) % 2 ^ 32 ≤ dsi.v_kernend) ∧
    ((∀ g, g < e_phnum image → seg_loadable image g →
        seg_paddr image g + seg_memsz image g < 2 ^ 32) →
      (∃ g, g < e_phnum image ∧ seg_loadable image g ∧
        seg_paddr image g + seg_memsz image g = dsi.v_kernend) ∧
      (∀ g, g < e_phnum image → seg_loadable image g →
        seg_paddr image g + seg_memsz image g ≤ dsi.v_kernend)) := by
  obtain ⟨-, -, e1, e2, hle⟩ := parseelfimage_accept image elfsize dsi0 dsi h
  obtain ⟨a1, a2, a3, a4, a5, a6⟩ := kern_span_spec image (e_phnum image) 0 ULONG_MAX 0
  rw [← e1] at a1 a2 a3
  rw [← e2] at a4 a5 a6
  have hmin : ∃ g, g < e_phnum image ∧ seg_loadable image g ∧
      seg_paddr image g = dsi.v_kernstart := by
    rcases a3 with e | ⟨g, -, g2, gl, ge⟩
    · exfalso
      rcases a6 with e' | ⟨g, -, g2, gl, ge⟩
      · rw [e, e'] at hle
        simp [ULONG_MAX, ULONG_BITS] at hle
      · have : (seg_paddr image g + seg_memsz image g) % 2 ^ 32 < 2 ^ 32 :=
          Nat.mod_lt _ (by decide)
        rw [e, ← ge] at hle
        simp only [ULONG_MAX, ULONG_BITS] at hle
        omega
    · exact ⟨g, by omega, gl, ge⟩
  have hmax : ∃ g, g < e_phnum image ∧ seg_loadable image g ∧
      (seg_paddr image g + seg_memsz image g) % 2 ^ 32 = dsi.v_kernend := by
    rcases a6 with e | ⟨g, -, g2, gl, ge⟩
    · obtain ⟨g, g1, gl, -⟩ := hmin
      have := a5 g (Nat.zero_le _) (by omega) gl
      exact ⟨g, g1, gl, by omega⟩
    · exact ⟨g, by omega, gl, ge⟩
  refine ⟨hmin, fun g g1 gl => a2 g (Nat.zero_le _) (by omega) gl, hmax,
    fun g g1 gl => a5 g (Nat.zero_le _) (by omega) gl, ?_⟩
  intro hfit
  obtain ⟨g, g1, gl, ge⟩ := hmax
  refine ⟨⟨g, g1, gl, ?_⟩, ?_⟩
  · rw [← ge, Nat.mod_eq_of_lt (hfit g g1 gl)]
  · intro g' g1' gl'
    have := a5 g' (Nat.zero_le _) (by omega) gl'
    rw [Nat.mod_eq_of_lt (hfit g' g1' gl')] at this
    exact this

/-- The lemma above at the sample image, whose one segment spans
`[0x100000, 0x101000)`. -/
theorem parseelfimage_span_min_max_witness :
    parseelfimage sample_image 172 domain_setup_info.zero =
      (0, ⟨0, 0x101000, 0x100000, 0x101000, 0x100000⟩) ∧
    (∀ g, g < e_phnum sample_image → seg_loadable sample_image g →
      (0x100000 : Nat) ≤ seg_paddr sample_image g) ∧
    (∀ g, g < e_phnum sample_image → seg_loadable sample_image g →
      seg_paddr sample_image g + seg_memsz sample_image g ≤ 0x101000) :=
  ⟨by decide,
   (parseelfimage_span_min_max sample_image 172 domain_setup_info.zero
      ⟨0, 0x101000, 0x100000, 0x101000, 0x100000⟩ (by decide)).2.1,
   ((parseelfimage_span_min_max sample_image 172 domain_setup_info.zero
      ⟨0, 0x101000, 0x100000, 0x101000, 0x100000⟩ (by decide)).2.2.2.2 (by decide)).2⟩

/-- Claim C11, the failing input.  `span_wrap_image` has two loadable segments,
`[0x100000, 0x101000)` and one of `0x2000` bytes at `0xFFFFF000`, which ends at
`0x100001000`.  `parseelfimage` accepts it with `v_kernend = 0x101000`: the sum
`p_paddr + p_memsz` of the second segment is formed in 32 bits, comes out below the
end of the first segment and passes the check that reports a malformed image, so
`v_kernend` is not the greatest sum `p_paddr + p_memsz`. -/
theorem parseelfimage_span_wraps :
    e_phnum span_wrap_image = 2 ∧
    seg_loadable span_wrap_image 0 ∧ seg_loadable span_wrap_image 1 ∧
    seg_paddr span_wrap_image 0 + seg_memsz span_wrap_image 0 = 0x101000 ∧
    seg_paddr span_wrap_image 1 + seg_memsz span_wrap_image 1 = 0x100001000 ∧
    parseelfimage span_wrap_image 204 domain_setup_info.zero =
      (0, ⟨0, 0x101000, 0x100000, 0x101000, 0x100000⟩) ∧
    ¬ (∀ g, g < e_phnum span_wrap_image → seg_loadable span_wrap_image g →
        seg_paddr span_wrap_image g + seg_memsz span_wrap_image g ≤ 0x101000) := by
  refine ⟨by decide, by decide, by decide, by decide, by decide, by decide, by decide⟩

theorem kern_span_none (image : Mem) (n : Nat) :
    ∀ (h : Nat) (s : Nat × Nat), (∀ g, h ≤ g → g < h + n → ¬ seg_loadable image g) →
      kern_span image n h s = s := by
  induction n with
  | zero => intro h s _; rfl
  | succ n ih =>
    intro h s hn
    have hl' : is_loadable_phdr image (phdr_at image h) = false := by
      simpa [seg_loadable] using hn h le_rfl (by omega)
    obtain ⟨ks, ke⟩ := s
    rw [kern_span]
    simp only [hl', Bool.not_false, if_true]
    exact ih (h + 1) _ (fun g a b => hn g (by omega) (by omega))

/-- When none of the headers that the loop of `parseelfimage` reads is `PT_LOAD` with
the W or X flag, `parseelfimage` returns `-EINVAL` and `setup_guest` returns -1 with
the world as it found it: no populate, decrease-reservation, translate or other
operation is issued. -/
theorem setup_guest_rejects_no_loadable (image : Mem) (image_size : Nat)
    (hn : ∀ h, h < e_phnum image → ¬ seg_loadable image h) :
    (∀ dsi, parseelfimage image image_size dsi = (-EINVAL, dsi)) ∧
    (∀ (env : Env) (abi : Abi) (w : World) (memsize : Nat) (ctxt : vcpu_guest_context)
        (shared_info_frame vcpus pae acpi apic store_evtchn : Nat),
      (setup_guest env abi w memsize image image_size ctxt
        shared_info_frame vcpus pae acpi apic store_evtchn).rc = -1 ∧
      (setup_guest env abi w memsize image image_size ctxt
        shared_info_frame vcpus pae acpi apic store_evtchn).world = w) := by
  have hspan : kern_span image (e_phnum image) 0 (ULONG_MAX, 0) = (ULONG_MAX, 0) :=
    kern_span_none image _ 0 _ (fun g _ b => hn g (by omega))
  have hp : ∀ dsi, parseelfimage image image_size dsi = (-EINVAL, dsi) := by
    intro dsi
    unfold parseelfimage
    rw [hspan]
    simp only [ULONG_MAX, ULONG_BITS]
    split_ifs with h1 h2 h3 h4 h5
    all_goals first
      | rfl
      | (exfalso; apply h5; left; decide)
  refine ⟨hp, ?_⟩
  intro env abi w memsize ctxt sif vcpus pae acpi apic evt
  unfold setup_guest
  simp only [hp, EINVAL]
  constructor <;> rfl

/-- The lemma above at an image whose only `PT_LOAD` header is read-only. -/
theorem setup_guest_rejects_no_loadable_witness :
    (∀ h, h < e_phnum readonly_image → ¬ seg_loadable readonly_image h) ∧
    (setup_guest env_ok abi_x86_64 world0 64 readonly_image 172 ctxt0 7 1 1 1 1 3).rc = -1 ∧
    (setup_guest env_ok abi_x86_64 world0 64 readonly_image 172 ctxt0
      7 1 1 1 1 3).world = world0 :=
  ⟨by decide,
   ((setup_guest_rejects_no_loadable readonly_image 172 (by decide)).2
      env_ok abi_x86_64 world0 64 ctxt0 7 1 1 1 1 3).1,
   ((setup_guest_rejects_no_loadable readonly_image 172 (by decide)).2
      env_ok abi_x86_64 world0 64 ctxt0 7 1 1 1 1 3).2⟩

set_option maxRecDepth 100000 in
/-- Claim C12, the failing input.  The image file is the 52 bytes of an ELF header
(`image_size = 52`) that announces one program header of size 0 at offset 52: no
program header lies inside the file, so the file has no loadable one.
`parseelfimage` reads the header at offsets 52 to 83, behind the end of the file.
With zeros there (`header_only_image`) the build is refused; with the bytes of
`overhang_image` there, the same file is accepted, `setup_guest` returns 0 and
populate-physmap, decrease-reservation and translate calls are issued. -/
theorem setup_guest_accepts_file_without_phdr :
    (∀ i, i < 52 → overhang_image i = header_only_image i) ∧
    e_phnum overhang_image = 1 ∧
    (∀ h, h < e_phnum overhang_image → 52 ≤ phdr_at overhang_image h) ∧
    (parseelfimage overhang_image 52 domain_setup_info.zero).1 = 0 ∧
    (setup_guest env_ok abi_x86_64 world0 2 overhang_image 52 ctxt0 7 1 1 1 1 3).rc = 0 ∧
    (setup_guest env_ok abi_x86_64 world0 2 overhang_image 52 ctxt0
      7 1 1 1 1 3).world.trace.head? = some (.populate_physmap 0xa0 (List.range 0xa0)) ∧
    (setup_guest env_ok abi_x86_64 world0 2 header_only_image 52 ctxt0 7 1 1 1 1 3).rc = -1 := by
  refine ⟨by decide, by decide, by decide, by decide, by decide, by decide, by decide⟩

/-! ## Operations issued by the stages -/

theorem adds_refl (P : Hcall → Bool) (w : World) : w.adds P w :=
  ⟨[], by simp, by simp⟩

theorem adds_issue {P : Hcall → Bool} {w0 w : World} (c : Hcall) (hc : P c = true)
    (h : w0.adds P w) : w0.adds P (w.issue c) := by
  obtain ⟨rest, h1, h2⟩ := h
  refine ⟨rest ++ [c], by simp [World.issue, h1], ?_⟩
  intro d hd
  rcases List.mem_append.1 hd with hd | hd
  · exact h2 d hd
  · rw [List.mem_singleton.1 hd]; exact hc

theorem adds_store {P : Hcall → Bool} {w0 w : World} (mfn : Nat) (page : Mem)
    (h : w0.adds P w) : w0.adds P (w.store mfn page) := h

theorem adds_mono {P Q : Hcall → Bool} {w0 w : World} (hPQ : ∀ c, P c = true → Q c = true)
    (h : w0.adds P w) : w0.adds Q w := by
  obtain ⟨rest, h1, h2⟩ := h
  exact ⟨rest, h1, fun c hc => hPQ c (h2 c hc)⟩

theorem adds_trans {P : Hcall → Bool} {w0 w1 w2 : World} (h1 : w0.adds P w1)
    (h2 : w1.adds P w2) : w0.adds P w2 := by
  obtain ⟨r1, e1, p1⟩ := h1
  obtain ⟨r2, e2, p2⟩ := h2
  refine ⟨r1 ++ r2, by rw [e2, e1, List.append_assoc], ?_⟩
  intro c hc
  rcases List.mem_append.1 hc with hc | hc
  · exact p1 c hc
  · exact p2 c hc

theorem adds_set_param {P : Hcall → Bool} {w0 w : World} (env : Env) (p : hvm_param) (v : Nat)
    (hP : P (.set_param p v) = true) (h : w0.adds P w) :
    w0.adds P (xc_set_hvm_param env w p v) := by
  unfold xc_set_hvm_param
  split
  · exact h
  · exact adds_issue _ hP h

theorem adds_load_copy {P : Hcall → Bool} (hP : ∀ m, P (.map_foreign_range m) = true)
    (env : Env) (image : Mem) (parray : Nat → Nat) (v_start phdr : Nat)
    (fuel : Nat) : ∀ (done : Nat) (w0 w : World), w0.adds P w →
      w0.adds P (load_copy env image parray v_start phdr fuel done w).2.2 := by
  induction fuel with
  | zero => intro done w0 w h; exact h
  | succ f ih =>
    intro done w0 w h
    rw [load_copy]
    simp only [xc_map_foreign_range]
    split_ifs
    · exact adds_issue _ (hP _) h
    · exact ih _ _ _ (adds_store _ _ (adds_issue _ (hP _) h))
    · exact h

theorem adds_load_zero {P : Hcall → Bool} (hP : ∀ m, P (.map_foreign_range m) = true)
    (env : Env) (image : Mem) (parray : Nat → Nat) (v_start phdr : Nat)
    (fuel : Nat) : ∀ (done : Nat) (w0 w : World), w0.adds P w →
      w0.adds P (load_zero env image parray v_start phdr fuel done w).2.2 := by
  induction fuel with
  | zero => intro done w0 w h; exact h
  | succ f ih =>
    intro done w0 w h
    rw [load_zero]
    simp only [xc_map_foreign_range]
    split_ifs
    · exact adds_issue _ (hP _) h
    · exact ih _ _ _ (adds_store _ _ (adds_issue _ (hP _) h))
    · exact h

theorem adds_load_segments {P : Hcall → Bool} (hP : ∀ m, P (.map_foreign_range m) = true)
    (env : Env) (image : Mem) (parray : Nat → Nat) (v_start : Nat)
    (n : Nat) : ∀ (h : Nat) (w0 w : World), w0.adds P w →
      w0.adds P (load_segments env image parray v_start n h w).2 := by
  induction n with
  | zero => intro h w0 w hw; exact hw
  | succ n ih =>
    intro h w0 w hw
    rw [load_segments]
    have hc := adds_load_copy hP env image parray v_start (phdr_at image h)
      (p_filesz image (phdr_at image h)) 0 w0 w hw
    split
    · exact ih _ _ _ hw
    · split
      · next b d w1 heq =>
        rw [heq] at hc
        exact hc
      · next b d w1 heq =>
        rw [heq] at hc
        have hz := adds_load_zero hP env image parray v_start (phdr_at image h)
          (p_memsz image (phdr_at image h)) d w0 w1 hc
        split
        · next b2 d2 w2 heq2 =>
          rw [heq2] at hz
          exact hz
        · next b2 d2 w2 heq2 =>
          rw [heq2] at hz
          exact ih _ _ _ hz

theorem adds_loadelfimage {P : Hcall → Bool} (hP : ∀ m, P (.map_foreign_range m) = true)
    (env : Env) (image : Mem) (w0 w : World) (parray : Nat → Nat)
    (dsi : domain_setup_info) (h : w0.adds P w) :
    w0.adds P (loadelfimage env image w parray dsi).2 :=
  adds_load_segments hP env image parray dsi.v_start _ 0 w0 w h

theorem adds_set_hvm_info {P : Hcall → Bool} (hP : ∀ m, P (.map_foreign_range m) = true)
    (env : Env) (L : hvm_info_layout) (w0 w : World)
    (pfn_list : Nat → Nat) (vcpus acpi : Nat) (h : w0.adds P w) :
    w0.adds P (set_hvm_info env L w pfn_list vcpus acpi).2 := by
  unfold set_hvm_info xc_map_foreign_range
  simp only
  split
  · exact adds_issue _ (hP _) h
  · exact adds_store _ _ (adds_issue _ (hP _) h)

theorem adds_clear {P : Hcall → Bool} (hP : ∀ m, P (.clear_domain_page m) = true)
    (env : Env) (w0 w : World) (mfn : Nat) (h : w0.adds P w) :
    w0.adds P (xc_clear_domain_page env w mfn).1 := by
  unfold xc_clear_domain_page
  simp only
  split
  · exact adds_store _ _ (adds_issue _ (hP _) h)
  · exact adds_issue _ (hP _) h

/-- The shape of every run of the steps after the translation: either a failure that
leaves status -1 and no `store_mfn`, or the three reserved pages cleared and then the
four parameters `STORE_PFN`, `STORE_EVTCHN`, `BUFIOREQ_PFN`, `IOREQ_PFN` set, in
this order, to the page indices and the event channel. -/
theorem publish_guest_shape (env : Env) (abi : Abi) (w0 w : World) (page_array : List Nat)
    (image : Mem) (dsi : domain_setup_info) (v_end : Nat) (ctxt : vcpu_guest_context)
    (shared_info_frame vcpus pae acpi apic store_evtchn : Nat) (P : Hcall → Bool)
    (hmap : ∀ m, P (.map_foreign_range m) = true)
    (hclear : ∀ m, P (.clear_domain_page m) = true)
    (hpae : P (.set_param .PAE_ENABLED pae) = true)
    (hapic : P (.set_param .APIC_ENABLED apic) = true)
    (h : w0.adds P w) :
    ∃ w6, w0.adds P w6 ∧
      (((publish_guest env abi w page_array image dsi v_end ctxt
            shared_info_frame vcpus pae acpi apic store_evtchn).rc = -1 ∧
        (publish_guest env abi w page_array image dsi v_end ctxt
            shared_info_frame vcpus pae acpi apic store_evtchn).world = w6 ∧
        (publish_guest env abi w page_array image dsi v_end ctxt
            shared_info_frame vcpus pae acpi apic store_evtchn).store_mfn = none ∧
        (publish_guest env abi w page_array image dsi v_end ctxt
            shared_info_frame vcpus pae acpi apic store_evtchn).ctxt = ctxt) ∨
       ((publish_guest env abi w page_array image dsi v_end ctxt
            shared_info_frame vcpus pae acpi apic store_evtchn).rc = 0 ∧
        (publish_guest env abi w page_array image dsi v_end ctxt
            shared_info_frame vcpus pae acpi apic store_evtchn).world =
          xc_set_hvm_param env (xc_set_hvm_param env (xc_set_hvm_param env
            (xc_set_hvm_param env w6 .STORE_PFN (ulong_sub (shared_page_nr_of v_end) 1))
            .STORE_EVTCHN store_evtchn)
            .BUFIOREQ_PFN (ulong_sub (shared_page_nr_of v_end) 2))
            .IOREQ_PFN (shared_page_nr_of v_end) ∧
        (publish_guest env abi w page_array image dsi v_end ctxt
            shared_info_frame vcpus pae acpi apic store_evtchn).store_mfn =
          some (page_array.getD (ulong_sub (shared_page_nr_of v_end) 1) 0) ∧
        (publish_guest env abi w page_array image dsi v_end ctxt
            shared_info_frame vcpus pae acpi apic store_evtchn).ctxt =
          { ctxt with eip := dsi.v_kernentry })) := by
  unfold publish_guest
  simp only
  have h1 := adds_set_hvm_info hmap env abi.hvm_info w0 _ (fun i => page_array.getD i 0)
    vcpus acpi (adds_loadelfimage hmap env image w0 w (fun i => page_array.getD i 0) dsi h)
  generalize set_hvm_info env abi.hvm_info
    (loadelfimage env image w (fun i => page_array.getD i 0) dsi).2
    (fun i => page_array.getD i 0) vcpus acpi = r1 at h1 ⊢
  obtain ⟨rc1, w1⟩ := r1
  simp only at h1 ⊢
  split
  · exact ⟨w1, h1, Or.inl ⟨rfl, rfl, rfl, rfl⟩⟩
  · have h2 := adds_set_param env .APIC_ENABLED apic hapic
      (adds_set_param env .PAE_ENABLED pae hpae h1)
    generalize xc_set_hvm_param env (xc_set_hvm_param env w1 .PAE_ENABLED pae)
      .APIC_ENABLED apic = w2 at h2 ⊢
    simp only [xc_map_foreign_range]
    split
    · exact ⟨_, adds_issue _ (hmap _) h2, Or.inl ⟨rfl, rfl, rfl, rfl⟩⟩
    · split
      · exact ⟨_, adds_issue _ (hmap _) (adds_store _ _ (adds_issue _ (hmap _) h2)),
          Or.inl ⟨rfl, rfl, rfl, rfl⟩⟩
      · have h3 : w0.adds P (((w2.issue (.map_foreign_range
            (page_array.getD (E820_MAP_PAGE >>> PAGE_SHIFT) 0))).store
            (page_array.getD (E820_MAP_PAGE >>> PAGE_SHIFT) 0)
            (store_e820 abi.e820 (build_e820map e820_zero v_end)
              (build_e820map e820_zero v_end).nr_map
              (memset ((w2.issue (.map_foreign_range
                (page_array.getD (E820_MAP_PAGE >>> PAGE_SHIFT) 0))).mem
                (page_array.getD (E820_MAP_PAGE >>> PAGE_SHIFT) 0)) 0 0 PAGE_SIZE))).issue
            (.map_foreign_range shared_info_frame)) :=
          adds_issue _ (hmap _) (adds_store _ _ (adds_issue _ (hmap _) h2))
        generalize ((w2.issue (.map_foreign_range
            (page_array.getD (E820_MAP_PAGE >>> PAGE_SHIFT) 0))).store
            (page_array.getD (E820_MAP_PAGE >>> PAGE_SHIFT) 0)
            (store_e820 abi.e820 (build_e820map e820_zero v_end)
              (build_e820map e820_zero v_end).nr_map
              (memset ((w2.issue (.map_foreign_range
                (page_array.getD (E820_MAP_PAGE >>> PAGE_SHIFT) 0))).mem
                (page_array.getD (E820_MAP_PAGE >>> PAGE_SHIFT) 0)) 0 0 PAGE_SIZE))).issue
            (.map_foreign_range shared_info_frame) = w3 at h3 ⊢
        have h4 := adds_clear hclear env w0 _ (page_array.getD (shared_page_nr_of v_end) 0)
          (adds_store shared_info_frame
            (init_shared_info abi.shared_info (w3.mem shared_info_frame)) h3)
        generalize xc_clear_domain_page env (w3.store shared_info_frame
          (init_shared_info abi.shared_info (w3.mem shared_info_frame)))
          (page_array.getD (shared_page_nr_of v_end) 0) = r4 at h4 ⊢
        obtain ⟨w4, rc4⟩ := r4
        simp only at h4 ⊢
        split
        · exact ⟨w4, h4, Or.inl ⟨rfl, rfl, rfl, rfl⟩⟩
        · have h5 := adds_clear hclear env w0 _
            (page_array.getD (ulong_sub (shared_page_nr_of v_end) 1) 0) h4
          generalize xc_clear_domain_page env w4
            (page_array.getD (ulong_sub (shared_page_nr_of v_end) 1) 0) = r5 at h5 ⊢
          obtain ⟨w5, rc5⟩ := r5
          simp only at h5 ⊢
          split
          · exact ⟨w5, h5, Or.inl ⟨rfl, rfl, rfl, rfl⟩⟩
          · have h6 := adds_clear hclear env w0 _
              (page_array.getD (ulong_sub (shared_page_nr_of v_end) 2) 0) h5
            generalize xc_clear_domain_page env w5
              (page_array.getD (ulong_sub (shared_page_nr_of v_end) 2) 0) = r6 at h6 ⊢
            obtain ⟨w6, rc6⟩ := r6
            simp only at h6 ⊢
            split
            · exact ⟨w6, h6, Or.inl ⟨rfl, rfl, rfl, rfl⟩⟩
            · exact ⟨w6, h6, Or.inr ⟨rfl, rfl, rfl, rfl⟩⟩

theorem adds_allocate_guest {P : Hcall → Bool}
    (hpop : ∀ n l, P (.populate_physmap n l) = true)
    (hdec : ∀ n l, P (.decrease_reservation n l) = true)
    (htr : ∀ n l, P (.translate_gpfn_list n l) = true)
    (env : Env) (w0 w : World) (n : Nat) (pa : List Nat) (h : w0.adds P w) :
    w0.adds P (allocate_guest env w n pa).1 := by
  unfold allocate_guest
  simp only
  split_ifs
  all_goals dsimp only
  all_goals repeat (first
    | exact h
    | apply adds_issue _ (hpop _ _)
    | apply adds_issue _ (hdec _ _)
    | apply adds_issue _ (htr _ _))

/-- With both populate calls succeeding, the populate and decrease calls of the
allocation step. -/
theorem allocate_guest_calls (env : Env) (w : World) (n : Nat) (pa : List Nat)
    (hpop : ∀ k, env.populate_physmap k = 0) :
    ∃ rest, (allocate_guest env w n pa).1.trace = w.trace ++ rest ∧
      rest.filter Hcall.is_populate =
        Hcall.populate_physmap (min n 0xa0) (extents pa 0 (min n 0xa0)) ::
          (if n > 0xc0 then [Hcall.populate_physmap (n - 0xc0) (extents pa 0xc0 (n - 0xc0))]
           else []) ∧
      rest.filter Hcall.is_decrease =
        (if n > 0xa0 then
          [Hcall.decrease_reservation (if n < 0xc0 then n - 0xa0 else 0x20)
            (extents pa 0xa0 (if n < 0xc0 then n - 0xa0 else 0x20))]
         else []) := by
  have hmin : (if n > 0xa0 then 0xa0 else n) = min n 0xa0 := by
    split <;> omega
  unfold allocate_guest
  simp only [hmin, hpop, true_and]
  by_cases h1 : n > 0xc0
  · have h2 : n > 0xa0 := by omega
    have h3 : ¬ n < 0xc0 := by omega
    simp only [h1, h2, h3, if_true, if_false, ne_eq, not_true_eq_false]
    split_ifs
    all_goals simp [World.issue, List.filter, Hcall.is_populate, Hcall.is_decrease]
  · by_cases h2 : n > 0xa0
    · simp only [h1, h2, if_true, if_false, ne_eq, not_true_eq_false]
      split_ifs
      all_goals simp [World.issue, List.filter, Hcall.is_populate, Hcall.is_decrease]
    · simp only [h1, h2, if_false, ne_eq, not_true_eq_false]
      split_ifs
      all_goals simp [World.issue, List.filter, Hcall.is_populate, Hcall.is_decrease]


theorem allocate_guest_page_array (env : Env) (w : World) (n : Nat) (pa pa1 : List Nat)
    (h : (allocate_guest env w n pa).2 = some pa1) : pa1 = pa.map env.gpfn_to_mfn := by
  unfold allocate_guest at h
  simp only at h
  split_ifs at h
  all_goals simp only [Option.some.injEq] at h
  all_goals exact h.symm

/-- An accepted, page-aligned image and a successful `malloc` take `setup_guest`
through the allocation; what follows is `publish_guest` on the translated array. -/
theorem setup_guest_after_allocation (env : Env) (abi : Abi) (w : World) (memsize : Nat)
    (image : Mem) (image_size : Nat) (ctxt : vcpu_guest_context)
    (shared_info_frame vcpus pae acpi apic store_evtchn : Nat) (dsi : domain_setup_info)
    (hm : memsize < 2 ^ 31)
    (hp : parseelfimage image image_size domain_setup_info.zero = (0, dsi))
    (ha : dsi.v_kernstart &&& (PAGE_SIZE - 1) = 0) (hmalloc : env.malloc_ok = true) :
    ((allocate_guest env w (nr_pages_of memsize) (init_page_array (nr_pages_of memsize))).2 =
        none →
      setup_guest env abi w memsize image image_size ctxt
          shared_info_frame vcpus pae acpi apic store_evtchn =
        ⟨-1, (allocate_guest env w (nr_pages_of memsize)
          (init_page_array (nr_pages_of memsize))).1, none, ctxt⟩) ∧
    (∀ pa, (allocate_guest env w (nr_pages_of memsize)
          (init_page_array (nr_pages_of memsize))).2 = some pa →
      setup_guest env abi w memsize image image_size ctxt
          shared_info_frame vcpus pae acpi apic store_evtchn =
        publish_guest env abi (allocate_guest env w (nr_pages_of memsize)
            (init_page_array (nr_pages_of memsize))).1 pa image dsi (v_end_of memsize) ctxt
          shared_info_frame vcpus pae acpi apic store_evtchn) := by
  have hv := parseelfimage_v_start image image_size _ dsi hp
  have hcheck : ¬ ((v_end_of memsize + 2 ^ 64 - dsi.v_start) % 2 ^ 64 >
      (nr_pages_of memsize <<< PAGE_SHIFT) % 2 ^ 64) := by
    rw [hv, v_end_of_eq memsize hm, nr_pages_of_eq memsize hm]
    simp only [PAGE_SHIFT, Nat.shiftLeft_eq]
    omega
  unfold setup_guest
  simp only [hp, ha, hcheck, hmalloc]
  simp only [ne_eq, not_true_eq_false, if_false, Bool.not_true, Bool.false_eq_true]
  rcases hres : allocate_guest env w (nr_pages_of memsize)
    (init_page_array (nr_pages_of memsize)) with ⟨w1, o⟩
  cases o with
  | none => exact ⟨fun _ => rfl, fun pa h => by simp at h⟩
  | some pa1 =>
    refine ⟨fun h => by simp at h, fun pa h => ?_⟩
    simp only [Option.some.injEq] at h
    subst h
    rfl

/-- Operations `setup_guest` can issue: everything except the two `xc_domctl` calls. -/
theorem adds_setup_guest {P : Hcall → Bool}
    (hpop : ∀ n l, P (.populate_physmap n l) = true)
    (hdec : ∀ n l, P (.decrease_reservation n l) = true)
    (htr : ∀ n l, P (.translate_gpfn_list n l) = true)
    (hmap : ∀ m, P (.map_foreign_range m) = true)
    (hclear : ∀ m, P (.clear_domain_page m) = true)
    (hpar : ∀ p v, P (.set_param p v) = true)
    (env : Env) (abi : Abi) (w0 w : World) (memsize : Nat)
    (image : Mem) (image_size : Nat) (ctxt : vcpu_guest_context)
    (shared_info_frame vcpus pae acpi apic store_evtchn : Nat) (h : w0.adds P w) :
    w0.adds P (setup_guest env abi w memsize image image_size ctxt
        shared_info_frame vcpus pae acpi apic store_evtchn).world ∧
    ((setup_guest env abi w memsize image image_size ctxt
        shared_info_frame vcpus pae acpi apic store_evtchn).rc = 0 ∨
     (setup_guest env abi w memsize image image_size ctxt
        shared_info_frame vcpus pae acpi apic store_evtchn).rc = -1) := by
  unfold setup_guest
  rcases parseelfimage image image_size domain_setup_info.zero with ⟨rc, dsi⟩
  simp only
  split_ifs
  · exact ⟨h, Or.inr rfl⟩
  · exact ⟨h, Or.inr rfl⟩
  · exact ⟨h, Or.inr rfl⟩
  · exact ⟨h, Or.inr rfl⟩
  · have ha := adds_allocate_guest hpop hdec htr env w0 w (nr_pages_of memsize)
      (init_page_array (nr_pages_of memsize)) h
    generalize allocate_guest env w (nr_pages_of memsize)
      (init_page_array (nr_pages_of memsize)) = r at ha ⊢
    obtain ⟨w1, o⟩ := r
    cases o with
    | none => exact ⟨ha, Or.inr rfl⟩
    | some pa1 =>
      simp only
      obtain ⟨w6, h6, hshape⟩ := publish_guest_shape env abi w0 w1 pa1 image dsi
        (v_end_of memsize) ctxt shared_info_frame vcpus pae acpi apic store_evtchn P
        hmap hclear (hpar _ _) (hpar _ _) ha
      rcases hshape with ⟨e1, e2, -, -⟩ | ⟨e1, e2, -, -⟩
      · rw [e1, e2]; exact ⟨h6, Or.inr rfl⟩
      · rw [e1, e2]
        exact ⟨adds_set_param _ _ _ (hpar _ _) (adds_set_param _ _ _ (hpar _ _)
          (adds_set_param _ _ _ (hpar _ _) (adds_set_param _ _ _ (hpar _ _) h6))), Or.inl rfl⟩

/-! ## The context installed by the build -/

/-- The trap loop keeps the length of the table. -/
theorem set_traps_length (cs n : Nat) (l : List trap_info) :
    (set_traps cs n l).length = l.length := by
  induction n with
  | zero => rfl
  | succ k ih => simp [set_traps, ih]

/-- Entry `i` of the table after `n` rounds of the trap loop. -/
theorem set_traps_getElem? (cs n : Nat) (l : List trap_info) (i : Nat) :
    (set_traps cs n l)[i]? = if i < n ∧ i < l.length then some ⟨i, cs⟩ else l[i]? := by
  induction n with
  | zero => simp [set_traps]
  | succ k ih =>
    simp only [set_traps, List.getElem?_set, set_traps_length, ih]
    by_cases h1 : k = i
    · subst h1
      by_cases h2 : k < l.length
      · simp [h2]
      · simp [h2]; omega
    · simp only [h1, if_false]
      by_cases h2 : i < k ∧ i < l.length
      · have : i < k + 1 ∧ i < l.length := ⟨by omega, h2.2⟩
        simp [h2, this]
      · have : ¬ (i < k + 1 ∧ i < l.length) := by
          intro h; apply h2; exact ⟨by omega, h.2⟩
        simp [h2, this]

/-- A table of `n` entries is fully rewritten by `n` rounds of the trap loop. -/
theorem set_traps_replicate (cs n : Nat) (x : trap_info) :
    set_traps cs n (List.replicate n x) =
      (List.range n).map (fun i => (⟨i, cs⟩ : trap_info)) := by
  apply List.ext_getElem?
  intro i
  rw [set_traps_getElem?, List.length_replicate, List.getElem?_map]
  by_cases h : i < n
  · simp only [h, and_self, if_true, List.getElem?_range h, Option.map_some']
  · have h1 : ¬ (i < n ∧ i < n) := fun c => h c.1
    simp only [h1, if_false]
    rw [List.getElem?_eq_none (by simp only [List.length_replicate]; omega),
      List.getElem?_eq_none (by simp only [List.length_range]; omega)]
    rfl

/-- The context that `xc_hvm_build_internal` installs after a successful
`setup_guest` is `launch_ctxt`. -/
theorem finish_ctxt_launch (abi : Abi) :
    finish_ctxt abi { initial_ctxt abi with eip := HVM_LOADER_ENTR_ADDR } =
      launch_ctxt abi := by
  unfold finish_ctxt launch_ctxt initial_ctxt ctxt0
  simp only [set_traps_replicate, List.map_replicate]

/-- A successful `setup_guest` has accepted the image, found it page-aligned and got
its page array, and has changed the context only in `eip`, which becomes the loader
address. -/
theorem setup_guest_success_inv (env : Env) (abi : Abi) (w : World) (memsize : Nat)
    (image : Mem) (image_size : Nat) (ctxt : vcpu_guest_context)
    (shared_info_frame vcpus pae acpi apic store_evtchn : Nat)
    (h : (setup_guest env abi w memsize image image_size ctxt
        shared_info_frame vcpus pae acpi apic store_evtchn).rc = 0) :
    (∃ dsi, parseelfimage image image_size domain_setup_info.zero = (0, dsi) ∧
      dsi.v_kernstart &&& (PAGE_SIZE - 1) = 0 ∧ env.malloc_ok = true) ∧
    (setup_guest env abi w memsize image image_size ctxt
        shared_info_frame vcpus pae acpi apic store_evtchn).ctxt =
      { ctxt with eip := HVM_LOADER_ENTR_ADDR } := by
  unfold setup_guest at h ⊢
  rcases hp : parseelfimage image image_size domain_setup_info.zero with ⟨rc, dsi⟩
  rw [hp] at h
  simp only at h ⊢
  split_ifs at h ⊢ with h1 h2 h3 h4
  all_goals first
    | (simp at h)
    | skip
  have hrc : rc = 0 := by simpa using h1
  subst hrc
  have hk := (parseelfimage_accept image image_size _ dsi hp).2.1
  refine ⟨⟨dsi, rfl, by simpa using h2, by simpa using h4⟩, ?_⟩
  generalize allocate_guest env w (nr_pages_of memsize)
    (init_page_array (nr_pages_of memsize)) = r at h ⊢
  obtain ⟨w1, o⟩ := r
  cases o with
  | none => simp at h
  | some pa1 =>
    simp only at h ⊢
    obtain ⟨w6, -, hshape⟩ := publish_guest_shape env abi w1 w1 pa1 image dsi
      (v_end_of memsize) ctxt shared_info_frame vcpus pae acpi apic store_evtchn
      (fun _ => true) (fun _ => rfl) (fun _ => rfl) rfl rfl (adds_refl _ _)
    rcases hshape with ⟨e1, -, -, -⟩ | ⟨-, -, -, e4⟩
    · rw [e1] at h; simp at h
    · rw [e4, hk]


/-- Claim C13.  Whenever `xc_hvm_build_internal` returns 0, the last operation it has
issued installs, for vcpu 0 of the domain, the context `launch_ctxt`, a value that
depends on nothing but the constants of the ABI: its instruction pointer is
0x00100000, each of its 256 trap entries `i` has vector `i` and selector
`FLAT_KERNEL_CS`, `ldt_ents` and `gdt_ents` are 0, every debug register is 0 and the
three callback addresses are 0.  Moreover every image that `parseelfimage` accepts
gets `v_start = 0` and `v_kernentry = 0x00100000`. -/
theorem xc_hvm_build_internal_installs_fixed_ctxt (env : Env) (abi : Abi) (w : World)
    (domid memsize : Nat) (image : Option Mem)
    (image_size vcpus pae acpi apic store_evtchn : Nat)
    (h : (xc_hvm_build_internal env abi w domid memsize image image_size
        vcpus pae acpi apic store_evtchn).rc = 0) :
    (∃ pre, (xc_hvm_build_internal env abi w domid memsize image image_size
        vcpus pae acpi apic store_evtchn).world.trace =
      pre ++ [Hcall.setvcpucontext (domid % 2 ^ 16) 0 (launch_ctxt abi)]) ∧
    (launch_ctxt abi).eip = 0x00100000 ∧
    (∀ i, i < 256 → (launch_ctxt abi).trap_ctxt[i]? = some ⟨i, abi.FLAT_KERNEL_CS⟩) ∧
    (launch_ctxt abi).trap_ctxt.length = 256 ∧
    (launch_ctxt abi).ldt_ents = 0 ∧ (launch_ctxt abi).gdt_ents = 0 ∧
    (∀ d ∈ (launch_ctxt abi).debugreg, d = 0) ∧
    (launch_ctxt abi).event_callback_eip = 0 ∧
    (launch_ctxt abi).failsafe_callback_eip = 0 ∧
    (launch_ctxt abi).syscall_callback_eip = 0 ∧
    (∀ (img : Mem) (elfsize : Nat) (dsi0 dsi : domain_setup_info),
      parseelfimage img elfsize dsi0 = (0, dsi) →
      dsi.v_start = 0 ∧ dsi.v_kernentry = 0x00100000) := by
  refine ⟨?_, rfl, ?_, ?_, rfl, rfl, ?_, rfl, rfl, rfl, ?_⟩
  · unfold xc_hvm_build_internal at h ⊢
    cases image with
    | none => simp at h
    | some img =>
      simp only at h ⊢
      split_ifs at h ⊢ with h1 h2 h3 h4
      all_goals try simp at h
      have hrc := (adds_setup_guest (P := fun _ => true) (fun _ _ => rfl) (fun _ _ => rfl)
        (fun _ _ => rfl) (fun _ => rfl) (fun _ => rfl) (fun _ _ => rfl) env abi
        (w.issue (.getdomaininfo (domid % 2 ^ 16))) (w.issue (.getdomaininfo (domid % 2 ^ 16)))
        memsize img image_size (initial_ctxt abi)
        env.info_shared_info_frame vcpus pae acpi apic store_evtchn (adds_refl _ _)).2
      have hrc0 : (setup_guest env abi (w.issue (.getdomaininfo (domid % 2 ^ 16))) memsize img
          image_size (initial_ctxt abi)
          env.info_shared_info_frame vcpus pae acpi apic store_evtchn).rc = 0 := by
        rcases hrc with e | e
        · exact e
        · rw [e] at h4; exact absurd (by decide) h4
      have hc := (setup_guest_success_inv env abi _ memsize img image_size _ _
        vcpus pae acpi apic store_evtchn hrc0).2
      rw [hc, finish_ctxt_launch]
      exact ⟨_, rfl⟩
  · intro i hi
    simp only [launch_ctxt, List.getElem?_map, List.getElem?_range hi, Option.map_some']
  · simp only [launch_ctxt, List.length_map, List.length_range]
  · intro d hd
    exact List.eq_of_mem_replicate hd
  · intro img elfsize dsi0 dsi hp
    have := parseelfimage_accept img elfsize dsi0 dsi hp
    exact ⟨this.1, this.2.1⟩

/-- A successful build: every operation succeeds, 2 MiB of memory and the sample
image; here the hypothesis of the theorem above holds. -/
theorem xc_hvm_build_internal_installs_fixed_ctxt_witness :
    (xc_hvm_build_internal env_ok abi_x86_64 world0 1 2 (some sample_image) 172
        1 1 1 1 3).rc = 0 ∧
    ∃ pre, (xc_hvm_build_internal env_ok abi_x86_64 world0 1 2 (some sample_image) 172
        1 1 1 1 3).world.trace =
      pre ++ [Hcall.setvcpucontext (1 % 2 ^ 16) 0 (launch_ctxt abi_x86_64)] :=
  ⟨by decide, (xc_hvm_build_internal_installs_fixed_ctxt env_ok abi_x86_64 world0 1 2
    (some sample_image) 172 1 1 1 1 3 (by decide)).1⟩

/-- Claim C15, the failing run.  When the context cannot be locked in memory
(`lock_pages` fails at the start of `xc_hvm_build_internal`), the function returns 1,
and so do `xc_hvm_build` and `xc_hvm_build_mem`, which pass its status on. -/
theorem xc_hvm_build_internal_returns_one :
    (xc_hvm_build_internal env_lock_ctxt_fails abi_x86_64 world0 1 64 (some sample_image) 172
      1 1 1 1 3).rc = 1 ∧
    (xc_hvm_build env_lock_ctxt_fails abi_x86_64 world0 1 64 (some (sample_image, 172))
      1 1 1 1 3).rc = 1 ∧
    (xc_hvm_build_mem env_lock_ctxt_fails abi_x86_64 world0 1 64 (some sample_image) 172
      (some (sample_image, 172)) 1 1 1 1 3).rc = 1 := by
  refine ⟨by decide, by decide, by decide⟩


/-- In every run of `xc_hvm_build_internal` the operations issued contain at most one
`setvcpucontext`.  If an image was given and is not empty, the context was locked,
the domain-info call succeeded with the expected domain and `setup_guest` returned
0, then the run ends with a `setvcpucontext` for vcpu 0 and none precedes it; in
every other run no `setvcpucontext` is issued at all. -/
theorem setvcpucontext_last_and_guarded (env : Env) (abi : Abi) (w : World)
    (domid memsize : Nat) (image : Option Mem)
    (image_size vcpus pae acpi apic store_evtchn : Nat) :
    ∃ rest, (xc_hvm_build_internal env abi w domid memsize image image_size
        vcpus pae acpi apic store_evtchn).world.trace = w.trace ++ rest ∧
      (rest.filter Hcall.is_setvcpucontext).length ≤ 1 ∧
      ((build_reaches_launch env abi w domid memsize image image_size
          vcpus pae acpi apic store_evtchn ∧
        ∃ pre ctxt, rest = pre ++ [Hcall.setvcpucontext (domid % 2 ^ 16) 0 ctxt] ∧
          ∀ c ∈ pre, c.is_setvcpucontext = false) ∨
       (¬ build_reaches_launch env abi w domid memsize image image_size
          vcpus pae acpi apic store_evtchn ∧
        ∀ c ∈ rest, c.is_setvcpucontext = false)) := by
  have key : ∀ rest : List Hcall,
      ((build_reaches_launch env abi w domid memsize image image_size
          vcpus pae acpi apic store_evtchn ∧
        ∃ pre ctxt, rest = pre ++ [Hcall.setvcpucontext (domid % 2 ^ 16) 0 ctxt] ∧
          ∀ c ∈ pre, c.is_setvcpucontext = false) ∨
       (¬ build_reaches_launch env abi w domid memsize image image_size
          vcpus pae acpi apic store_evtchn ∧
        ∀ c ∈ rest, c.is_setvcpucontext = false)) →
      (rest.filter Hcall.is_setvcpucontext).length ≤ 1 := by
    intro rest hr
    rcases hr with ⟨-, pre, ctxt, e, hpre⟩ | ⟨-, hall⟩
    · have : pre.filter Hcall.is_setvcpucontext = [] :=
        List.filter_eq_nil_iff.2 (fun c hc => by simp [hpre c hc])
      rw [e, List.filter_append, this]
      simp [List.filter, Hcall.is_setvcpucontext]
    · have : rest.filter Hcall.is_setvcpucontext = [] :=
        List.filter_eq_nil_iff.2 (fun c hc => by simp [hall c hc])
      rw [this]
      simp
  suffices H : ∃ rest, (xc_hvm_build_internal env abi w domid memsize image image_size
        vcpus pae acpi apic store_evtchn).world.trace = w.trace ++ rest ∧
      ((build_reaches_launch env abi w domid memsize image image_size
          vcpus pae acpi apic store_evtchn ∧
        ∃ pre ctxt, rest = pre ++ [Hcall.setvcpucontext (domid % 2 ^ 16) 0 ctxt] ∧
          ∀ c ∈ pre, c.is_setvcpucontext = false) ∨
       (¬ build_reaches_launch env abi w domid memsize image image_size
          vcpus pae acpi apic store_evtchn ∧
        ∀ c ∈ rest, c.is_setvcpucontext = false)) by
    obtain ⟨rest, h1, h2⟩ := H
    exact ⟨rest, h1, key rest h2, h2⟩
  unfold xc_hvm_build_internal
  cases image with
  | none =>
    refine ⟨[], by simp, Or.inr ⟨?_, by simp⟩⟩
    rintro ⟨img, h, -⟩
    simp at h
  | some img =>
    simp only
    have hs := adds_setup_guest (P := fun c => !c.is_setvcpucontext) (fun _ _ => rfl)
      (fun _ _ => rfl) (fun _ _ => rfl) (fun _ => rfl) (fun _ => rfl) (fun _ _ => rfl) env abi
      w (w.issue (.getdomaininfo (domid % 2 ^ 16)))
      memsize img image_size (initial_ctxt abi)
      env.info_shared_info_frame vcpus pae acpi apic store_evtchn
      (adds_issue _ rfl (adds_refl _ _))
    obtain ⟨⟨srest, hs1, hs2⟩, hrc⟩ := hs
    have hs2' : ∀ c ∈ srest, c.is_setvcpucontext = false := by
      intro c hc
      simpa using hs2 c hc
    split_ifs with h1 h2 h3 h4
    · refine ⟨[], by simp, Or.inr ⟨?_, by simp⟩⟩
      rintro ⟨img', -, h, -⟩
      exact h h1
    · refine ⟨[], by simp, Or.inr ⟨?_, by simp⟩⟩
      rintro ⟨img', -, -, h, -⟩
      simp [h] at h2
    · refine ⟨[.getdomaininfo (domid % 2 ^ 16)], by simp [World.issue], Or.inr ⟨?_, ?_⟩⟩
      · rintro ⟨img', -, -, -, ha, hb, -⟩
        rcases h3 with h3 | h3
        · exact ha h3
        · exact h3 hb
      · intro c hc
        rw [List.mem_singleton.1 hc]
        rfl
    · refine ⟨srest, hs1, Or.inr ⟨?_, hs2'⟩⟩
      rintro ⟨img', himg, -, -, -, -, hz⟩
      simp only [Option.some.injEq] at himg
      subst himg
      rw [hz] at h4
      exact absurd h4 (by decide)
    · refine ⟨srest ++ [.setvcpucontext (domid % 2 ^ 16) 0 (finish_ctxt abi
          (setup_guest env abi (w.issue (.getdomaininfo (domid % 2 ^ 16))) memsize img
            image_size (initial_ctxt abi) env.info_shared_info_frame vcpus pae acpi apic
            store_evtchn).ctxt)], ?_, Or.inl ⟨?_, _, _, rfl, hs2'⟩⟩
      · dsimp only
        rw [show ∀ (x : World) (c : Hcall), (x.issue c).trace = x.trace ++ [c] from
          fun _ _ => rfl, hs1, List.append_assoc]
      · refine ⟨img, rfl, h1, by simpa using h2, fun c => h3 (Or.inl c), ?_, ?_⟩
        · by_contra c
          exact h3 (Or.inr c)
        · rcases hrc with e | e
          · exact e
          · rw [e] at h4; exact absurd (by decide) h4

set_option maxRecDepth 100000 in
/-- Claim C16, the failing run.  A 2 MiB guest, the sample image, and a hypervisor
whose first mapping fails.  `loadelfimage`, run on the state left by the allocation,
returns -1, the failure that is fatal to the build; yet `xc_hvm_build_internal`
returns 0, and the last operation of the run is a `setvcpucontext` for vcpu 0 of the
domain. -/
theorem xc_hvm_build_internal_launches_after_load_failure :
    (loadelfimage env_first_map_fails sample_image
      (allocate_guest env_first_map_fails (world0.issue (.getdomaininfo 1)) (nr_pages_of 2)
        (init_page_array (nr_pages_of 2))).1
      (fun i => ((allocate_guest env_first_map_fails (world0.issue (.getdomaininfo 1))
        (nr_pages_of 2) (init_page_array (nr_pages_of 2))).2.getD []).getD i 0)
      (parseelfimage sample_image 172 domain_setup_info.zero).2).1 = -1 ∧
    (xc_hvm_build_internal env_first_map_fails abi_x86_64 world0 1 2 (some sample_image) 172
      1 1 1 1 3).rc = 0 ∧
    (xc_hvm_build_internal env_first_map_fails abi_x86_64 world0 1 2 (some sample_image) 172
      1 1 1 1 3).world.trace.getLast? =
        some (.setvcpucontext 1 0 (launch_ctxt abi_x86_64)) ∧
    ((xc_hvm_build_internal env_first_map_fails abi_x86_64 world0 1 2 (some sample_image) 172
      1 1 1 1 3).world.trace.filter Hcall.is_setvcpucontext).length = 1 := by
  refine ⟨by decide, by decide, by decide, by decide⟩

/-! ## Frames requested and released by the allocation -/

/-- The frames named by a slice of the initial page array. -/
theorem extents_init_page_array (n s k : Nat) (hn : n < 2 ^ 63) (h : s + k ≤ n) :
    extents (init_page_array n) s k =
      (List.range' s k).map (fun i => if i < 0xF0000 then i else i + 0x10000) := by
  apply List.ext_getElem?
  intro j
  unfold extents
  rw [List.getElem?_take, List.getElem?_drop, List.getElem?_map]
  by_cases hj : j < k
  · rw [List.getElem?_range' s 1 hj, init_page_array_getElem? n (s + j) hn (by omega)]
    simp only [hj, if_true, Option.map_some', Nat.one_mul]
  · simp only [hj, if_false]
    rw [List.getElem?_eq_none (by simp only [List.length_range']; omega)]
    rfl

theorem count_issue (w : World) (c : Hcall) (kind : Hcall → Bool) :
    (w.issue c).count kind = w.count kind + (if kind c = true then 1 else 0) := by
  unfold World.count World.issue
  simp only [List.filter_append, List.length_append]
  by_cases h : kind c = true
  · simp [List.filter, h]
  · simp [List.filter, h]

set_option linter.unusedTactic false in
/-- The operations of the allocation step when the populate calls succeed: the low
batch, the batch above the hole if there are frames beyond it, the release of the
hole if the guest reaches it, and then at most the translation. -/
theorem allocate_guest_trace (env : Env) (w : World) (n : Nat) (pa : List Nat)
    (h1 : env.populate_physmap (w.count Hcall.is_populate) = 0)
    (h2 : n > 0xc0 → env.populate_physmap (w.count Hcall.is_populate + 1) = 0) :
    ∃ tail, (allocate_guest env w n pa).1.trace = w.trace ++
        (Hcall.populate_physmap (min n 0xa0) (extents pa 0 (min n 0xa0)) ::
          ((if n > 0xc0 then
              [Hcall.populate_physmap (n - 0xc0) (extents pa 0xc0 (n - 0xc0))]
            else []) ++
           ((if n > 0xa0 then
              [Hcall.decrease_reservation (if n < 0xc0 then n - 0xa0 else 0x20)
                (extents pa 0xa0 (if n < 0xc0 then n - 0xa0 else 0x20))]
             else []) ++ tail))) ∧
      ∀ c ∈ tail, c.is_translate = true := by
  have hmin : (if n > 0xa0 then 0xa0 else n) = min n 0xa0 := by
    split <;> omega
  unfold allocate_guest
  simp only [hmin, h1, true_and, count_issue, Hcall.is_populate, if_true]
  by_cases c1 : n > 0xc0
  · have c2 : n > 0xa0 := by omega
    have c3 : ¬ n < 0xc0 := by omega
    simp only [c1, c2, c3, h2 c1, if_true, if_false, ne_eq, not_true_eq_false]
    split_ifs
    all_goals first
      | (refine ⟨[], ?_, ?_⟩ <;> simp [World.issue]; done)
      | (refine ⟨[.translate_gpfn_list n pa], ?_, ?_⟩ <;>
          simp [World.issue, Hcall.is_translate]; done)
  · by_cases c2 : n > 0xa0
    · simp only [c1, c2, if_true, if_false, ne_eq, not_true_eq_false]
      split_ifs
      all_goals first
        | (refine ⟨[], ?_, ?_⟩ <;> simp [World.issue]; done)
        | (refine ⟨[.translate_gpfn_list n pa], ?_, ?_⟩ <;>
            simp [World.issue, Hcall.is_translate]; done)
    · simp only [c1, c2, if_false, ne_eq, not_true_eq_false]
      split_ifs
      all_goals first
        | (refine ⟨[], ?_, ?_⟩ <;> simp [World.issue]; done)
        | (refine ⟨[.translate_gpfn_list n pa], ?_, ?_⟩ <;>
            simp [World.issue, Hcall.is_translate]; done)

/-- Operations of the steps after the translation: whatever `P` lets through among
mappings, page clears and parameters. -/
theorem adds_publish_guest {P : Hcall → Bool}
    (hmap : ∀ m, P (.map_foreign_range m) = true)
    (hclear : ∀ m, P (.clear_domain_page m) = true)
    (hpar : ∀ p v, P (.set_param p v) = true)
    (env : Env) (abi : Abi) (w0 w : World) (page_array : List Nat)
    (image : Mem) (dsi : domain_setup_info) (v_end : Nat) (ctxt : vcpu_guest_context)
    (shared_info_frame vcpus pae acpi apic store_evtchn : Nat) (h : w0.adds P w) :
    w0.adds P (publish_guest env abi w page_array image dsi v_end ctxt
        shared_info_frame vcpus pae acpi apic store_evtchn).world := by
  obtain ⟨w6, h6, hshape⟩ := publish_guest_shape env abi w0 w page_array image dsi
    v_end ctxt shared_info_frame vcpus pae acpi apic store_evtchn P
    hmap hclear (hpar _ _) (hpar _ _) h
  rcases hshape with ⟨-, e2, -, -⟩ | ⟨-, e2, -, -⟩
  · rw [e2]; exact h6
  · rw [e2]
    exact adds_set_param _ _ _ (hpar _ _) (adds_set_param _ _ _ (hpar _ _)
      (adds_set_param _ _ _ (hpar _ _) (adds_set_param _ _ _ (hpar _ _) h6)))

/-- The operations of `setup_guest` once the image is accepted and the populate calls
succeed: the low batch, the batch above the hole, the release of the hole, and after
these neither a populate nor a decrease call. -/
theorem setup_guest_allocation_trace (env : Env) (abi : Abi) (w : World) (memsize : Nat)
    (image : Mem) (image_size : Nat) (ctxt : vcpu_guest_context)
    (shared_info_frame vcpus pae acpi apic store_evtchn : Nat) (dsi : domain_setup_info)
    (hm : memsize < 2 ^ 31)
    (hp : parseelfimage image image_size domain_setup_info.zero = (0, dsi))
    (ha : dsi.v_kernstart &&& (PAGE_SIZE - 1) = 0) (hmalloc : env.malloc_ok = true)
    (h1 : env.populate_physmap (w.count Hcall.is_populate) = 0)
    (h2 : nr_pages_of memsize > 0xc0 →
      env.populate_physmap (w.count Hcall.is_populate + 1) = 0) :
    ∃ tail, (setup_guest env abi w memsize image image_size ctxt
        shared_info_frame vcpus pae acpi apic store_evtchn).world.trace = w.trace ++
        (Hcall.populate_physmap (min (nr_pages_of memsize) 0xa0)
            (extents (init_page_array (nr_pages_of memsize)) 0
              (min (nr_pages_of memsize) 0xa0)) ::
          ((if nr_pages_of memsize > 0xc0 then
              [Hcall.populate_physmap (nr_pages_of memsize - 0xc0)
                (extents (init_page_array (nr_pages_of memsize)) 0xc0
                  (nr_pages_of memsize - 0xc0))]
            else []) ++
           ((if nr_pages_of memsize > 0xa0 then
              [Hcall.decrease_reservation
                (if nr_pages_of memsize < 0xc0 then nr_pages_of memsize - 0xa0 else 0x20)
                (extents (init_page_array (nr_pages_of memsize)) 0xa0
                  (if nr_pages_of memsize < 0xc0 then nr_pages_of memsize - 0xa0
                   else 0x20))]
             else []) ++ tail))) ∧
      ∀ c ∈ tail, c.is_populate = false ∧ c.is_decrease = false := by
  obtain ⟨t, ht, htr⟩ := allocate_guest_trace env w (nr_pages_of memsize)
    (init_page_array (nr_pages_of memsize)) h1 h2
  have htr2 : ∀ c ∈ t, c.is_populate = false ∧ c.is_decrease = false := by
    intro c hc
    have := htr c hc
    cases c <;> simp_all [Hcall.is_translate, Hcall.is_populate, Hcall.is_decrease]
  obtain ⟨hnone, hsome⟩ := setup_guest_after_allocation env abi w memsize image image_size
    ctxt shared_info_frame vcpus pae acpi apic store_evtchn dsi hm hp ha hmalloc
  rcases ho : (allocate_guest env w (nr_pages_of memsize)
      (init_page_array (nr_pages_of memsize))).2 with _ | pa
  · rw [hnone ho]
    exact ⟨t, ht, htr2⟩
  · rw [hsome pa ho]
    obtain ⟨rest, hr, hP⟩ := adds_publish_guest
      (P := fun c => !c.is_populate && !c.is_decrease)
      (fun _ => rfl) (fun _ => rfl) (fun _ _ => rfl) env abi
      (allocate_guest env w (nr_pages_of memsize) (init_page_array (nr_pages_of memsize))).1
      (allocate_guest env w (nr_pages_of memsize) (init_page_array (nr_pages_of memsize))).1
      pa image dsi (v_end_of memsize) ctxt shared_info_frame vcpus pae acpi apic store_evtchn
      (adds_refl _ _)
    refine ⟨t ++ rest, ?_, ?_⟩
    · rw [hr, ht]
      simp only [List.append_assoc, List.cons_append]
    · intro c hc
      rcases List.mem_append.1 hc with hc | hc
      · exact htr2 c hc
      · have := hP c hc
        simpa using this

/-- A frame named by the low batch lies below the VGA hole. -/
theorem low_batch_frames (n f : Nat) (hn : n < 2 ^ 63)
    (hf : f ∈ extents (init_page_array n) 0 (min n 0xa0)) : f < 0xA0 := by
  rw [extents_init_page_array n 0 _ hn (by omega)] at hf
  obtain ⟨i, hi, e⟩ := List.mem_map.1 hf
  have := List.mem_range'_1.1 hi
  have hi2 : i < 0xF0000 := by omega
  simp only [hi2, if_true] at e
  omega

/-- A frame named by the batch above the hole lies above the hole and outside the
MMIO window. -/
theorem high_batch_frames (n f : Nat) (hn : n < 2 ^ 63) (hc : n > 0xc0)
    (hf : f ∈ extents (init_page_array n) 0xc0 (n - 0xc0)) :
    0xC0 ≤ f ∧ ¬ (0xF0000 ≤ f ∧ f < 0x100000) := by
  rw [extents_init_page_array n 0xc0 _ hn (by omega)] at hf
  obtain ⟨i, hi, e⟩ := List.mem_map.1 hf
  have := List.mem_range'_1.1 hi
  by_cases hi2 : i < 0xF0000
  · simp only [hi2, if_true] at e
    omega
  · simp only [hi2, if_false] at e
    omega

/-- The frames named by the release of the hole, for a guest that reaches past it. -/
theorem hole_frames (n : Nat) (hn : n < 2 ^ 63) (hc : 0xc0 ≤ n) :
    extents (init_page_array n) 0xa0 0x20 = List.range' 0xa0 0x20 := by
  rw [extents_init_page_array n 0xa0 _ hn (by omega)]
  decide

/-- Claim C18.  Let `setup_guest` be run on an accepted, page-aligned image with a
size below 2^31 MiB, and let the populate calls it issues succeed.  Then the populate
calls of the run are, in this order, one for the page-array entries at indices
`[0, min(nr_pages, 0xA0))` and, only if `nr_pages > 0xC0`, one for the entries at
indices `[0xC0, nr_pages)`; and no frame named by a populate call of the run lies in
the VGA hole `[0xA0, 0xC0)` or in the MMIO window `[0xF0000, 0x100000)`. -/
theorem setup_guest_populates_around_holes (env : Env) (abi : Abi) (w : World)
    (memsize : Nat) (image : Mem) (image_size : Nat) (ctxt : vcpu_guest_context)
    (shared_info_frame vcpus pae acpi apic store_evtchn : Nat) (dsi : domain_setup_info)
    (hm : memsize < 2 ^ 31)
    (hp : parseelfimage image image_size domain_setup_info.zero = (0, dsi))
    (ha : dsi.v_kernstart &&& (PAGE_SIZE - 1) = 0) (hmalloc : env.malloc_ok = true)
    (h1 : env.populate_physmap (w.count Hcall.is_populate) = 0)
    (h2 : nr_pages_of memsize > 0xc0 →
      env.populate_physmap (w.count Hcall.is_populate + 1) = 0) :
    ∃ rest, (setup_guest env abi w memsize image image_size ctxt
        shared_info_frame vcpus pae acpi apic store_evtchn).world.trace = w.trace ++ rest ∧
      rest.filter Hcall.is_populate =
        Hcall.populate_physmap (min (nr_pages_of memsize) 0xa0)
            (extents (init_page_array (nr_pages_of memsize)) 0
              (min (nr_pages_of memsize) 0xa0)) ::
          (if nr_pages_of memsize > 0xc0 then
            [Hcall.populate_physmap (nr_pages_of memsize - 0xc0)
              (extents (init_page_array (nr_pages_of memsize)) 0xc0
                (nr_pages_of memsize - 0xc0))]
           else []) ∧
      ∀ k l, Hcall.populate_physmap k l ∈ rest → ∀ f ∈ l,
        ¬ (0xA0 ≤ f ∧ f < 0xC0) ∧ ¬ (0xF0000 ≤ f ∧ f < 0x100000) := by
  obtain ⟨tail, ht, htail⟩ := setup_guest_allocation_trace env abi w memsize image
    image_size ctxt shared_info_frame vcpus pae acpi apic store_evtchn dsi hm hp ha hmalloc
    h1 h2
  have hn : nr_pages_of memsize < 2 ^ 63 := by
    rw [nr_pages_of_eq memsize hm]; omega
  have hft : tail.filter Hcall.is_populate = [] :=
    List.filter_eq_nil_iff.2 (fun c hc => by simp [(htail c hc).1])
  refine ⟨_, ht, ?_, ?_⟩
  · by_cases c1 : nr_pages_of memsize > 0xc0
    · by_cases c2 : nr_pages_of memsize > 0xa0
      · simp [c1, c2, List.filter_cons, List.filter_append, Hcall.is_populate, hft]
      · omega
    · by_cases c2 : nr_pages_of memsize > 0xa0
      · simp [c1, c2, List.filter_cons, List.filter_append, Hcall.is_populate, hft]
      · simp [c1, c2, List.filter_cons, List.filter_append, Hcall.is_populate, hft]
  · intro k l hmem f hf
    have hcases : l = extents (init_page_array (nr_pages_of memsize)) 0
          (min (nr_pages_of memsize) 0xa0) ∨
        (nr_pages_of memsize > 0xc0 ∧
          l = extents (init_page_array (nr_pages_of memsize)) 0xc0
            (nr_pages_of memsize - 0xc0)) := by
      rcases List.mem_cons.1 hmem with e | hmem
      · left
        injection e with _ e2
      · rcases List.mem_append.1 hmem with hmem | hmem
        · right
          by_cases c1 : nr_pages_of memsize > 0xc0
          · simp only [c1, if_true, List.mem_singleton] at hmem
            injection hmem with _ e2
            exact ⟨c1, e2⟩
          · simp [c1] at hmem
        · rcases List.mem_append.1 hmem with hmem | hmem
          · by_cases c2 : nr_pages_of memsize > 0xa0
            · simp [c2] at hmem
            · simp [c2] at hmem
          · have := (htail _ hmem).1
            simp [Hcall.is_populate] at this
    rcases hcases with e | ⟨c1, e⟩
    · rw [e] at hf
      have := low_batch_frames _ f hn hf
      omega
    · rw [e] at hf
      have := high_batch_frames _ f hn c1 hf
      omega

set_option maxRecDepth 100000 in
/-- Witness for C18: a 2 MiB guest built from the sample image when every operation
succeeds. -/
theorem setup_guest_populates_around_holes_witness :
    parseelfimage sample_image 172 domain_setup_info.zero =
      (0, ⟨0, 0x101000, 0x100000, 0x101000, 0x100000⟩) ∧
    ∃ rest, (setup_guest env_ok abi_x86_64 world0 2 sample_image 172 ctxt0
        7 1 1 1 1 3).world.trace = world0.trace ++ rest ∧
      rest.filter Hcall.is_populate =
        Hcall.populate_physmap (min (nr_pages_of 2) 0xa0)
            (extents (init_page_array (nr_pages_of 2)) 0 (min (nr_pages_of 2) 0xa0)) ::
          (if nr_pages_of 2 > 0xc0 then
            [Hcall.populate_physmap (nr_pages_of 2 - 0xc0)
              (extents (init_page_array (nr_pages_of 2)) 0xc0 (nr_pages_of 2 - 0xc0))]
           else []) ∧
      ∀ k l, Hcall.populate_physmap k l ∈ rest → ∀ f ∈ l,
        ¬ (0xA0 ≤ f ∧ f < 0xC0) ∧ ¬ (0xF0000 ≤ f ∧ f < 0x100000) :=
  ⟨by decide,
   setup_guest_populates_around_holes env_ok abi_x86_64 world0 2 sample_image 172 ctxt0
     7 1 1 1 1 3 ⟨0, 0x101000, 0x100000, 0x101000, 0x100000⟩
     (by decide) (by decide) (by decide) rfl rfl (fun _ => rfl)⟩

/-- Claim C19, as the code has it.  Let `setup_guest` be run on an accepted,
page-aligned image with a size below 2^31 MiB, and let the populate calls succeed.
The operations of the run are then the low populate call, the populate call above the
hole if `nr_pages > 0xC0`, one decrease-reservation call if `nr_pages > 0xA0`, and
after these no further populate or decrease call.  For sizes in whole MiB
`nr_pages > 0xA0` says the same as: the low batch has more than `0x20` frames.  The
decrease call names the `0x20` page-array entries from index `0xA0`, which are the
frames `0xA0 .. 0xBF`; each of them lies in the hole and is named by neither
populate call. -/
theorem setup_guest_releases_unpopulated_hole (env : Env) (abi : Abi) (w : World)
    (memsize : Nat) (image : Mem) (image_size : Nat) (ctxt : vcpu_guest_context)
    (shared_info_frame vcpus pae acpi apic store_evtchn : Nat) (dsi : domain_setup_info)
    (hm : memsize < 2 ^ 31)
    (hp : parseelfimage image image_size domain_setup_info.zero = (0, dsi))
    (ha : dsi.v_kernstart &&& (PAGE_SIZE - 1) = 0) (hmalloc : env.malloc_ok = true)
    (h1 : env.populate_physmap (w.count Hcall.is_populate) = 0)
    (h2 : nr_pages_of memsize > 0xc0 →
      env.populate_physmap (w.count Hcall.is_populate + 1) = 0) :
    (∃ tail, (setup_guest env abi w memsize image image_size ctxt
        shared_info_frame vcpus pae acpi apic store_evtchn).world.trace = w.trace ++
        (Hcall.populate_physmap (min (nr_pages_of memsize) 0xa0)
            (extents (init_page_array (nr_pages_of memsize)) 0
              (min (nr_pages_of memsize) 0xa0)) ::
          ((if nr_pages_of memsize > 0xc0 then
              [Hcall.populate_physmap (nr_pages_of memsize - 0xc0)
                (extents (init_page_array (nr_pages_of memsize)) 0xc0
                  (nr_pages_of memsize - 0xc0))]
            else []) ++
           ((if nr_pages_of memsize > 0xa0 then
              [Hcall.decrease_reservation 0x20 (List.range' 0xa0 0x20)]
             else []) ++ tail))) ∧
      ∀ c ∈ tail, c.is_populate = false ∧ c.is_decrease = false) ∧
    (nr_pages_of memsize > 0xa0 ↔ min (nr_pages_of memsize) 0xa0 > 0x20) ∧
    ∀ f ∈ List.range' 0xa0 0x20, (0xA0 ≤ f ∧ f < 0xC0) ∧
      f ∉ extents (init_page_array (nr_pages_of memsize)) 0
        (min (nr_pages_of memsize) 0xa0) ∧
      f ∉ extents (init_page_array (nr_pages_of memsize)) 0xc0
        (nr_pages_of memsize - 0xc0) := by
  obtain ⟨tail, ht, htail⟩ := setup_guest_allocation_trace env abi w memsize image
    image_size ctxt shared_info_frame vcpus pae acpi apic store_evtchn dsi hm hp ha hmalloc
    h1 h2
  have hnr := nr_pages_of_eq memsize hm
  have hn : nr_pages_of memsize < 2 ^ 63 := by
    rw [hnr]; omega
  refine ⟨⟨tail, ?_, htail⟩, ?_, ?_⟩
  · rw [ht]
    by_cases c2 : nr_pages_of memsize > 0xa0
    · have c3 : ¬ nr_pages_of memsize < 0xc0 := by omega
      simp only [c2, c3, if_true, if_false]
      rw [hole_frames _ hn (by omega)]
    · simp only [c2, if_false]
  · omega
  · intro f hf
    have hr := List.mem_range'_1.1 hf
    refine ⟨by omega, ?_, ?_⟩
    · intro hmem
      have := low_batch_frames _ f hn hmem
      omega
    · intro hmem
      by_cases c1 : nr_pages_of memsize > 0xc0
      · have := high_batch_frames _ f hn c1 hmem
        omega
      · have h0 : nr_pages_of memsize - 0xc0 = 0 := by omega
        rw [h0] at hmem
        simp [extents] at hmem

set_option maxRecDepth 100000 in
/-- Witness for C19: a 2 MiB guest built from the sample image when every operation
succeeds. -/
theorem setup_guest_releases_unpopulated_hole_witness :
    parseelfimage sample_image 172 domain_setup_info.zero =
      (0, ⟨0, 0x101000, 0x100000, 0x101000, 0x100000⟩) ∧
    (nr_pages_of 2 > 0xa0 ↔ min (nr_pages_of 2) 0xa0 > 0x20) ∧
    ∀ f ∈ List.range' 0xa0 0x20, (0xA0 ≤ f ∧ f < 0xC0) ∧
      f ∉ extents (init_page_array (nr_pages_of 2)) 0 (min (nr_pages_of 2) 0xa0) ∧
      f ∉ extents (init_page_array (nr_pages_of 2)) 0xc0 (nr_pages_of 2 - 0xc0) :=
  ⟨by decide,
   (setup_guest_releases_unpopulated_hole env_ok abi_x86_64 world0 2 sample_image 172 ctxt0
     7 1 1 1 1 3 ⟨0, 0x101000, 0x100000, 0x101000, 0x100000⟩
     (by decide) (by decide) (by decide) rfl rfl (fun _ => rfl)).2⟩

set_option maxRecDepth 100000 in
/-- Counterexample for C19: a 1 MiB guest built from the sample image when every
operation succeeds.  The build returns 0; its populate calls name the frames
`0 .. 0x9F` and `0xC0 .. 0xFF`; its one decrease-reservation call names the frames
`0xA0 .. 0xBF`.  Frame `0xA0` is released, yet no populate call had named it. -/
theorem setup_guest_releases_frame_never_populated :
    (setup_guest env_ok abi_x86_64 world0 1 sample_image 172 ctxt0 7 1 1 1 1 3).rc = 0 ∧
    (setup_guest env_ok abi_x86_64 world0 1 sample_image 172 ctxt0
      7 1 1 1 1 3).world.trace.filter (fun c => c.is_populate || c.is_decrease) =
      [.populate_physmap 0xa0 (List.range' 0 0xa0),
       .populate_physmap 0x40 (List.range' 0xc0 0x40),
       .decrease_reservation 0x20 (List.range' 0xa0 0x20)] ∧
    0xA0 ∈ List.range' 0xa0 0x20 ∧
    0xA0 ∉ List.range' 0 0xa0 ∧ 0xA0 ∉ List.range' 0xc0 0x40 := by
  refine ⟨by decide, by decide, by decide, by decide, by decide⟩

/-! ## Values published through the parameters -/

theorem published_append (p : hvm_param) (a b : List Hcall) :
    published p (a ++ b) = published p a ++ published p b := by
  induction a with
  | nil => rfl
  | cons c t ih =>
    cases c
    all_goals first
      | exact ih
      | (show (if _ = p then _ else _) = (if _ = p then _ else _) ++ _
         split
         · exact congrArg (List.cons _) ih
         · exact ih)

theorem published_nil_of_all (p : hvm_param) (l : List Hcall)
    (h : ∀ c ∈ l, published p [c] = []) : published p l = [] := by
  induction l with
  | nil => rfl
  | cons c t ih =>
    have e : c :: t = [c] ++ t := rfl
    rw [e, published_append, h c (List.mem_cons_self _ _),
      ih (fun d hd => h d (List.mem_cons_of_mem _ hd))]
    rfl

theorem xc_set_hvm_param_trace (env : Env) (w : World) (p : hvm_param) (v : Nat) :
    (xc_set_hvm_param env w p v).trace =
      w.trace ++ (if env.lock_pages p = true then [Hcall.set_param p v] else []) := by
  unfold xc_set_hvm_param
  by_cases h : env.lock_pages p = true
  · simp [h, World.issue]
  · simp [h]

/-- The three reserved page indices for a size of at least 1 MiB. -/
theorem shared_page_nr_of_eq (memsize : Nat) (h1 : 1 ≤ memsize) (hm : memsize < 2 ^ 31) :
    shared_page_nr_of (v_end_of memsize) = min (memsize * 256) 0xF0000 - 1 ∧
    ulong_sub (shared_page_nr_of (v_end_of memsize)) 1 = min (memsize * 256) 0xF0000 - 2 ∧
    ulong_sub (shared_page_nr_of (v_end_of memsize)) 2 = min (memsize * 256) 0xF0000 - 3 := by
  rw [v_end_of_eq memsize hm]
  unfold shared_page_nr_of ulong_sub
  simp only [HVM_BELOW_4G_RAM_END, PAGE_SHIFT, ULONG_BITS, Nat.shiftRight_eq_div_pow]
  split <;> omega

/-- Claim C14, as the code has it.  For every successful `setup_guest` with a size of
at least 1 MiB (and below 2^31 MiB), whatever translation the hypervisor returns: the
values published for `STORE_PFN`, `BUFIOREQ_PFN` and `IOREQ_PFN` (one each, when the
call is issued) are the page indices `shared_page_nr - 1`, `shared_page_nr - 2` and
`shared_page_nr`, that is guest frame numbers, which do not depend on the translation;
`store_mfn` is the translated page-array entry at index `shared_page_nr - 1`, the
machine frame of the published store frame. -/
theorem setup_guest_publishes_page_indices (env : Env) (abi : Abi) (w : World)
    (memsize : Nat) (image : Mem) (image_size : Nat) (ctxt : vcpu_guest_context)
    (shared_info_frame vcpus pae acpi apic store_evtchn : Nat)
    (h1 : 1 ≤ memsize) (hm : memsize < 2 ^ 31)
    (hrc : (setup_guest env abi w memsize image image_size ctxt
        shared_info_frame vcpus pae acpi apic store_evtchn).rc = 0) :
    (∃ rest, (setup_guest env abi w memsize image image_size ctxt
        shared_info_frame vcpus pae acpi apic store_evtchn).world.trace = w.trace ++ rest ∧
      published .STORE_PFN rest =
        (if env.lock_pages .STORE_PFN = true then
          [ulong_sub (shared_page_nr_of (v_end_of memsize)) 1] else []) ∧
      published .BUFIOREQ_PFN rest =
        (if env.lock_pages .BUFIOREQ_PFN = true then
          [ulong_sub (shared_page_nr_of (v_end_of memsize)) 2] else []) ∧
      published .IOREQ_PFN rest =
        (if env.lock_pages .IOREQ_PFN = true then
          [shared_page_nr_of (v_end_of memsize)] else [])) ∧
    (setup_guest env abi w memsize image image_size ctxt
        shared_info_frame vcpus pae acpi apic store_evtchn).store_mfn =
      some (env.gpfn_to_mfn (ulong_sub (shared_page_nr_of (v_end_of memsize)) 1)) ∧
    shared_page_nr_of (v_end_of memsize) = min (memsize * 256) 0xF0000 - 1 ∧
    ulong_sub (shared_page_nr_of (v_end_of memsize)) 1 = min (memsize * 256) 0xF0000 - 2 ∧
    ulong_sub (shared_page_nr_of (v_end_of memsize)) 2 = min (memsize * 256) 0xF0000 - 3 := by
  obtain ⟨⟨dsi, hp, ha, hmalloc⟩, -⟩ := setup_guest_success_inv env abi w memsize image
    image_size ctxt shared_info_frame vcpus pae acpi apic store_evtchn hrc
  obtain ⟨hnone, hsome⟩ := setup_guest_after_allocation env abi w memsize image image_size
    ctxt shared_info_frame vcpus pae acpi apic store_evtchn dsi hm hp ha hmalloc
  obtain ⟨e1, e2, e3⟩ := shared_page_nr_of_eq memsize h1 hm
  refine ⟨?_, ?_, e1, e2, e3⟩
  all_goals
    rcases ho : (allocate_guest env w (nr_pages_of memsize)
      (init_page_array (nr_pages_of memsize))).2 with _ | pa
    · rw [hnone ho] at hrc
      simp at hrc
  all_goals
    rw [hsome pa ho] at hrc ⊢
    obtain ⟨w6, ⟨r6, ht6, hP6⟩, hshape⟩ := publish_guest_shape env abi w
      (allocate_guest env w (nr_pages_of memsize) (init_page_array (nr_pages_of memsize))).1
      pa image dsi (v_end_of memsize) ctxt shared_info_frame vcpus pae acpi apic store_evtchn
      (fun c => decide (published .STORE_PFN [c] = [] ∧ published .BUFIOREQ_PFN [c] = [] ∧
        published .IOREQ_PFN [c] = []))
      (fun _ => by simp [published]) (fun _ => by simp [published])
      (by simp [published]) (by simp [published])
      (adds_allocate_guest (fun _ _ => by simp [published]) (fun _ _ => by simp [published])
        (fun _ _ => by simp [published]) env w w _ _ (adds_refl _ _))
    rcases hshape with ⟨f1, -, -, -⟩ | ⟨-, f2, f3, -⟩
    · rw [f1] at hrc
      simp at hrc
  · have hP : ∀ c ∈ r6, published .STORE_PFN [c] = [] ∧ published .BUFIOREQ_PFN [c] = [] ∧
        published .IOREQ_PFN [c] = [] := fun c hc => by simpa using hP6 c hc
    refine ⟨r6 ++ ((if env.lock_pages .STORE_PFN = true then
          [Hcall.set_param .STORE_PFN (ulong_sub (shared_page_nr_of (v_end_of memsize)) 1)]
          else []) ++
        ((if env.lock_pages .STORE_EVTCHN = true then
          [Hcall.set_param .STORE_EVTCHN store_evtchn] else []) ++
        ((if env.lock_pages .BUFIOREQ_PFN = true then
          [Hcall.set_param .BUFIOREQ_PFN (ulong_sub (shared_page_nr_of (v_end_of memsize)) 2)]
          else []) ++
        (if env.lock_pages .IOREQ_PFN = true then
          [Hcall.set_param .IOREQ_PFN (shared_page_nr_of (v_end_of memsize))] else [])))),
      ?_, ?_, ?_, ?_⟩
    · rw [f2]
      simp only [xc_set_hvm_param_trace, ht6, List.append_assoc]
    · rw [published_append, published_nil_of_all _ _ (fun c hc => (hP c hc).1)]
      by_cases a1 : env.lock_pages .STORE_PFN = true <;>
      by_cases a2 : env.lock_pages .STORE_EVTCHN = true <;>
      by_cases a3 : env.lock_pages .BUFIOREQ_PFN = true <;>
      by_cases a4 : env.lock_pages .IOREQ_PFN = true <;>
      simp [a1, a2, a3, a4, published]
    · rw [published_append, published_nil_of_all _ _ (fun c hc => (hP c hc).2.1)]
      by_cases a1 : env.lock_pages .STORE_PFN = true <;>
      by_cases a2 : env.lock_pages .STORE_EVTCHN = true <;>
      by_cases a3 : env.lock_pages .BUFIOREQ_PFN = true <;>
      by_cases a4 : env.lock_pages .IOREQ_PFN = true <;>
      simp [a1, a2, a3, a4, published]
    · rw [published_append, published_nil_of_all _ _ (fun c hc => (hP c hc).2.2)]
      by_cases a1 : env.lock_pages .STORE_PFN = true <;>
      by_cases a2 : env.lock_pages .STORE_EVTCHN = true <;>
      by_cases a3 : env.lock_pages .BUFIOREQ_PFN = true <;>
      by_cases a4 : env.lock_pages .IOREQ_PFN = true <;>
      simp [a1, a2, a3, a4, published]
  · rw [f3]
    have hpa := allocate_guest_page_array env w _ _ pa ho
    have hn := nr_pages_of_eq memsize hm
    have hidx : ulong_sub (shared_page_nr_of (v_end_of memsize)) 1 < nr_pages_of memsize := by
      rw [e2, hn]; omega
    have hget := init_page_array_getElem? (nr_pages_of memsize)
      (ulong_sub (shared_page_nr_of (v_end_of memsize)) 1) (by rw [hn]; omega) hidx
    have hlt : ulong_sub (shared_page_nr_of (v_end_of memsize)) 1 < 0xF0000 := by
      rw [e2]; omega
    rw [if_pos hlt] at hget
    rw [hpa, List.getD_eq_getElem?_getD, List.getElem?_map, hget]
    rfl

set_option maxRecDepth 100000 in
/-- Witness for C14: a 2 MiB guest built from the sample image when every operation
succeeds. -/
theorem setup_guest_publishes_page_indices_witness :
    (setup_guest env_ok abi_x86_64 world0 2 sample_image 172 ctxt0 7 1 1 1 1 3).rc = 0 ∧
    (setup_guest env_ok abi_x86_64 world0 2 sample_image 172 ctxt0
        7 1 1 1 1 3).store_mfn =
      some (env_ok.gpfn_to_mfn (ulong_sub (shared_page_nr_of (v_end_of 2)) 1)) :=
  ⟨by decide,
   (setup_guest_publishes_page_indices env_ok abi_x86_64 world0 2 sample_image 172 ctxt0
     7 1 1 1 1 3 (by decide) (by decide) (by decide)).2.1⟩

set_option maxRecDepth 100000 in
/-- Counterexample for C14: a 2 MiB guest built from the sample image, with a
hypervisor that translates guest frame `g` to machine frame `g + 1000`.  The build
returns 0; the values published for the store, buffered-I/O and I/O-request pages are
510, 509 and 511, the page indices, while the machine frames of these pages are 1510,
1509 and 1511; `store_mfn` is 1510, not the published 510. -/
theorem setup_guest_publishes_pfn_not_mfn :
    (setup_guest env_shifted abi_x86_64 world0 2 sample_image 172 ctxt0 7 1 1 1 1 3).rc = 0 ∧
    published .STORE_PFN (setup_guest env_shifted abi_x86_64 world0 2 sample_image 172 ctxt0
      7 1 1 1 1 3).world.trace = [510] ∧
    published .BUFIOREQ_PFN (setup_guest env_shifted abi_x86_64 world0 2 sample_image 172
      ctxt0 7 1 1 1 1 3).world.trace = [509] ∧
    published .IOREQ_PFN (setup_guest env_shifted abi_x86_64 world0 2 sample_image 172 ctxt0
      7 1 1 1 1 3).world.trace = [511] ∧
    (setup_guest env_shifted abi_x86_64 world0 2 sample_image 172 ctxt0
      7 1 1 1 1 3).store_mfn = some 1510 ∧
    ((init_page_array (nr_pages_of 2)).map env_shifted.gpfn_to_mfn)[510]? = some 1510 ∧
    ((init_page_array (nr_pages_of 2)).map env_shifted.gpfn_to_mfn)[509]? = some 1509 ∧
    ((init_page_array (nr_pages_of 2)).map env_shifted.gpfn_to_mfn)[511]? = some 1511 := by
  refine ⟨by decide, by decide, by decide, by decide, by decide, by decide, by decide,
    by decide⟩

/-! ## Failures of the parameter calls -/

theorem without_params_mem (w : World) : w.without_params.mem = w.mem := rfl

theorem without_params_store (w : World) (mfn : Nat) (page : Mem) :
    (w.store mfn page).without_params = w.without_params.store mfn page := rfl

theorem without_params_issue (w : World) (c : Hcall) (h : c.is_set_param = false) :
    (w.issue c).without_params = w.without_params.issue c := by
  unfold World.without_params World.issue
  simp [List.filter_append, List.filter, h]

theorem without_params_issue_param (w : World) (p : hvm_param) (v : Nat) :
    (w.issue (.set_param p v)).without_params = w.without_params := by
  unfold World.without_params World.issue
  simp [List.filter_append, List.filter, Hcall.is_set_param]

theorem without_params_count (w : World) (kind : Hcall → Bool)
    (h : ∀ c, kind c = true → c.is_set_param = false) :
    w.without_params.count kind = w.count kind := by
  unfold World.without_params World.count
  simp only [List.filter_filter]
  congr 1
  apply List.filter_congr
  intro c _
  by_cases hk : kind c = true
  · simp [hk, h c hk]
  · simp [hk]

theorem without_params_count_map (w : World) :
    w.without_params.count Hcall.is_map = w.count Hcall.is_map :=
  without_params_count w _ (fun c h => by cases c <;> simp_all [Hcall.is_map, Hcall.is_set_param])

theorem without_params_count_clear (w : World) :
    w.without_params.count Hcall.is_clear = w.count Hcall.is_clear :=
  without_params_count w _ (fun c h => by cases c <;> simp_all [Hcall.is_clear, Hcall.is_set_param])

theorem without_params_count_populate (w : World) :
    w.without_params.count Hcall.is_populate = w.count Hcall.is_populate :=
  without_params_count w _
    (fun c h => by cases c <;> simp_all [Hcall.is_populate, Hcall.is_set_param])

theorem without_params_count_decrease (w : World) :
    w.without_params.count Hcall.is_decrease = w.count Hcall.is_decrease :=
  without_params_count w _
    (fun c h => by cases c <;> simp_all [Hcall.is_decrease, Hcall.is_set_param])

theorem without_params_count_translate (w : World) :
    w.without_params.count Hcall.is_translate = w.count Hcall.is_translate :=
  without_params_count w _
    (fun c h => by cases c <;> simp_all [Hcall.is_translate, Hcall.is_set_param])

theorem params_fail_map (env : Env) (w : World) (mfn : Nat) :
    xc_map_foreign_range env.params_fail w.without_params mfn =
      ((xc_map_foreign_range env w mfn).1.without_params,
        (xc_map_foreign_range env w mfn).2) := by
  unfold xc_map_foreign_range
  rw [without_params_count_map, without_params_issue _ (.map_foreign_range mfn) rfl]
  rfl

theorem params_fail_clear (env : Env) (w : World) (mfn : Nat) :
    xc_clear_domain_page env.params_fail w.without_params mfn =
      ((xc_clear_domain_page env w mfn).1.without_params,
        (xc_clear_domain_page env w mfn).2) := by
  unfold xc_clear_domain_page
  simp only [without_params_count_clear]
  have e : env.params_fail.clear_domain_page = env.clear_domain_page := rfl
  rw [e]
  split_ifs
  · rw [without_params_store, without_params_issue _ (.clear_domain_page mfn) rfl]
    rfl
  · rw [without_params_issue _ (.clear_domain_page mfn) rfl]

theorem params_fail_set_param (env : Env) (w : World) (p : hvm_param) (v : Nat) :
    xc_set_hvm_param env.params_fail w.without_params p v =
      (xc_set_hvm_param env w p v).without_params := by
  unfold xc_set_hvm_param
  have e : env.params_fail.lock_pages p = false := rfl
  by_cases h : env.lock_pages p = true
  · simp [e, h, without_params_issue_param]
  · simp [e, h]

theorem params_fail_load_copy (env : Env) (image : Mem) (parray : Nat → Nat)
    (v_start phdr : Nat) (fuel : Nat) : ∀ (done : Nat) (w : World),
    load_copy env.params_fail image parray v_start phdr fuel done w.without_params =
      ((load_copy env image parray v_start phdr fuel done w).1,
       (load_copy env image parray v_start phdr fuel done w).2.1,
       (load_copy env image parray v_start phdr fuel done w).2.2.without_params) := by
  induction fuel with
  | zero => intro done w; rfl
  | succ f ih =>
    intro done w
    rw [load_copy, load_copy]
    split_ifs with h
    · simp only [params_fail_map]
      rcases xc_map_foreign_range env w
        (parray (load_pa image phdr v_start done >>> PAGE_SHIFT)) with ⟨w1, m⟩
      cases m
      · rfl
      · simp only [Bool.not_true, Bool.false_eq_true, if_false]
        rw [without_params_mem, ← without_params_store, ih]
    · rfl

theorem params_fail_load_zero (env : Env) (image : Mem) (parray : Nat → Nat)
    (v_start phdr : Nat) (fuel : Nat) : ∀ (done : Nat) (w : World),
    load_zero env.params_fail image parray v_start phdr fuel done w.without_params =
      ((load_zero env image parray v_start phdr fuel done w).1,
       (load_zero env image parray v_start phdr fuel done w).2.1,
       (load_zero env image parray v_start phdr fuel done w).2.2.without_params) := by
  induction fuel with
  | zero => intro done w; rfl
  | succ f ih =>
    intro done w
    rw [load_zero, load_zero]
    split_ifs with h
    · simp only [params_fail_map]
      rcases xc_map_foreign_range env w
        (parray (load_pa image phdr v_start done >>> PAGE_SHIFT)) with ⟨w1, m⟩
      cases m
      · rfl
      · simp only [Bool.not_true, Bool.false_eq_true, if_false]
        rw [without_params_mem, ← without_params_store, ih]
    · rfl

theorem params_fail_load_segments (env : Env) (image : Mem) (parray : Nat → Nat)
    (v_start : Nat) (n : Nat) : ∀ (h : Nat) (w : World),
    load_segments env.params_fail image parray v_start n h w.without_params =
      ((load_segments env image parray v_start n h w).1,
       (load_segments env image parray v_start n h w).2.without_params) := by
  induction n with
  | zero => intro h w; rfl
  | succ n ih =>
    intro h w
    rw [load_segments, load_segments]
    split_ifs with hl
    · exact ih _ _
    · rw [params_fail_load_copy]
      rcases load_copy env image parray v_start (phdr_at image h)
        (p_filesz image (phdr_at image h)) 0 w with ⟨b, d, w1⟩
      cases b
      · rfl
      · simp only
        rw [params_fail_load_zero]
        rcases load_zero env image parray v_start (phdr_at image h)
          (p_memsz image (phdr_at image h)) d w1 with ⟨b2, d2, w2⟩
        cases b2
        · rfl
        · exact ih _ _

theorem params_fail_loadelfimage (env : Env) (image : Mem) (w : World) (parray : Nat → Nat)
    (dsi : domain_setup_info) :
    loadelfimage env.params_fail image w.without_params parray dsi =
      ((loadelfimage env image w parray dsi).1,
       (loadelfimage env image w parray dsi).2.without_params) :=
  params_fail_load_segments env image parray dsi.v_start _ 0 w

theorem params_fail_set_hvm_info (env : Env) (L : hvm_info_layout) (w : World)
    (pfn_list : Nat → Nat) (vcpus acpi : Nat) :
    set_hvm_info env.params_fail L w.without_params pfn_list vcpus acpi =
      ((set_hvm_info env L w pfn_list vcpus acpi).1,
       (set_hvm_info env L w pfn_list vcpus acpi).2.without_params) := by
  unfold set_hvm_info
  simp only [params_fail_map]
  split_ifs
  · rfl
  · rfl

theorem params_fail_allocate_guest (env : Env) (w : World) (n : Nat) (pa : List Nat) :
    allocate_guest env.params_fail w.without_params n pa =
      ((allocate_guest env w n pa).1.without_params, (allocate_guest env w n pa).2) := by
  have i1 : ∀ (x : World) (k : Nat) (l : List Nat),
      x.without_params.issue (.populate_physmap k l) =
        (x.issue (.populate_physmap k l)).without_params :=
    fun x k l => (without_params_issue x (.populate_physmap k l) rfl).symm
  have i2 : ∀ (x : World) (k : Nat) (l : List Nat),
      x.without_params.issue (.decrease_reservation k l) =
        (x.issue (.decrease_reservation k l)).without_params :=
    fun x k l => (without_params_issue x (.decrease_reservation k l) rfl).symm
  have i3 : ∀ (x : World) (k : Nat) (l : List Nat),
      x.without_params.issue (.translate_gpfn_list k l) =
        (x.issue (.translate_gpfn_list k l)).without_params :=
    fun x k l => (without_params_issue x (.translate_gpfn_list k l) rfl).symm
  have e1 : env.params_fail.populate_physmap = env.populate_physmap := rfl
  have e2 : env.params_fail.decrease_reservation = env.decrease_reservation := rfl
  have e3 : env.params_fail.translate_gpfn_list = env.translate_gpfn_list := rfl
  have e4 : env.params_fail.gpfn_to_mfn = env.gpfn_to_mfn := rfl
  unfold allocate_guest
  simp only [e1, e2, e3, e4, without_params_count_populate,
    without_params_count_decrease, without_params_count_translate, count_issue,
    Hcall.is_populate, Hcall.is_decrease, Hcall.is_translate, if_true, if_false,
    Bool.false_eq_true, Nat.add_zero]
  by_cases cA : env.populate_physmap (w.count Hcall.is_populate) = 0 <;>
  by_cases cB : env.populate_physmap (w.count Hcall.is_populate + 1) = 0 <;>
  by_cases cD : env.decrease_reservation (w.count Hcall.is_decrease) = 0 <;>
  by_cases cT : env.translate_gpfn_list (w.count Hcall.is_translate) = 0 <;>
  by_cases c1 : n > 0xc0 <;> by_cases c2 : n > 0xa0 <;> by_cases c3 : n < 0xc0 <;>
  simp [cA, cB, cD, cT, c1, c2, c3, i1, i2, i3, without_params_count_populate,
    without_params_count_decrease, without_params_count_translate, count_issue,
    Hcall.is_populate, Hcall.is_decrease, Hcall.is_translate]

theorem without_params_store_rev (w : World) (mfn : Nat) (page : Mem) :
    w.without_params.store mfn page = (w.store mfn page).without_params := rfl

theorem params_fail_publish_guest (env : Env) (abi : Abi) (w : World) (page_array : List Nat)
    (image : Mem) (dsi : domain_setup_info) (v_end : Nat) (ctxt : vcpu_guest_context)
    (shared_info_frame vcpus pae acpi apic store_evtchn : Nat) :
    publish_guest env.params_fail abi w.without_params page_array image dsi v_end ctxt
        shared_info_frame vcpus pae acpi apic store_evtchn =
      ⟨(publish_guest env abi w page_array image dsi v_end ctxt
          shared_info_frame vcpus pae acpi apic store_evtchn).rc,
       (publish_guest env abi w page_array image dsi v_end ctxt
          shared_info_frame vcpus pae acpi apic store_evtchn).world.without_params,
       (publish_guest env abi w page_array image dsi v_end ctxt
          shared_info_frame vcpus pae acpi apic store_evtchn).store_mfn,
       (publish_guest env abi w page_array image dsi v_end ctxt
          shared_info_frame vcpus pae acpi apic store_evtchn).ctxt⟩ := by
  unfold publish_guest
  simp only [params_fail_loadelfimage, params_fail_set_hvm_info, params_fail_set_param,
    params_fail_map, params_fail_clear, without_params_mem, without_params_store_rev]
  split_ifs <;> rfl

/-- A run of `setup_guest` in which no parameter can be set is the run under `env`
with the `set_param` operations left out. -/
theorem params_fail_setup_guest (env : Env) (abi : Abi) (w : World) (memsize : Nat)
    (image : Mem) (image_size : Nat) (ctxt : vcpu_guest_context)
    (shared_info_frame vcpus pae acpi apic store_evtchn : Nat) :
    setup_guest env.params_fail abi w.without_params memsize image image_size ctxt
        shared_info_frame vcpus pae acpi apic store_evtchn =
      ⟨(setup_guest env abi w memsize image image_size ctxt
          shared_info_frame vcpus pae acpi apic store_evtchn).rc,
       (setup_guest env abi w memsize image image_size ctxt
          shared_info_frame vcpus pae acpi apic store_evtchn).world.without_params,
       (setup_guest env abi w memsize image image_size ctxt
          shared_info_frame vcpus pae acpi apic store_evtchn).store_mfn,
       (setup_guest env abi w memsize image image_size ctxt
          shared_info_frame vcpus pae acpi apic store_evtchn).ctxt⟩ := by
  have e : env.params_fail.malloc_ok = env.malloc_ok := rfl
  unfold setup_guest
  rcases parseelfimage image image_size domain_setup_info.zero with ⟨rc, dsi⟩
  simp only [e, params_fail_allocate_guest]
  split_ifs
  · rfl
  · rfl
  · rfl
  · rfl
  · rcases allocate_guest env w (nr_pages_of memsize)
      (init_page_array (nr_pages_of memsize)) with ⟨w1, o⟩
    cases o with
    | none => rfl
    | some pa => exact params_fail_publish_guest _ _ _ _ _ _ _ _ _ _ _ _ _ _

/-- Claim C17.  For every run of `setup_guest`, whatever the outcomes of `lock_pages`
and of the `HVMOP_set_param` hypercall inside `xc_set_hvm_param`: the status, the
operations issued other than `set_param` (in their order, with their arguments), the
guest memory, `store_mfn` and the context are those of the run in which every
parameter is set successfully and everything else behaves the same.  A failed
parameter set thus never aborts the build. -/
theorem setup_guest_ignores_param_failures (env : Env) (abi : Abi) (w : World)
    (memsize : Nat) (image : Mem) (image_size : Nat) (ctxt : vcpu_guest_context)
    (shared_info_frame vcpus pae acpi apic store_evtchn : Nat) :
    (setup_guest env abi w memsize image image_size ctxt
        shared_info_frame vcpus pae acpi apic store_evtchn).rc =
      (setup_guest env.params_succeed abi w memsize image image_size ctxt
        shared_info_frame vcpus pae acpi apic store_evtchn).rc ∧
    (setup_guest env abi w memsize image image_size ctxt
        shared_info_frame vcpus pae acpi apic store_evtchn).world.trace.filter
        (fun c => !c.is_set_param) =
      (setup_guest env.params_succeed abi w memsize image image_size ctxt
        shared_info_frame vcpus pae acpi apic store_evtchn).world.trace.filter
        (fun c => !c.is_set_param) ∧
    (setup_guest env abi w memsize image image_size ctxt
        shared_info_frame vcpus pae acpi apic store_evtchn).world.mem =
      (setup_guest env.params_succeed abi w memsize image image_size ctxt
        shared_info_frame vcpus pae acpi apic store_evtchn).world.mem ∧
    (setup_guest env abi w memsize image image_size ctxt
        shared_info_frame vcpus pae acpi apic store_evtchn).store_mfn =
      (setup_guest env.params_succeed abi w memsize image image_size ctxt
        shared_info_frame vcpus pae acpi apic store_evtchn).store_mfn ∧
    (setup_guest env abi w memsize image image_size ctxt
        shared_info_frame vcpus pae acpi apic store_evtchn).ctxt =
      (setup_guest env.params_succeed abi w memsize image image_size ctxt
        shared_info_frame vcpus pae acpi apic store_evtchn).ctxt := by
  have h1 := params_fail_setup_guest env abi w memsize image image_size ctxt
    shared_info_frame vcpus pae acpi apic store_evtchn
  have h2 := params_fail_setup_guest env.params_succeed abi w memsize image image_size ctxt
    shared_info_frame vcpus pae acpi apic store_evtchn
  have e : env.params_succeed.params_fail = env.params_fail := rfl
  rw [e, h1] at h2
  injection h2 with a1 a2 a3 a4
  refine ⟨a1, ?_, ?_, a3, a4⟩
  · have := congrArg World.trace a2
    exact this
  · have := congrArg World.mem a2
    exact this

/-! ## Flat device tree -/

/-- The loop of `device_tree_for_each_node`, seen through a recording callback. -/
theorem for_each_node_loop_calls {σ : Type} (fdt : Fdt) (func : device_tree_node_func σ)
    (fuel : Nat) : ∀ (node depth : Int) (ac sc : Int → Nat) (data : σ) (log : List dt_call)
      (nodes : List (Int × Int)), fdt_walk fdt fuel node depth = some nodes →
    ∃ ret d calls,
      for_each_node_loop fdt (recording func) fuel node depth ac sc (data, log) =
        some (ret, (d, log ++ calls)) ∧
      for_each_node_loop fdt func fuel node depth ac sc data = some (ret, d) ∧
      ((ret = 0 ∧ (∀ c ∈ calls, c.ret = 0) ∧
          calls.map (fun c => (c.node, c.depth)) =
            nodes.filter (fun n => decide (n.2 < DEVICE_TREE_MAX_DEPTH))) ∨
       (ret ≠ 0 ∧ ∃ pre c, calls = pre ++ [c] ∧ c.ret = ret ∧ (∀ x ∈ pre, x.ret = 0) ∧
          calls.map (fun c => (c.node, c.depth)) <+:
            nodes.filter (fun n => decide (n.2 < DEVICE_TREE_MAX_DEPTH)))) := by
  induction fuel with
  | zero =>
    intro node depth ac sc data log nodes h
    simp [fdt_walk] at h
  | succ f ih =>
    intro node depth ac sc data log nodes h
    rw [fdt_walk] at h
    rw [for_each_node_loop, for_each_node_loop]
    by_cases hc : node ≥ 0 ∧ depth ≥ 0
    · simp only [hc, and_self, if_true] at h ⊢
      rcases hw : fdt_walk fdt f (fdt.next_node node depth).1 (fdt.next_node node depth).2
        with _ | rest
      · rw [hw] at h; simp at h
      · rw [hw] at h
        simp only [Option.map_some', Option.some.injEq] at h
        subst h
        by_cases hd : depth ≥ DEVICE_TREE_MAX_DEPTH
        · simp only [hd, if_true]
          have hnd : ¬ depth < DEVICE_TREE_MAX_DEPTH := by omega
          obtain ⟨ret, d, calls, e1, e2, e3⟩ := ih _ _ ac sc data log rest hw
          refine ⟨ret, d, calls, e1, e2, ?_⟩
          simpa [List.filter_cons, hnd] using e3
        · simp only [hd, if_false]
          have hnd : depth < DEVICE_TREE_MAX_DEPTH := by omega
          simp only [recording]
          generalize Function.update ac depth (device_tree_get_u32 fdt node "#address-cells"
            (if depth > 0 then ac (depth - 1) else 0)) = ac1
          generalize Function.update sc depth (device_tree_get_u32 fdt node "#size-cells"
            (if depth > 0 then sc (depth - 1) else 0)) = sc1
          rcases hf : func fdt node (fdt.get_name node) depth (ac1 (depth - 1))
            (sc1 (depth - 1)) data with ⟨r, d1⟩
          simp only
          by_cases hr : r = 0
          · subst hr
            simp only [ne_eq, not_true_eq_false, if_false]
            obtain ⟨ret, d, calls, e1, e2, e3⟩ := ih _ _ ac1 sc1 d1
              (log ++ [⟨node, fdt.get_name node, depth, ac1 (depth - 1), sc1 (depth - 1), 0⟩])
              rest hw
            refine ⟨ret, d, ⟨node, fdt.get_name node, depth, ac1 (depth - 1),
              sc1 (depth - 1), 0⟩ :: calls, ?_, e2, ?_⟩
            · rw [e1]
              simp
            · rcases e3 with ⟨a1, a2, a3⟩ | ⟨a1, pre, c, a2, a3, a4, a5⟩
              · left
                refine ⟨a1, ?_, ?_⟩
                · intro c hc
                  rcases List.mem_cons.1 hc with e | e
                  · rw [e]
                  · exact a2 c e
                · simp [List.filter_cons, hnd, a3]
              · right
                refine ⟨a1, ⟨node, fdt.get_name node, depth, ac1 (depth - 1),
                  sc1 (depth - 1), 0⟩ :: pre, c, ?_, a3, ?_, ?_⟩
                · rw [a2]; rfl
                · intro x hx
                  rcases List.mem_cons.1 hx with e | e
                  · rw [e]
                  · exact a4 x e
                · simp only [List.filter_cons, hnd, decide_True, if_true, List.map_cons]
                  exact (List.prefix_cons_inj _).2 a5
          · simp only [ne_eq, hr, not_false_eq_true, if_true]
            refine ⟨r, d1, [⟨node, fdt.get_name node, depth, ac1 (depth - 1),
              sc1 (depth - 1), r⟩], rfl, rfl, Or.inr ⟨hr, [], _, rfl, rfl, ?_, ?_⟩⟩
            · intro x hx
              simp at hx
            · simp only [List.filter_cons, hnd, decide_True, if_true, List.map_cons,
                List.map_nil]
              exact (List.prefix_cons_inj _).2 List.nil_prefix
    · simp only [hc, if_false] at h ⊢
      simp only [Option.some.injEq] at h
      subst h
      exact ⟨0, data, [], by simp, rfl, Or.inl ⟨rfl, by simp, by simp⟩⟩

/-- Claim C20.  Let the flat-tree traversal from the root end after finitely many
steps, yielding the node sequence `nodes`.  Then `device_tree_for_each_node` returns,
with the same result and final data whether or not the calls are recorded, and every
recorded call is for a node of depth below `DEVICE_TREE_MAX_DEPTH` (16).  Either the
callback returned 0 at every call, the calls are exactly the nodes of depth below 16
in traversal order, and the result is 0; or the calls are an initial part of these
nodes in traversal order, the callback returned 0 at every call but the last, and the
result is the non-zero value it returned at the last. -/
theorem device_tree_for_each_node_visits {σ : Type} (fdt : Fdt)
    (func : device_tree_node_func σ) (data : σ) (address_cells size_cells : Int → Nat)
    (fuel : Nat) (nodes : List (Int × Int)) (hw : fdt_walk fdt fuel 0 0 = some nodes) :
    ∃ ret d calls,
      device_tree_for_each_node fdt (recording func) (data, []) address_cells size_cells
        fuel = some (ret, (d, calls)) ∧
      device_tree_for_each_node fdt func data address_cells size_cells fuel =
        some (ret, d) ∧
      (∀ c ∈ calls, c.depth < DEVICE_TREE_MAX_DEPTH) ∧
      ((ret = 0 ∧ (∀ c ∈ calls, c.ret = 0) ∧
          calls.map (fun c => (c.node, c.depth)) =
            nodes.filter (fun n => decide (n.2 < DEVICE_TREE_MAX_DEPTH))) ∨
       (ret ≠ 0 ∧ ∃ pre c, calls = pre ++ [c] ∧ c.ret = ret ∧ (∀ x ∈ pre, x.ret = 0) ∧
          calls.map (fun c => (c.node, c.depth)) <+:
            nodes.filter (fun n => decide (n.2 < DEVICE_TREE_MAX_DEPTH)))) := by
  obtain ⟨ret, d, calls, e1, e2, e3⟩ := for_each_node_loop_calls fdt func fuel 0 0
    address_cells size_cells data [] nodes hw
  have hpre : calls.map (fun c => (c.node, c.depth)) <+:
      nodes.filter (fun n => decide (n.2 < DEVICE_TREE_MAX_DEPTH)) := by
    rcases e3 with ⟨-, -, a⟩ | ⟨-, -, -, -, -, -, a⟩
    · rw [a]
    · exact a
  refine ⟨ret, d, calls, ?_, e2, ?_, e3⟩
  · rw [device_tree_for_each_node, e1]
    simp
  · intro c hc
    have hm : (c.node, c.depth) ∈ calls.map (fun c => (c.node, c.depth)) :=
      List.mem_map.2 ⟨c, hc, rfl⟩
    have := (List.mem_filter.1 (hpre.subset hm)).2
    simpa using this

/-- Witness for C20: a chain of 18 nodes, the node at offset `n` at depth `n`, and a
callback that returns 7 at depth 3. -/
theorem device_tree_for_each_node_visits_witness :
    fdt_walk chain_fdt 20 0 0 = some ((List.range 18).map (fun n => ((n : Int), (n : Int)))) ∧
    ∃ ret d calls,
      device_tree_for_each_node chain_fdt (recording stop_at_three) (0, [])
        (fun _ => 0) (fun _ => 0) 20 = some (ret, (d, calls)) ∧
      device_tree_for_each_node chain_fdt stop_at_three 0 (fun _ => 0) (fun _ => 0) 20 =
        some (ret, d) ∧
      (∀ c ∈ calls, c.depth < DEVICE_TREE_MAX_DEPTH) ∧
      ((ret = 0 ∧ (∀ c ∈ calls, c.ret = 0) ∧
          calls.map (fun c => (c.node, c.depth)) =
            ((List.range 18).map (fun n => ((n : Int), (n : Int)))).filter
              (fun n => decide (n.2 < DEVICE_TREE_MAX_DEPTH))) ∨
       (ret ≠ 0 ∧ ∃ pre c, calls = pre ++ [c] ∧ c.ret = ret ∧ (∀ x ∈ pre, x.ret = 0) ∧
          calls.map (fun c => (c.node, c.depth)) <+:
            ((List.range 18).map (fun n => ((n : Int), (n : Int)))).filter
              (fun n => decide (n.2 < DEVICE_TREE_MAX_DEPTH)))) :=
  ⟨by decide,
   device_tree_for_each_node_visits chain_fdt stop_at_three 0 (fun _ => 0) (fun _ => 0) 20
     _ (by decide)⟩

/-- The chain of 18 nodes with a callback that always returns 0: the callback is
called for the 16 nodes of depth 0 to 15 and the result is 0. -/
theorem device_tree_for_each_node_chain :
    device_tree_for_each_node chain_fdt count_calls 0 (fun _ => 0) (fun _ => 0) 20 =
      some (0, 16) ∧
    device_tree_for_each_node chain_fdt stop_at_three 0 (fun _ => 0) (fun _ => 0) 20 =
      some (7, 4) := by
  refine ⟨by decide, by decide⟩

/-! ## Node names -/

theorem strlen_eq_length (s : List Nat) (h : 0 ∉ s) : strlen s = s.length := by
  induction s with
  | nil => rfl
  | cons c t ih =>
    have hc : c ≠ 0 := fun e => h (by rw [e]; exact List.mem_cons_self _ _)
    have ht : 0 ∉ t := fun e => h (List.mem_cons_of_mem _ e)
    simp [strlen, hc, ih ht]

/-- Comparing over the length of `m`: the result is 0 exactly when the name begins
with `m`. -/
theorem strncmp_eq_zero_iff (m : List Nat) (hm : 0 ∉ m) :
    ∀ name : List Nat, strncmp name m m.length = 0 ↔ ∃ t, name = m ++ t := by
  induction m with
  | nil =>
    intro name
    exact ⟨fun _ => ⟨name, rfl⟩, fun _ => rfl⟩
  | cons c m ih =>
    intro name
    have hc : c ≠ 0 := fun e => hm (by rw [e]; exact List.mem_cons_self _ _)
    have ht : 0 ∉ m := fun e => hm (List.mem_cons_of_mem _ e)
    rw [List.length_cons, strncmp]
    simp only [List.headD_cons, List.tail_cons]
    cases name with
    | nil =>
      simp only [List.headD_nil]
      have h0 : (0 : Nat) ≠ c := fun e => hc e.symm
      simp only [ne_eq, h0, not_false_eq_true, if_true]
      constructor
      · intro e
        exfalso
        omega
      · rintro ⟨t, e⟩
        simp at e
    | cons a tl =>
      simp only [List.headD_cons, List.tail_cons]
      by_cases hac : a = c
      · subst hac
        simp only [ne_eq, not_true_eq_false, if_false, hc]
        rw [ih ht tl]
        constructor
        · rintro ⟨t, e⟩
          exact ⟨t, by rw [e]; rfl⟩
        · rintro ⟨t, e⟩
          simp only [List.cons_append, List.cons.injEq, true_and] at e
          exact ⟨t, e⟩
      · simp only [ne_eq, hac, not_false_eq_true, if_true]
        constructor
        · intro e
          exfalso
          omega
        · rintro ⟨t, e⟩
          simp only [List.cons_append, List.cons.injEq] at e
          exact absurd e.1 hac

/-- Claim C21.  For every node name and every match string (C strings, so without a
0 byte inside), `device_tree_node_matches` returns true if and only if the name
equals the match string or begins with it immediately followed by `'@'` (0x40); in
particular it returns false for a name that is the match string followed by `'-'`
(0x2d) and anything else. -/
theorem device_tree_node_matches_iff (fdt : Fdt) (node : Int) (m : List Nat)
    (hn : 0 ∉ fdt.get_name node) (hm : 0 ∉ m) :
    (device_tree_node_matches fdt node m = true ↔
      (fdt.get_name node = m ∨ ∃ rest, fdt.get_name node = m ++ 0x40 :: rest)) ∧
    (∀ rest, fdt.get_name node = m ++ 0x2d :: rest →
      device_tree_node_matches fdt node m = false) := by
  have key : device_tree_node_matches fdt node m = true ↔
      (fdt.get_name node = m ∨ ∃ rest, fdt.get_name node = m ++ 0x40 :: rest) := by
    unfold device_tree_node_matches
    simp only [strlen_eq_length m hm, Bool.and_eq_true, beq_iff_eq, Bool.or_eq_true,
      strncmp_eq_zero_iff m hm, char_at]
    constructor
    · rintro ⟨⟨t, e⟩, h2⟩
      rw [e] at h2 hn ⊢
      cases t with
      | nil => left; simp
      | cons c rest =>
        right
        have hc : c ≠ 0 := fun e0 => hn (by rw [e0]; simp)
        simp only [List.getD_eq_getElem?_getD, List.getElem?_append_right (le_refl _),
          Nat.sub_self, List.getElem?_cons_zero, Option.getD_some] at h2
        rcases h2 with h2 | h2
        · exact ⟨rest, by rw [h2]⟩
        · exact absurd h2 hc
    · rintro (e | ⟨rest, e⟩)
      · refine ⟨⟨[], by rw [e]; simp⟩, Or.inr ?_⟩
        rw [e]
        simp [List.getD_eq_getElem?_getD]
      · refine ⟨⟨_, e⟩, Or.inl ?_⟩
        rw [e]
        simp [List.getD_eq_getElem?_getD, List.getElem?_append_right (le_refl _)]
  refine ⟨key, ?_⟩
  intro rest e
  cases hres : device_tree_node_matches fdt node m with
  | false => rfl
  | true =>
    exfalso
    rcases key.1 hres with e2 | ⟨rest2, e2⟩
    · rw [e2] at e
      have := congrArg List.length e
      simp at this
    · rw [e2] at e
      have := List.append_cancel_left e
      simp at this

/-- Witness for C21: the node `memory@0` matches `memory`. -/
theorem device_tree_node_matches_iff_witness :
    (0 ∉ memory_fdt.get_name 0) ∧
    (device_tree_node_matches memory_fdt 0 [0x6d, 0x65, 0x6d, 0x6f, 0x72, 0x79] = true ↔
      (memory_fdt.get_name 0 = [0x6d, 0x65, 0x6d, 0x6f, 0x72, 0x79] ∨
        ∃ rest, memory_fdt.get_name 0 = [0x6d, 0x65, 0x6d, 0x6f, 0x72, 0x79] ++ 0x40 :: rest)) :=
  ⟨by decide,
   (device_tree_node_matches_iff memory_fdt 0 [0x6d, 0x65, 0x6d, 0x6f, 0x72, 0x79]
     (by decide) (by decide)).1⟩

/-- The node `memory@0` matches `memory` and does not match `mem`. -/
theorem device_tree_node_matches_memory :
    device_tree_node_matches memory_fdt 0 [0x6d, 0x65, 0x6d, 0x6f, 0x72, 0x79] = true ∧
    device_tree_node_matches memory_fdt 0 [0x6d, 0x65, 0x6d] = false := by
  decide

/-! ## Cell counts seen by the callback -/

theorem last_at_depth_append (log : List dt_call) (c : dt_call) (e : Int) :
    last_at_depth (log ++ [c]) e = if c.depth = e then some c else last_at_depth log e := by
  unfold last_at_depth
  rw [List.reverse_append]
  simp only [List.reverse_cons, List.reverse_nil, List.nil_append, List.singleton_append,
    List.find?_cons]
  by_cases h : c.depth = e
  · simp [h]
  · simp [h]

theorem last_at_depth_depth (log : List dt_call) (e : Int) (p : dt_call)
    (h : last_at_depth log e = some p) : p.depth = e := by
  unfold last_at_depth at h
  have := List.find?_some h
  simpa using this

/-- Appending a call keeps `cells_from_parent` when the new call was passed what the
latest earlier call one level up recorded. -/
theorem cells_from_parent_append (fdt : Fdt) (log : List dt_call) (c : dt_call)
    (h : cells_from_parent fdt log)
    (hc : ∀ p, 1 ≤ c.depth → last_at_depth log (c.depth - 1) = some p →
      c.address_cells = recorded_address_cells fdt p ∧
      c.size_cells = recorded_size_cells fdt p) :
    cells_from_parent fdt (log ++ [c]) := by
  intro i x p hx hd hp
  by_cases hi : i < log.length
  · rw [List.getElem?_append_left hi] at hx
    rw [List.take_append_of_le_length (by omega)] at hp
    exact h i x p hx hd hp
  · by_cases hi2 : i = log.length
    · subst hi2
      rw [List.getElem?_append_right (le_refl _)] at hx
      simp only [Nat.sub_self, List.getElem?_cons_zero, Option.some.injEq] at hx
      subst hx
      rw [List.take_append_of_le_length (le_refl _), List.take_length] at hp
      exact hc p hd hp
    · rw [List.getElem?_eq_none (by simp; omega)] at hx
      simp at hx

theorem parents_called_append (log : List dt_call) (c : dt_call)
    (h : parents_called log)
    (hc : 1 ≤ c.depth → ∃ p, last_at_depth log (c.depth - 1) = some p) :
    parents_called (log ++ [c]) := by
  intro i x hx hd
  by_cases hi : i < log.length
  · rw [List.getElem?_append_left hi] at hx
    rw [List.take_append_of_le_length (by omega)]
    exact h i x hx hd
  · by_cases hi2 : i = log.length
    · subst hi2
      rw [List.getElem?_append_right (le_refl _)] at hx
      simp only [Nat.sub_self, List.getElem?_cons_zero, Option.some.injEq] at hx
      subst hx
      rw [List.take_append_of_le_length (le_refl _), List.take_length]
      exact hc hd
    · rw [List.getElem?_eq_none (by simp; omega)] at hx
      simp at hx

/-- The loop of `device_tree_for_each_node` keeps the arrays in step with the calls
made, and passes to every call below the root what the latest earlier call one
level up recorded. -/
theorem for_each_node_loop_cells {σ : Type} (fdt : Fdt) (func : device_tree_node_func σ)
    (fuel : Nat) : ∀ (node depth : Int) (ac sc : Int → Nat) (data : σ) (log : List dt_call)
      (ret : Int) (d : σ) (calls : List dt_call),
    for_each_node_loop fdt (recording func) fuel node depth ac sc (data, log) =
      some (ret, (d, calls)) →
    cells_recorded fdt ac sc log → cells_from_parent fdt log →
    cells_from_parent fdt calls := by
  induction fuel with
  | zero =>
    intro node depth ac sc data log ret d calls h
    simp [for_each_node_loop] at h
  | succ f ih =>
    intro node depth ac sc data log ret d calls h hrec hpar
    rw [for_each_node_loop] at h
    by_cases hc : node ≥ 0 ∧ depth ≥ 0
    · simp only [hc, and_self, if_true] at h
      by_cases hd : depth ≥ DEVICE_TREE_MAX_DEPTH
      · simp only [hd, if_true] at h
        exact ih _ _ ac sc data log ret d calls h hrec hpar
      · simp only [hd, if_false, recording] at h
        have hne : depth - 1 ≠ depth := by omega
        simp only [Function.update_noteq hne] at h
        have hlog : cells_from_parent fdt (log ++
            [⟨node, fdt.get_name node, depth, ac (depth - 1), sc (depth - 1),
              (func fdt node (fdt.get_name node) depth (ac (depth - 1))
                (sc (depth - 1)) data).1⟩]) := by
          apply cells_from_parent_append fdt log _ hpar
          intro p _ hp
          exact hrec _ p hp
        have hrec2 : cells_recorded fdt
            (Function.update ac depth (device_tree_get_u32 fdt node "#address-cells"
              (if depth > 0 then ac (depth - 1) else 0)))
            (Function.update sc depth (device_tree_get_u32 fdt node "#size-cells"
              (if depth > 0 then sc (depth - 1) else 0)))
            (log ++ [⟨node, fdt.get_name node, depth, ac (depth - 1), sc (depth - 1),
              (func fdt node (fdt.get_name node) depth (ac (depth - 1))
                (sc (depth - 1)) data).1⟩]) := by
          intro e p hp
          rw [last_at_depth_append] at hp
          by_cases he : depth = e
          · subst he
            simp only [if_true, Option.some.injEq] at hp
            subst hp
            simp only [Function.update_same]
            exact ⟨rfl, rfl⟩
          · simp only [he, if_false] at hp
            have he2 : e ≠ depth := fun x => he x.symm
            simp only [Function.update_noteq he2]
            exact hrec e p hp
        generalize device_tree_get_u32 fdt node "#address-cells"
          (if depth > 0 then ac (depth - 1) else 0) = va at h hrec2
        generalize device_tree_get_u32 fdt node "#size-cells"
          (if depth > 0 then sc (depth - 1) else 0) = vs at h hrec2
        split_ifs at h with hr
        · simp only [Option.some.injEq, Prod.mk.injEq] at h
          obtain ⟨-, -, rfl⟩ := h
          exact hlog
        · exact ih _ _ _ _ _ _ ret d calls h hrec2 hlog
    · simp only [hc, if_false, Option.some.injEq, Prod.mk.injEq] at h
      obtain ⟨-, -, rfl⟩ := h
      exact hpar

/-- When `fdt_next_node` never raises the depth by more than one, every call below
the root has an earlier call one level up. -/
theorem for_each_node_loop_parents {σ : Type} (fdt : Fdt) (func : device_tree_node_func σ)
    (hstep : ∀ node depth, (fdt.next_node node depth).2 ≤ depth + 1)
    (fuel : Nat) : ∀ (node depth : Int) (ac sc : Int → Nat) (data : σ) (log : List dt_call)
      (ret : Int) (d : σ) (calls : List dt_call),
    for_each_node_loop fdt (recording func) fuel node depth ac sc (data, log) =
      some (ret, (d, calls)) →
    (∀ e : Int, 0 ≤ e → e < depth → e < DEVICE_TREE_MAX_DEPTH →
      ∃ p, last_at_depth log e = some p) →
    parents_called log → parents_called calls := by
  induction fuel with
  | zero =>
    intro node depth ac sc data log ret d calls h
    simp [for_each_node_loop] at h
  | succ f ih =>
    intro node depth ac sc data log ret d calls h hlev hpar
    rw [for_each_node_loop] at h
    by_cases hc : node ≥ 0 ∧ depth ≥ 0
    · simp only [hc, and_self, if_true] at h
      have hs := hstep node depth
      by_cases hd : depth ≥ DEVICE_TREE_MAX_DEPTH
      · simp only [hd, if_true] at h
        refine ih _ _ ac sc data log ret d calls h ?_ hpar
        intro e e0 e1 e2
        exact hlev e e0 (by omega) e2
      · simp only [hd, if_false, recording] at h
        have hne : depth - 1 ≠ depth := by omega
        simp only [Function.update_noteq hne] at h
        have hlog : parents_called (log ++
            [⟨node, fdt.get_name node, depth, ac (depth - 1), sc (depth - 1),
              (func fdt node (fdt.get_name node) depth (ac (depth - 1))
                (sc (depth - 1)) data).1⟩]) := by
          apply parents_called_append log _ hpar
          intro h1
          exact hlev (depth - 1) (by simpa using h1) (by omega)
            (by unfold DEVICE_TREE_MAX_DEPTH at hd ⊢; omega)
        generalize device_tree_get_u32 fdt node "#address-cells"
          (if depth > 0 then ac (depth - 1) else 0) = va at h
        generalize device_tree_get_u32 fdt node "#size-cells"
          (if depth > 0 then sc (depth - 1) else 0) = vs at h
        split_ifs at h with hr
        · simp only [Option.some.injEq, Prod.mk.injEq] at h
          obtain ⟨-, -, rfl⟩ := h
          exact hlog
        · refine ih _ _ _ _ _ _ ret d calls h ?_ hlog
          intro e e0 e1 e2
          rw [last_at_depth_append]
          by_cases he : depth = e
          · simp only [he, if_true]
            exact ⟨_, rfl⟩
          · simp only [he, if_false]
            exact hlev e e0 (by omega) e2
    · simp only [hc, if_false, Option.some.injEq, Prod.mk.injEq] at h
      obtain ⟨-, -, rfl⟩ := h
      exact hpar

/-- Claim C22.  Let `device_tree_for_each_node` return, its calls being recorded.
For every call `c` at a depth `d >= 1` and the latest earlier call `p` at depth
`d - 1`, the address-cell and size-cell counts passed to `c` are the values recorded
for depth `d - 1` when `p` was made: the `#address-cells` / `#size-cells` of `p`'s
node when `fdt_get_property` finds the property with a length field of at least 4,
and otherwise what `p` was passed itself (0 when `p` is at depth 0); the properties
of `c`'s own node do not enter.  When `fdt_next_node` never raises the depth by
more than one, such a call `p` exists for every call below the root. -/
theorem device_tree_for_each_node_parent_cells {σ : Type} (fdt : Fdt)
    (func : device_tree_node_func σ) (data : σ) (address_cells size_cells : Int → Nat)
    (fuel : Nat) (ret : Int) (d : σ) (calls : List dt_call)
    (h : device_tree_for_each_node fdt (recording func) (data, []) address_cells
      size_cells fuel = some (ret, (d, calls))) :
    (∀ (i : Nat) (c p : dt_call), calls[i]? = some c → 1 ≤ c.depth →
      last_at_depth (calls.take i) (c.depth - 1) = some p →
      p.depth = c.depth - 1 ∧
      c.address_cells = device_tree_get_u32 fdt p.node "#address-cells"
        (if p.depth > 0 then p.address_cells else 0) ∧
      c.size_cells = device_tree_get_u32 fdt p.node "#size-cells"
        (if p.depth > 0 then p.size_cells else 0)) ∧
    (∀ (node : Int) (name : String) (dflt : Nat),
      device_tree_get_u32 fdt node name dflt =
        match fdt.get_property node name with
        | none => dflt
        | some prop => if prop.len < 4 then dflt else fdt32_at prop.data) ∧
    ((∀ node depth, (fdt.next_node node depth).2 ≤ depth + 1) →
      ∀ (i : Nat) (c : dt_call), calls[i]? = some c → 1 ≤ c.depth →
        ∃ p, last_at_depth (calls.take i) (c.depth - 1) = some p) := by
  unfold device_tree_for_each_node at h
  refine ⟨?_, fun _ _ _ => rfl, ?_⟩
  · intro i c p hc hd hp
    have hcells := for_each_node_loop_cells fdt func fuel 0 0 address_cells size_cells
      data [] ret d calls h
      (fun e p hp => by simp [last_at_depth] at hp)
      (fun i c p hc => by simp at hc)
    exact ⟨last_at_depth_depth _ _ _ hp, hcells i c p hc hd hp⟩
  · intro hstep
    exact for_each_node_loop_parents fdt func hstep fuel 0 0 address_cells size_cells
      data [] ret d calls h (fun e e0 e1 _ => by omega) (fun i c hc => by simp at hc)

/-- Witness for C22: on `cells_fdt` the root is passed what lies before the arrays
(9 here), its child the root's own counts 2 and 1, although that child has
`#address-cells = 1` itself, and the nodes below are passed 1 and 1. -/
theorem device_tree_for_each_node_parent_cells_witness :
    device_tree_for_each_node cells_fdt (recording count_calls) (0, [])
      (fun _ => 9) (fun _ => 9) 10 = some (0, (4, cells_calls)) ∧
    cells_calls.map (fun c => (c.depth, c.address_cells, c.size_cells)) =
      [(0, 9, 9), (1, 2, 1), (2, 1, 1), (3, 1, 1)] ∧
    ((⟨0, [], 0, 9, 9, 0⟩ : dt_call).depth = (⟨1, [], 1, 2, 1, 0⟩ : dt_call).depth - 1 ∧
      (⟨1, [], 1, 2, 1, 0⟩ : dt_call).address_cells =
        device_tree_get_u32 cells_fdt (⟨0, [], 0, 9, 9, 0⟩ : dt_call).node "#address-cells"
          (if (⟨0, [], 0, 9, 9, 0⟩ : dt_call).depth > 0
            then (⟨0, [], 0, 9, 9, 0⟩ : dt_call).address_cells else 0) ∧
      (⟨1, [], 1, 2, 1, 0⟩ : dt_call).size_cells =
        device_tree_get_u32 cells_fdt (⟨0, [], 0, 9, 9, 0⟩ : dt_call).node "#size-cells"
          (if (⟨0, [], 0, 9, 9, 0⟩ : dt_call).depth > 0
            then (⟨0, [], 0, 9, 9, 0⟩ : dt_call).size_cells else 0)) :=
  ⟨by decide, by decide,
   (device_tree_for_each_node_parent_cells cells_fdt count_calls 0 (fun _ => 9)
     (fun _ => 9) 10 0 4 cells_calls (by decide)).1 1 ⟨1, [], 1, 2, 1, 0⟩ ⟨0, [], 0, 9, 9, 0⟩
     (by decide) (by decide) (by decide)⟩

/-! ## Register cells -/

theorem rd_fdt32_wr_fdt32_same (m : Mem) (a v : Nat) (hv : v < 2 ^ 32) :
    rd_fdt32 (wr_fdt32 m a v) a = v := by
  unfold rd_fdt32 wr_fdt32 fdt32_at wr8
  have e0 : (a + 0 = a + 3) = False := by simp
  have e1 : (a + 1 = a + 3) = False := by simp
  have e2 : (a + 2 = a + 3) = False := by simp
  have e3 : (a + 0 = a + 2) = False := by simp
  have e4 : (a + 1 = a + 2) = False := by simp
  have e5 : (a + 0 = a + 1) = False := by simp
  have e6 : (a + 0 = a) = True := by simp
  simp only [e0, e1, e2, e3, e4, e5, e6, if_true, if_false, Nat.mod_mod]
  omega

theorem rd_fdt32_wr_fdt32_other (m : Mem) (a b v : Nat) (h : a + 4 ≤ b ∨ b + 4 ≤ a) :
    rd_fdt32 (wr_fdt32 m a v) b = rd_fdt32 m b := by
  unfold rd_fdt32 wr_fdt32 fdt32_at wr8
  have e : ∀ i j, i < 4 → j < 4 → (b + i = a + j) = False := by
    intro i j hi hj
    simp only [eq_iff_iff, iff_false]
    omega
  have e0 := e 0 0 (by omega) (by omega)
  simp only [Nat.add_zero] at e0
  have f : ∀ i, i < 4 → (b + i = a) = False := by
    intro i hi
    simp only [eq_iff_iff, iff_false]
    omega
  simp only [e 0 1, e 0 2, e 0 3, e 1 1, e 1 2, e 1 3, e 2 1, e 2 2, e 2 3, e 3 1, e 3 2,
    e 3 3, f 0, f 1, f 2, f 3, if_false, Nat.lt_add_one, Nat.reduceLT]

theorem or_low_word (x y : Nat) (hy : y < 2 ^ 32) : (x * 2 ^ 32) ||| y = x * 2 ^ 32 + y := by
  rw [Nat.mul_comm]
  exact (Nat.mul_add_lt_is_or hy x).symm

/-- Reading back what `set_val` wrote, for at most two cells and with whatever is
written next lying behind these cells. -/
theorem get_val_set_val (m : Mem) (cell cells val : Nat) (hc : cells ≤ 2)
    (hv : val < 2 ^ 64) :
    get_val (set_val m cell cells val).1 cell cells =
      some (cell + 4 * cells, val % 2 ^ (32 * cells)) ∧
    (set_val m cell cells val).2 = cell + 4 * cells ∧
    (∀ b, cell + 4 * cells ≤ b → rd_fdt32 (set_val m cell cells val).1 b = rd_fdt32 m b) ∧
    (∀ b, b + 4 ≤ cell → rd_fdt32 (set_val m cell cells val).1 b = rd_fdt32 m b) := by
  have h0 : ∀ x : Nat, (0 <<< 32 % 2 ^ 64 ||| x) = x := by
    intro x
    simp
  have hlo : val % 2 ^ 32 < 2 ^ 32 := Nat.mod_lt _ (by decide)
  have hhi : val / 2 ^ 32 % 2 ^ 32 < 2 ^ 32 := Nat.mod_lt _ (by decide)
  interval_cases cells
  · refine ⟨?_, rfl, fun b _ => rfl, fun b _ => rfl⟩
    simp [get_val, get_val_loop, set_val, set_val_loop, Nat.mod_one]
  · refine ⟨?_, rfl, ?_, ?_⟩
    · simp only [get_val, get_val_loop, set_val, set_val_loop, Nat.mod_eq_of_lt hv,
        Nat.mul_zero, Nat.add_zero, rd_fdt32_wr_fdt32_same _ _ _ hlo, h0]
      simp
    · intro b hb
      simp only [set_val, set_val_loop, Nat.mul_zero, Nat.add_zero]
      exact rd_fdt32_wr_fdt32_other _ _ _ _ (Or.inl (by omega))
    · intro b hb
      simp only [set_val, set_val_loop, Nat.mul_zero, Nat.add_zero]
      exact rd_fdt32_wr_fdt32_other _ _ _ _ (Or.inr (by omega))
  · refine ⟨?_, rfl, ?_, ?_⟩
    · simp only [get_val, get_val_loop, set_val, set_val_loop, Nat.mod_eq_of_lt hv,
        Nat.mul_zero, Nat.add_zero, Nat.mul_one, h0]
      rw [rd_fdt32_wr_fdt32_same _ _ _ hhi,
        rd_fdt32_wr_fdt32_other _ cell (cell + 4) _ (Or.inl (by omega)),
        rd_fdt32_wr_fdt32_same _ _ _ hlo]
      simp only [Nat.shiftLeft_eq]
      have e1 : val / 2 ^ 32 % 2 ^ 32 * 2 ^ 32 % 2 ^ 64 = val / 2 ^ 32 % 2 ^ 32 * 2 ^ 32 := by
        omega
      rw [e1, or_low_word _ _ hlo]
      simp
      omega
    · intro b hb
      simp only [set_val, set_val_loop, Nat.mul_zero, Nat.add_zero, Nat.mul_one]
      rw [rd_fdt32_wr_fdt32_other _ _ _ _ (Or.inl (by omega)),
        rd_fdt32_wr_fdt32_other _ _ _ _ (Or.inl (by omega))]
    · intro b hb
      simp only [set_val, set_val_loop, Nat.mul_zero, Nat.add_zero, Nat.mul_one]
      rw [rd_fdt32_wr_fdt32_other _ _ _ _ (Or.inr (by omega)),
        rd_fdt32_wr_fdt32_other _ _ _ _ (Or.inr (by omega))]

theorem get_val_congr (m n : Mem) (cell cells : Nat) (hc : cells ≤ 2)
    (h : ∀ b, cell ≤ b → b + 4 ≤ cell + 4 * cells → rd_fdt32 m b = rd_fdt32 n b) :
    get_val m cell cells = get_val n cell cells := by
  interval_cases cells
  · rfl
  · simp only [get_val, get_val_loop, h cell (le_refl _) (by omega)]
  · simp only [get_val, get_val_loop, h cell (le_refl _) (by omega),
      h (cell + 4) (by omega) (by omega)]

/-- Claim C28.  For all cell counts `address_cells`, `size_cells` in `{0, 1, 2}` and
all 64-bit values `start`, `size`: after `device_tree_set_reg` at the byte address
`cell`, `device_tree_get_reg` from the same address yields
`start mod 2^(32 * address_cells)` and `size mod 2^(32 * size_cells)`, and both leave
the cursor `4 * (address_cells + size_cells)` bytes on, that is
`address_cells + size_cells` cells of 32 bits. -/
theorem device_tree_reg_round_trip (m : Mem) (cell address_cells size_cells start size : Nat)
    (hac : address_cells ≤ 2) (hsc : size_cells ≤ 2)
    (hstart : start < 2 ^ 64) (hsize : size < 2 ^ 64) :
    device_tree_get_reg (device_tree_set_reg m cell address_cells size_cells start size).1
        cell address_cells size_cells =
      some (cell + 4 * (address_cells + size_cells), start % 2 ^ (32 * address_cells),
        size % 2 ^ (32 * size_cells)) ∧
    (device_tree_set_reg m cell address_cells size_cells start size).2 =
      cell + 4 * (address_cells + size_cells) := by
  obtain ⟨a1, a2, -, -⟩ := get_val_set_val m cell address_cells start hac hstart
  obtain ⟨b1, b2, -, b4⟩ := get_val_set_val (set_val m cell address_cells start).1
    (cell + 4 * address_cells) size_cells size hsc hsize
  have e : device_tree_set_reg m cell address_cells size_cells start size =
      set_val (set_val m cell address_cells start).1 (cell + 4 * address_cells)
        size_cells size := rfl
  rw [e]
  constructor
  · unfold device_tree_get_reg
    rw [get_val_congr _ (set_val m cell address_cells start).1 cell address_cells hac
      (fun b _ hb => b4 b hb), a1]
    simp only
    rw [b1]
    simp only [Nat.mul_add, Nat.add_assoc]
  · rw [b2]
    omega

/-- Witness for C28: two address cells and one size cell. -/
theorem device_tree_reg_round_trip_witness :
    device_tree_get_reg
        (device_tree_set_reg (fun _ => 0) 16 2 1 0x123456789abcdef0 0x1122334455667788).1
        16 2 1 =
      some (16 + 4 * (2 + 1), 0x123456789abcdef0 % 2 ^ (32 * 2),
        0x1122334455667788 % 2 ^ (32 * 1)) ∧
    (device_tree_set_reg (fun _ => 0) 16 2 1 0x123456789abcdef0 0x1122334455667788).2 =
      16 + 4 * (2 + 1) :=
  device_tree_reg_round_trip (fun _ => 0) 16 2 1 0x123456789abcdef0 0x1122334455667788
    (by decide) (by decide) (by decide) (by decide)

/-- With three cells `get_val` calls `early_panic`, while `set_val` writes them. -/
theorem get_val_three_cells (m : Mem) (cell : Nat) :
    get_val m cell 3 = none ∧ (set_val m cell 3 0).2 = cell + 12 := by
  constructor <;> rfl

/-! ## Chunks of the loader loops -/

/-- A chunk taken while bytes are left: at least one byte, no more than are left,
and ending inside the page in which it starts. -/
theorem chunk_size_bounds (left pa : Nat) (h : 0 < left) :
    pa &&& (PAGE_SIZE - 1) = pa % 4096 ∧ 1 ≤ chunk_size left pa ∧
    chunk_size left pa ≤ left ∧ pa % 4096 + chunk_size left pa ≤ 4096 := by
  rw [chunk_size_eq]
  refine ⟨page_mask pa, ?_, ?_, ?_⟩ <;> omega

/-- One iteration of the copy loop. -/
theorem load_copy_step (env : Env) (image : Mem) (parray : Nat → Nat) (v_start phdr : Nat)
    (fuel done : Nat) (w : World) (hlt : done < p_filesz image phdr) :
    load_copy env image parray v_start phdr (fuel + 1) done w =
      if env.map_foreign_range (w.count Hcall.is_map) = true then
        load_copy env image parray v_start phdr fuel
          (done + chunk_size (p_filesz image phdr - done) (load_pa image phdr v_start done))
          ((w.issue (.map_foreign_range
              (parray (load_pa image phdr v_start done >>> PAGE_SHIFT)))).store
            (parray (load_pa image phdr v_start done >>> PAGE_SHIFT))
            (memcpy (w.mem (parray (load_pa image phdr v_start done >>> PAGE_SHIFT)))
              (load_pa image phdr v_start done &&& (PAGE_SIZE - 1)) image
              (p_offset image phdr + done)
              (chunk_size (p_filesz image phdr - done) (load_pa image phdr v_start done))))
      else
        (false, done, w.issue (.map_foreign_range
          (parray (load_pa image phdr v_start done >>> PAGE_SHIFT)))) := by
  rw [load_copy]
  simp only [hlt, if_true, xc_map_foreign_range]
  by_cases hm : env.map_foreign_range (w.count Hcall.is_map) = true
  · simp only [hm, Bool.not_true, Bool.false_eq_true, if_false, if_true]
    rfl
  · simp only [Bool.not_eq_true] at hm
    simp only [hm, Bool.not_false, if_true, Bool.false_eq_true, if_false]

/-- One iteration of the zero-fill loop. -/
theorem load_zero_step (env : Env) (image : Mem) (parray : Nat → Nat) (v_start phdr : Nat)
    (fuel done : Nat) (w : World) (hlt : done < p_memsz image phdr) :
    load_zero env image parray v_start phdr (fuel + 1) done w =
      if env.map_foreign_range (w.count Hcall.is_map) = true then
        load_zero env image parray v_start phdr fuel
          (done + chunk_size (p_memsz image phdr - done) (load_pa image phdr v_start done))
          ((w.issue (.map_foreign_range
              (parray (load_pa image phdr v_start done >>> PAGE_SHIFT)))).store
            (parray (load_pa image phdr v_start done >>> PAGE_SHIFT))
            (memset (w.mem (parray (load_pa image phdr v_start done >>> PAGE_SHIFT)))
              (load_pa image phdr v_start done &&& (PAGE_SIZE - 1)) 0
              (chunk_size (p_memsz image phdr - done) (load_pa image phdr v_start done))))
      else
        (false, done, w.issue (.map_foreign_range
          (parray (load_pa image phdr v_start done >>> PAGE_SHIFT)))) := by
  rw [load_zero]
  simp only [hlt, if_true, xc_map_foreign_range]
  by_cases hm : env.map_foreign_range (w.count Hcall.is_map) = true
  · simp only [hm, Bool.not_true, Bool.false_eq_true, if_false, if_true]
    rfl
  · simp only [Bool.not_eq_true] at hm
    simp only [hm, Bool.not_false, if_true, Bool.false_eq_true, if_false]

/-- The copy loop ends within `p_filesz - done` iterations: it either stops at a
failed mapping before `p_filesz`, or ends with `done = p_filesz` (with the `done` it
was entered with, if that is beyond), and more iterations allowed change nothing. -/
theorem load_copy_terminates (env : Env) (image : Mem) (parray : Nat → Nat)
    (v_start phdr : Nat) (fuel : Nat) : ∀ (done : Nat) (w : World),
    p_filesz image phdr - done ≤ fuel →
    ((load_copy env image parray v_start phdr fuel done w).1 = true →
      (load_copy env image parray v_start phdr fuel done w).2.1 =
        max done (p_filesz image phdr)) ∧
    ((load_copy env image parray v_start phdr fuel done w).1 = false →
      done ≤ (load_copy env image parray v_start phdr fuel done w).2.1 ∧
      (load_copy env image parray v_start phdr fuel done w).2.1 < p_filesz image phdr) ∧
    ∀ more, load_copy env image parray v_start phdr (fuel + more) done w =
      load_copy env image parray v_start phdr fuel done w := by
  induction fuel with
  | zero =>
    intro done w h
    have hn : ¬ done < p_filesz image phdr := by omega
    have e0 : load_copy env image parray v_start phdr 0 done w = (true, done, w) := rfl
    refine ⟨fun _ => ?_, fun hf => ?_, fun more => ?_⟩
    · rw [e0]; simp only; omega
    · rw [e0] at hf; simp at hf
    · cases more with
      | zero => rfl
      | succ k =>
        rw [Nat.zero_add, e0, load_copy]
        simp only [hn, if_false]
  | succ f ih =>
    intro done w h
    by_cases hlt : done < p_filesz image phdr
    · have hb := chunk_size_bounds (p_filesz image phdr - done)
        (load_pa image phdr v_start done) (by omega)
      have hstep := load_copy_step env image parray v_start phdr f done w hlt
      by_cases hm : env.map_foreign_range (w.count Hcall.is_map) = true
      · simp only [hm, if_true] at hstep
        obtain ⟨i1, i2, i3⟩ := ih
          (done + chunk_size (p_filesz image phdr - done) (load_pa image phdr v_start done))
          ((w.issue (.map_foreign_range
              (parray (load_pa image phdr v_start done >>> PAGE_SHIFT)))).store
            (parray (load_pa image phdr v_start done >>> PAGE_SHIFT))
            (memcpy (w.mem (parray (load_pa image phdr v_start done >>> PAGE_SHIFT)))
              (load_pa image phdr v_start done &&& (PAGE_SIZE - 1)) image
              (p_offset image phdr + done)
              (chunk_size (p_filesz image phdr - done) (load_pa image phdr v_start done))))
          (by omega)
        rw [hstep]
        refine ⟨fun ht => ?_, fun hf => ?_, fun more => ?_⟩
        · rw [i1 ht]; omega
        · have := i2 hf; omega
        · have e : f + 1 + more = (f + more) + 1 := by omega
          rw [e, load_copy_step env image parray v_start phdr (f + more) done w hlt]
          simp only [hm, if_true]
          exact i3 more
      · have hm2 : env.map_foreign_range (w.count Hcall.is_map) = false := by
          simpa using hm
        simp only [hm2, Bool.false_eq_true, if_false] at hstep
        rw [hstep]
        refine ⟨fun ht => by simp at ht, fun _ => ⟨le_refl _, hlt⟩, fun more => ?_⟩
        have e : f + 1 + more = (f + more) + 1 := by omega
        rw [e, load_copy_step env image parray v_start phdr (f + more) done w hlt]
        simp only [hm2, Bool.false_eq_true, if_false]
    · have e : ∀ k, load_copy env image parray v_start phdr (k + 1) done w =
          (true, done, w) := by
        intro k
        rw [load_copy]
        simp only [hlt, if_false]
      refine ⟨fun _ => ?_, fun hf => ?_, fun more => ?_⟩
      · rw [e]; simp only; omega
      · rw [e] at hf; simp at hf
      · have e2 : f + 1 + more = (f + more) + 1 := by omega
        rw [e2, e, e]

/-- The zero-fill loop ends within `p_memsz - done` iterations. -/
theorem load_zero_terminates (env : Env) (image : Mem) (parray : Nat → Nat)
    (v_start phdr : Nat) (fuel : Nat) : ∀ (done : Nat) (w : World),
    p_memsz image phdr - done ≤ fuel →
    ((load_zero env image parray v_start phdr fuel done w).1 = true →
      (load_zero env image parray v_start phdr fuel done w).2.1 =
        max done (p_memsz image phdr)) ∧
    ((load_zero env image parray v_start phdr fuel done w).1 = false →
      done ≤ (load_zero env image parray v_start phdr fuel done w).2.1 ∧
      (load_zero env image parray v_start phdr fuel done w).2.1 < p_memsz image phdr) ∧
    ∀ more, load_zero env image parray v_start phdr (fuel + more) done w =
      load_zero env image parray v_start phdr fuel done w := by
  induction fuel with
  | zero =>
    intro done w h
    have hn : ¬ done < p_memsz image phdr := by omega
    have e0 : load_zero env image parray v_start phdr 0 done w = (true, done, w) := rfl
    refine ⟨fun _ => ?_, fun hf => ?_, fun more => ?_⟩
    · rw [e0]; simp only; omega
    · rw [e0] at hf; simp at hf
    · cases more with
      | zero => rfl
      | succ k =>
        rw [Nat.zero_add, e0, load_zero]
        simp only [hn, if_false]
  | succ f ih =>
    intro done w h
    by_cases hlt : done < p_memsz image phdr
    · have hb := chunk_size_bounds (p_memsz image phdr - done)
        (load_pa image phdr v_start done) (by omega)
      have hstep := load_zero_step env image parray v_start phdr f done w hlt
      by_cases hm : env.map_foreign_range (w.count Hcall.is_map) = true
      · simp only [hm, if_true] at hstep
        obtain ⟨i1, i2, i3⟩ := ih
          (done + chunk_size (p_memsz image phdr - done) (load_pa image phdr v_start done))
          ((w.issue (.map_foreign_range
              (parray (load_pa image phdr v_start done >>> PAGE_SHIFT)))).store
            (parray (load_pa image phdr v_start done >>> PAGE_SHIFT))
            (memset (w.mem (parray (load_pa image phdr v_start done >>> PAGE_SHIFT)))
              (load_pa image phdr v_start done &&& (PAGE_SIZE - 1)) 0
              (chunk_size (p_memsz image phdr - done) (load_pa image phdr v_start done))))
          (by omega)
        rw [hstep]
        refine ⟨fun ht => ?_, fun hf => ?_, fun more => ?_⟩
        · rw [i1 ht]; omega
        · have := i2 hf; omega
        · have e : f + 1 + more = (f + more) + 1 := by omega
          rw [e, load_zero_step env image parray v_start phdr (f + more) done w hlt]
          simp only [hm, if_true]
          exact i3 more
      · have hm2 : env.map_foreign_range (w.count Hcall.is_map) = false := by
          simpa using hm
        simp only [hm2, Bool.false_eq_true, if_false] at hstep
        rw [hstep]
        refine ⟨fun ht => by simp at ht, fun _ => ⟨le_refl _, hlt⟩, fun more => ?_⟩
        have e : f + 1 + more = (f + more) + 1 := by omega
        rw [e, load_zero_step env image parray v_start phdr (f + more) done w hlt]
        simp only [hm2, Bool.false_eq_true, if_false]
    · have e : ∀ k, load_zero env image parray v_start phdr (k + 1) done w =
          (true, done, w) := by
        intro k
        rw [load_zero]
        simp only [hlt, if_false]
      refine ⟨fun _ => ?_, fun hf => ?_, fun more => ?_⟩
      · rw [e]; simp only; omega
      · rw [e] at hf; simp at hf
      · have e2 : f + 1 + more = (f + more) + 1 := by omega
        rw [e2, e, e]

/-- Claim C23.  For every program header, hence for every loadable segment, of every
image, with any load base and any behaviour of the mappings:
every iteration of the copy loop (entered with `done < p_filesz`) and of the
zero-fill loop (entered with `done < p_memsz`) takes a chunk that starts at page
offset `pa mod 4096`, has a length `c` with `1 <= c` and `pa mod 4096 + c <= 4096`,
leaves the mapped page unchanged outside these `c` bytes, and goes on with
`done + c`, which does not pass the bound of the loop; the copy loop run from
`done = 0` needs no more than `p_filesz` iterations and ends with `done = p_filesz`
unless a mapping fails before, and the zero-fill loop run from there needs no more
than `p_memsz` iterations and ends with `done` at `p_memsz` (or where it was entered,
if that is beyond) unless a mapping fails before. -/
theorem loadelfimage_chunks_stay_in_page (env : Env) (image : Mem) (parray : Nat → Nat)
    (v_start phdr : Nat) :
    (∀ (fuel done : Nat) (w : World), done < p_filesz image phdr →
      load_pa image phdr v_start done &&& (PAGE_SIZE - 1) =
        load_pa image phdr v_start done % 4096 ∧
      1 ≤ chunk_size (p_filesz image phdr - done) (load_pa image phdr v_start done) ∧
      load_pa image phdr v_start done % 4096 +
        chunk_size (p_filesz image phdr - done) (load_pa image phdr v_start done) ≤ 4096 ∧
      done + chunk_size (p_filesz image phdr - done) (load_pa image phdr v_start done) ≤
        p_filesz image phdr ∧
      (∀ (page : Mem) (x : Nat),
        ¬ (load_pa image phdr v_start done % 4096 ≤ x ∧
          x < load_pa image phdr v_start done % 4096 +
            chunk_size (p_filesz image phdr - done) (load_pa image phdr v_start done)) →
        memcpy page (load_pa image phdr v_start done &&& (PAGE_SIZE - 1)) image
          (p_offset image phdr + done)
          (chunk_size (p_filesz image phdr - done) (load_pa image phdr v_start done)) x =
          page x) ∧
      load_copy env image parray v_start phdr (fuel + 1) done w =
        if env.map_foreign_range (w.count Hcall.is_map) = true then
          load_copy env image parray v_start phdr fuel
            (done + chunk_size (p_filesz image phdr - done) (load_pa image phdr v_start done))
            ((w.issue (.map_foreign_range
                (parray (load_pa image phdr v_start done >>> PAGE_SHIFT)))).store
              (parray (load_pa image phdr v_start done >>> PAGE_SHIFT))
              (memcpy (w.mem (parray (load_pa image phdr v_start done >>> PAGE_SHIFT)))
                (load_pa image phdr v_start done &&& (PAGE_SIZE - 1)) image
                (p_offset image phdr + done)
                (chunk_size (p_filesz image phdr - done)
                  (load_pa image phdr v_start done))))
        else
          (false, done, w.issue (.map_foreign_range
            (parray (load_pa image phdr v_start done >>> PAGE_SHIFT))))) ∧
    (∀ (fuel done : Nat) (w : World), done < p_memsz image phdr →
      load_pa image phdr v_start done &&& (PAGE_SIZE - 1) =
        load_pa image phdr v_start done % 4096 ∧
      1 ≤ chunk_size (p_memsz image phdr - done) (load_pa image phdr v_start done) ∧
      load_pa image phdr v_start done % 4096 +
        chunk_size (p_memsz image phdr - done) (load_pa image phdr v_start done) ≤ 4096 ∧
      done + chunk_size (p_memsz image phdr - done) (load_pa image phdr v_start done) ≤
        p_memsz image phdr ∧
      (∀ (page : Mem) (x : Nat),
        ¬ (load_pa image phdr v_start done % 4096 ≤ x ∧
          x < load_pa image phdr v_start done % 4096 +
            chunk_size (p_memsz image phdr - done) (load_pa image phdr v_start done)) →
        memset page (load_pa image phdr v_start done &&& (PAGE_SIZE - 1)) 0
          (chunk_size (p_memsz image phdr - done) (load_pa image phdr v_start done)) x =
          page x) ∧
      load_zero env image parray v_start phdr (fuel + 1) done w =
        if env.map_foreign_range (w.count Hcall.is_map) = true then
          load_zero env image parray v_start phdr fuel
            (done + chunk_size (p_memsz image phdr - done) (load_pa image phdr v_start done))
            ((w.issue (.map_foreign_range
                (parray (load_pa image phdr v_start done >>> PAGE_SHIFT)))).store
              (parray (load_pa image phdr v_start done >>> PAGE_SHIFT))
              (memset (w.mem (parray (load_pa image phdr v_start done >>> PAGE_SHIFT)))
                (load_pa image phdr v_start done &&& (PAGE_SIZE - 1)) 0
                (chunk_size (p_memsz image phdr - done)
                  (load_pa image phdr v_start done))))
        else
          (false, done, w.issue (.map_foreign_range
            (parray (load_pa image phdr v_start done >>> PAGE_SHIFT))))) ∧
    (∀ (w : World),
      ((load_copy env image parray v_start phdr (p_filesz image phdr) 0 w).1 = true →
        (load_copy env image parray v_start phdr (p_filesz image phdr) 0 w).2.1 =
          p_filesz image phdr) ∧
      ((load_copy env image parray v_start phdr (p_filesz image phdr) 0 w).1 = false →
        (load_copy env image parray v_start phdr (p_filesz image phdr) 0 w).2.1 <
          p_filesz image phdr) ∧
      ∀ more, load_copy env image parray v_start phdr (p_filesz image phdr + more) 0 w =
        load_copy env image parray v_start phdr (p_filesz image phdr) 0 w) ∧
    (∀ (done : Nat) (w : World),
      ((load_zero env image parray v_start phdr (p_memsz image phdr) done w).1 = true →
        (load_zero env image parray v_start phdr (p_memsz image phdr) done w).2.1 =
          max done (p_memsz image phdr)) ∧
      ((load_zero env image parray v_start phdr (p_memsz image phdr) done w).1 = false →
        done ≤ (load_zero env image parray v_start phdr (p_memsz image phdr) done w).2.1 ∧
        (load_zero env image parray v_start phdr (p_memsz image phdr) done w).2.1 <
          p_memsz image phdr) ∧
      ∀ more, load_zero env image parray v_start phdr (p_memsz image phdr + more) done w =
        load_zero env image parray v_start phdr (p_memsz image phdr) done w) := by
  refine ⟨?_, ?_, ?_, ?_⟩
  · intro fuel done w hlt
    obtain ⟨b1, b2, b3, b4⟩ := chunk_size_bounds (p_filesz image phdr - done)
      (load_pa image phdr v_start done) (by omega)
    refine ⟨b1, b2, b4, by omega, ?_, load_copy_step env image parray v_start phdr fuel
      done w hlt⟩
    intro page x hx
    unfold memcpy
    rw [b1]
    simp only [hx, if_false]
  · intro fuel done w hlt
    obtain ⟨b1, b2, b3, b4⟩ := chunk_size_bounds (p_memsz image phdr - done)
      (load_pa image phdr v_start done) (by omega)
    refine ⟨b1, b2, b4, by omega, ?_, load_zero_step env image parray v_start phdr fuel
      done w hlt⟩
    intro page x hx
    unfold memset
    rw [b1]
    simp only [hx, if_false]
  · intro w
    obtain ⟨i1, i2, i3⟩ := load_copy_terminates env image parray v_start phdr
      (p_filesz image phdr) 0 w (by omega)
    refine ⟨fun ht => ?_, fun hf => (i2 hf).2, i3⟩
    rw [i1 ht]
    omega
  · intro done w
    exact load_zero_terminates env image parray v_start phdr (p_memsz image phdr) done w
      (by omega)

/-- Witness for C23: the first iteration of the copy loop for the segment of the
sample image, whose header is at offset 52: a chunk of 8 bytes at page offset 0. -/
theorem loadelfimage_chunks_stay_in_page_witness :
    0 < p_filesz sample_image 52 ∧
    load_pa sample_image 52 0 0 % 4096 = 0 ∧
    chunk_size (p_filesz sample_image 52 - 0) (load_pa sample_image 52 0 0) = 8 ∧
    1 ≤ chunk_size (p_filesz sample_image 52 - 0) (load_pa sample_image 52 0 0) ∧
    load_pa sample_image 52 0 0 % 4096 +
      chunk_size (p_filesz sample_image 52 - 0) (load_pa sample_image 52 0 0) ≤ 4096 :=
  ⟨by decide, by decide, by decide,
   ((loadelfimage_chunks_stay_in_page env_ok sample_image (fun i => i) 0 52).1 0 0 world0
     (by decide)).2.1,
   ((loadelfimage_chunks_stay_in_page env_ok sample_image (fun i => i) 0 52).1 0 0 world0
     (by decide)).2.2.1⟩

/-! ## Reserved pages and the memory map -/

/-- Claim C24, as the code has it.  For every requested size of at least 2 MiB (and
below 2^31 MiB): the low RAM entry written by `build_e820map` starts at `0x100000`
and ends, at `0x100000` plus its size, where page `shared_page_nr - 2` starts; the
pages `shared_page_nr - 2`, `shared_page_nr - 1`, `shared_page_nr` are consecutive and
end at `min(mem_size, 0xF0000000)`; and no address of these three pages lies in an
entry of type `E820_RAM`. -/
theorem reserved_pages_above_low_ram (memsize : Nat) (h2 : 2 ≤ memsize)
    (hm : memsize < 2 ^ 31) :
    (build_e820map e820_zero (v_end_of memsize)).e820entry 4 =
      ⟨0x100000, min (v_end_of memsize) HVM_BELOW_4G_RAM_END - 0x100000 - 3 * PAGE_SIZE,
        E820_RAM⟩ ∧
    0x100000 + ((build_e820map e820_zero (v_end_of memsize)).e820entry 4).size =
      ulong_sub (shared_page_nr_of (v_end_of memsize)) 2 * PAGE_SIZE ∧
    ulong_sub (shared_page_nr_of (v_end_of memsize)) 1 =
      ulong_sub (shared_page_nr_of (v_end_of memsize)) 2 + 1 ∧
    shared_page_nr_of (v_end_of memsize) =
      ulong_sub (shared_page_nr_of (v_end_of memsize)) 2 + 2 ∧
    (shared_page_nr_of (v_end_of memsize) + 1) * PAGE_SIZE =
      min (v_end_of memsize) HVM_BELOW_4G_RAM_END ∧
    ∀ e ∈ e820_entries (build_e820map e820_zero (v_end_of memsize)), e.type = E820_RAM →
      ∀ x, ulong_sub (shared_page_nr_of (v_end_of memsize)) 2 * PAGE_SIZE ≤ x →
        x < (shared_page_nr_of (v_end_of memsize) + 1) * PAGE_SIZE →
        ¬ (e.addr ≤ x ∧ x < e.addr + e.size) := by
  obtain ⟨e1, e2, e3⟩ := shared_page_nr_of_eq memsize (by omega) hm
  have hv := v_end_of_eq memsize hm
  have hlow : (build_e820map e820_zero (v_end_of memsize)).e820entry 4 =
      ⟨0x100000, min (v_end_of memsize) HVM_BELOW_4G_RAM_END - 0x100000 - 3 * PAGE_SIZE,
        E820_RAM⟩ := by
    rw [hv]
    by_cases hbig : memsize * 2 ^ 20 > 0xF0000000
    · have hmin : min (memsize * 2 ^ 20) 0xF0000000 = 0xF0000000 := by omega
      have hne : memsize * 2 ^ 20 - 0xF0000000 ≠ 0 := by omega
      simp only [build_e820map, e820_put, HVM_BELOW_4G_RAM_END, hbig, hne, hmin, if_true,
        PAGE_SIZE, ne_eq, not_false_eq_true]
      simp
    · have hmin : min (memsize * 2 ^ 20) 0xF0000000 = memsize * 2 ^ 20 := by omega
      simp only [build_e820map, e820_put, HVM_BELOW_4G_RAM_END, hbig, hmin, if_false,
        PAGE_SIZE, ne_eq, not_true_eq_false]
      simp
      omega
  refine ⟨hlow, ?_, ?_, ?_, ?_, ?_⟩
  · rw [hlow, e3, hv]
    simp only [HVM_BELOW_4G_RAM_END, PAGE_SIZE]
    omega
  · rw [e2, e3]; omega
  · rw [e3, e1]; omega
  · rw [e1, hv]
    simp only [HVM_BELOW_4G_RAM_END, PAGE_SIZE]
    omega
  · intro e he hram x hx1 hx2
    rw [e3] at hx1
    rw [e1] at hx2
    rw [e820_entries_eq, hv] at he
    simp only [PAGE_SIZE] at hx1 hx2
    have hsz : (min (memsize * 2 ^ 20) 0xF0000000 + 2 ^ 64 - 0x100000 - 3 * 4096) % 2 ^ 64 =
        min (memsize * 2 ^ 20) 0xF0000000 - 0x100000 - 3 * 4096 := by omega
    rw [hsz] at he
    simp only [List.mem_append, List.mem_cons, List.mem_singleton, List.not_mem_nil,
      or_false] at he
    rcases he with (he | he | he | he | he) | he
    · subst he
      simp only
      omega
    · subst he
      simp [E820_RAM, E820_RESERVED] at hram
    · subst he
      simp [E820_RAM, E820_ACPI] at hram
    · subst he
      simp [E820_RAM, E820_RESERVED] at hram
    · subst he
      simp only
      omega
    · by_cases hbig : memsize * 2 ^ 20 > 0xF0000000
      · simp only [hbig, if_true, List.mem_singleton] at he
        subst he
        simp only
        omega
      · exfalso
        simp only [hbig, if_false, List.not_mem_nil] at he

/-- Witness for C24: a 2 MiB guest, whose reserved pages are 509, 510 and 511. -/
theorem reserved_pages_above_low_ram_witness :
    0x100000 + ((build_e820map e820_zero (v_end_of 2)).e820entry 4).size =
      ulong_sub (shared_page_nr_of (v_end_of 2)) 2 * PAGE_SIZE ∧
    ulong_sub (shared_page_nr_of (v_end_of 2)) 2 = 509 ∧
    (shared_page_nr_of (v_end_of 2) + 1) * PAGE_SIZE = min (v_end_of 2) HVM_BELOW_4G_RAM_END :=
  ⟨(reserved_pages_above_low_ram 2 (by decide) (by decide)).2.1, by decide,
   (reserved_pages_above_low_ram 2 (by decide) (by decide)).2.2.2.2.1⟩

/-- Counterexample for C24: a 1 MiB guest.  The size of the low RAM entry is
`2^64 - 0x3000`, so `0x100000` plus its size lies above `min(mem_size, 0xF0000000)`,
which is `0x100000`, and no page lies between the two; the three reserved pages are
253, 254 and 255, below the start of that entry, inside the reserved entry
`[0xF0000, 0x100000)`. -/
theorem reserved_pages_at_1MiB :
    (build_e820map e820_zero (v_end_of 1)).e820entry 4 =
      ⟨0x100000, 2 ^ 64 - 0x3000, E820_RAM⟩ ∧
    min (v_end_of 1) HVM_BELOW_4G_RAM_END = 0x100000 ∧
    0x100000 + ((build_e820map e820_zero (v_end_of 1)).e820entry 4).size >
      min (v_end_of 1) HVM_BELOW_4G_RAM_END ∧
    ulong_sub (shared_page_nr_of (v_end_of 1)) 2 = 253 ∧
    shared_page_nr_of (v_end_of 1) = 255 ∧
    (build_e820map e820_zero (v_end_of 1)).e820entry 3 =
      ⟨0xF0000, 0x10000, E820_RESERVED⟩ ∧
    0xF0000 ≤ 253 * PAGE_SIZE ∧ (255 + 1) * PAGE_SIZE ≤ 0xF0000 + 0x10000 := by
  refine ⟨by decide, by decide, by decide, by decide, by decide, by decide, by decide,
    by decide⟩

/-! ## Bytes read by the validation -/

/-- Claim C25, the failing input.  `header_only_image` and `overhang_image` hold the
same 52 bytes, and both are given with `elfsize = 52`.  The program header table
`e_phoff + e_phnum * e_phentsize = 52 + 1 * 0` passes the check against `elfsize`, and
the header is then read at offsets 52 to 83: `parseelfimage` accepts the one image
and rejects the other, so its result depends on bytes at and beyond `elfsize`. -/
theorem parseelfimage_reads_past_elfsize :
    (∀ i, i < 52 → header_only_image i = overhang_image i) ∧
    (e_phoff overhang_image + e_phnum overhang_image * e_phentsize overhang_image) % 2 ^ 32
      ≤ 52 ∧
    phdr_at overhang_image 0 = 52 ∧
    parseelfimage overhang_image 52 domain_setup_info.zero =
      (0, ⟨0, 0x101000, 0x100000, 0x101000, 0x100000⟩) ∧
    parseelfimage header_only_image 52 domain_setup_info.zero =
      (-EINVAL, domain_setup_info.zero) := by
  refine ⟨by decide, by decide, by decide, by decide, by decide⟩

/-! ## Page-array indices of the loader -/

set_option maxRecDepth 100000 in
/-- Claim C26, the failing input.  A 1 MiB guest has a page array of 256 entries.
The sample image, whose segment starts at `0x100000`, passes the checks of
`setup_guest`, which returns 0; the first iteration of the copy loop uses the page
index `0x100000 >> 12 = 256`, and so does the zero-fill loop: with a page array that
holds its own indices, `loadelfimage` maps frame 256 twice. -/
theorem loadelfimage_indexes_past_page_array :
    (setup_guest env_ok abi_x86_64 world0 1 sample_image 172 ctxt0 7 1 1 1 1 3).rc = 0 ∧
    nr_pages_of 1 = 256 ∧ (init_page_array (nr_pages_of 1)).length = 256 ∧
    is_loadable_phdr sample_image (phdr_at sample_image 0) = true ∧
    0 < p_filesz sample_image (phdr_at sample_image 0) ∧
    load_pa sample_image (phdr_at sample_image 0) 0 0 >>> PAGE_SHIFT = 256 ∧
    (loadelfimage env_ok sample_image world0 (fun i => i)
      (parseelfimage sample_image 172 domain_setup_info.zero).2).2.trace =
      [.map_foreign_range 256, .map_foreign_range 256] := by
  refine ⟨by decide, by decide, by decide, by decide, by decide, by decide, by decide⟩

/-! ## Guest bytes left alone by the loader -/

end XcHvmBuild
